import Mathlib

/-!
# TeensyDMX receiver: a shallow embedding of `Receiver.cpp`

The receive state machine of the TeensyDMX library is embedded as pure
functions on a record `Receiver` that holds the fields of the C++ class.

* `int` values are `Int`; the one `int` sum that can leave the 32-bit range
  (`startChannel + len` in `readPacket`) is wrapped explicitly by `wrapInt32`.
* `uint32_t` microsecond timestamps are `Int` values; every subtraction of two
  timestamps is the wrapping `sub32`.
* The two packet buffers are functions from an index to a byte, and the
  pointers `activeBuf_` / `inactiveBuf_` are values of `BufId`.
* Calls that leave the class (the connection callback, a responder's
  `receivePacket`) are recorded in log fields of the record.
* The counters (`packetCount_` and the members of `ErrorStats`) are `Nat` fields
  that hold the number of increments since the counter was last set to zero. The
  C++ variables are 32 bits wide and wrap: the value a variable holds is the
  field modulo 2^32, `Receiver.counter32`. The member functions only increment,
  reset and return the counters, so no control flow depends on their values.
-/

namespace TeensyDMX

/-! ## Constants -/

/-- The maximum size of a DMX packet, including the start code (`TeensyDMX.h`). -/
def kMaxDMXPacketSize : Int := 513

/-- Microseconds per bit at 250000 baud (`Receiver.cpp`, `1000000 / kSlotsBaud`). -/
def kBitTime : Int := 1000000 / 250000

/-- Microseconds per 8N2 character (`Receiver.cpp`). -/
def kCharTime : Int := 11 * kBitTime

/-- Minimum BREAK time in microseconds (`Receiver.cpp`). -/
def kMinBreakTime : Int := 88

/-- Minimum MAB time in microseconds (`Receiver.cpp`). -/
def kMinMABTime : Int := 8

/-- Modelled from the spec: `kMinDMXPacketTime`, declared in a header that is not
among the sources; section 3 of the specification gives 1196 microseconds (the
same value is named in the timing notes of `Sender.cpp`). -/
def kMinDMXPacketTime : Int := 1196

/-- Modelled from the spec: `kMaxDMXPacketTime`, declared in a header that is not
among the sources; section 3 of the specification gives one second. -/
def kMaxDMXPacketTime : Int := 1000000

/-- Modelled from the spec: `kMaxDMXIdleTime`, declared in a header that is not
among the sources; section 9 of the specification adopts one second. -/
def kMaxDMXIdleTime : Int := 1000000

/-! ## Machine arithmetic -/

/-- Reduction of an integer to the range of `uint32_t`. -/
def u32 (x : Int) : Int := x % 4294967296

/-- Subtraction of two `uint32_t` values. -/
def sub32 (a b : Int) : Int := (a - b) % 4294967296

/-- Two's-complement reduction of an integer to the range of a 32-bit `int`. -/
def wrapInt32 (x : Int) : Int := (x + 2147483648) % 4294967296 - 2147483648

/-! ## Data model -/

/-- Receiver states (`RecvStates`). -/
inductive RecvStates where
  | kBreak
  | kData
  | kIdle
  deriving DecidableEq, Repr

/-- Names of the two packet buffers, the possible values of the pointers
`activeBuf_` and `inactiveBuf_`. -/
inductive BufId where
  | buf1
  | buf2
  deriving DecidableEq, Repr

/-- Modelled from the spec: the `PacketStats` record (section 3); its declaration
is in a header that is not among the sources, the fields are the ones
`Receiver.cpp` assigns. -/
structure PacketStats where
  size : Int
  isShort : Bool
  timestamp : Int
  breakPlusMABTime : Int
  breakTime : Int
  mabTime : Int
  breakToBreakTime : Int
  packetTime : Int
  nextBreakPlusMABTime : Int
  nextBreakTime : Int
  nextMABTime : Int
  deriving DecidableEq, Repr

/-- Value-initialised statistics, `PacketStats{}`. -/
def PacketStats.zero : PacketStats :=
  ⟨0, false, 0, 0, 0, 0, 0, 0, 0, 0, 0⟩

/-- Modelled from the spec: the `ErrorStats` counters (section 3); the declaration
is in a header that is not among the sources. Each field is the number of times
the counter was incremented since it was last set to zero. The members are taken
to be 32 bits wide like `packetCount_`: the value a member holds is the field
modulo 2^32. -/
structure ErrorStats where
  packetTimeoutCount : Nat
  framingErrorCount : Nat
  shortPacketCount : Nat
  deriving DecidableEq, Repr

/-- Value-initialised error counters, `ErrorStats{}`. -/
def ErrorStats.zero : ErrorStats := ⟨0, 0, 0⟩

/-- Modelled from the spec: the `Responder` interface (section 4.3); `Responder.h`
is not among the sources. A responder is given by what its methods return:
`processByte` as a function of the buffer and the number of bytes in it. -/
structure Responder where
  outputBufferSize : Int
  processByte : (Int → Nat) → Int → Int
  eatPacket : Bool

/-- One call of `Responder::receivePacket(buf, len)`: the responder called, the
buffer it was handed and the length argument. -/
structure ReceivePacketCall where
  responder : Responder
  buf : Int → Nat
  len : Int

/-- The fields of the C++ class `Receiver`, followed by the part of the
environment the member functions act on. -/
structure Receiver where
  serialIndex : Int
  txEnabled : Bool
  began : Bool
  state : RecvStates
  keepShortPackets : Bool
  buf1 : Int → Nat
  buf2 : Int → Nat
  activeBuf : BufId
  inactiveBuf : BufId
  activeBufIndex : Int
  packetSize : Int
  packetStats : PacketStats
  lastBreakStartTime : Int
  breakStartTime : Int
  lastSlotEndTime : Int
  connected : Bool
  /-- Whether `connectChangeFunc_` is non-null. -/
  connectChangeFunc : Bool
  errorStats : ErrorStats
  /-- The table `responders_`: `none` is the null pointer, otherwise the 256
  entries indexed by start code. -/
  responders : Option (Nat → Option Responder)
  responderCount : Int
  /-- Whether `responderOutBuf_` is non-null. -/
  responderOutBuf : Bool
  responderOutBufLen : Int
  rxWatchPin : Int
  seenMABStart : Bool
  mabStartTime : Int
  /-- The number of calls of `incPacketCount()` since the last
  `resetPacketCount()`. The variable `packetCount_` is a `volatile unsigned int`
  and holds this number modulo 2^32. -/
  packetCount : Nat
  /-- The value `millis()` returns. -/
  millis : Int
  /-- The idle line type bit: `true` is "idle starts after stop bit". -/
  ilt : Bool
  /-- Whether `periodicTimer_` is running. -/
  timerRunning : Bool
  /-- Whether the rising-edge interrupt of the RX-watch pin is attached. -/
  pinAttached : Bool
  /-- Number of calls of the connection-change callback. -/
  connectChangeCalls : Nat
  /-- Number of times `connected_` was given a value different from the one it
  had. -/
  connectedChanges : Nat
  /-- The calls of `receivePacket` made so far, oldest first. -/
  receivePacketCalls : List ReceivePacketCall

namespace Receiver

/-- The constructor `Receiver::Receiver(uart)`. -/
def new (serialIndex : Int) : Receiver where
  serialIndex := serialIndex
  txEnabled := true
  began := false
  state := RecvStates.kIdle
  keepShortPackets := false
  buf1 := fun _ => 0
  buf2 := fun _ => 0
  activeBuf := BufId.buf1
  inactiveBuf := BufId.buf2
  activeBufIndex := 0
  packetSize := 0
  packetStats := PacketStats.zero
  lastBreakStartTime := 0
  breakStartTime := 0
  lastSlotEndTime := 0
  connected := false
  connectChangeFunc := false
  errorStats := ErrorStats.zero
  responders := none
  responderCount := 0
  responderOutBuf := false
  responderOutBufLen := 0
  rxWatchPin := -1
  seenMABStart := false
  mabStartTime := 0
  packetCount := 0
  millis := 0
  ilt := false
  timerRunning := false
  pinAttached := false
  connectChangeCalls := 0
  connectedChanges := 0
  receivePacketCalls := []

/-- Contents of the buffer a `BufId` points to. -/
def bufOf (s : Receiver) : BufId → (Int → Nat)
  | BufId.buf1 => s.buf1
  | BufId.buf2 => s.buf2

/-- Contents of `activeBuf_`. -/
def activeData (s : Receiver) : Int → Nat := s.bufOf s.activeBuf

/-- Contents of `inactiveBuf_`. -/
def inactiveData (s : Receiver) : Int → Nat := s.bufOf s.inactiveBuf

/-- The store `activeBuf_[i] = b`. -/
def writeActive (s : Receiver) (i : Int) (b : Nat) : Receiver :=
  match s.activeBuf with
  | BufId.buf1 => { s with buf1 := Function.update s.buf1 i b }
  | BufId.buf2 => { s with buf2 := Function.update s.buf2 i b }

/-- `Receiver::setConnected`. -/
def setConnected (s : Receiver) (flag : Bool) : Receiver :=
  if s.connected != flag then
    { s with
      connected := flag
      connectedChanges := s.connectedChanges + 1
      connectChangeCalls :=
        if s.connectChangeFunc then s.connectChangeCalls + 1 else s.connectChangeCalls }
  else s

/-- `Receiver::clearILT`: idle detection "after start bit". -/
def clearILT (s : Receiver) : Receiver := { s with ilt := false }

/-- `Receiver::setILT`: idle detection "after stop bit". -/
def setILT (s : Receiver) : Receiver := { s with ilt := true }

/-- The call `periodicTimer_.end()`. -/
def timerEnd (s : Receiver) : Receiver := { s with timerRunning := false }

/-- The call `periodicTimer_.begin(...)` at the end of `Receiver::receiveIdle`. -/
def timerBegin (s : Receiver) : Receiver := { s with timerRunning := true }

/-- The short-packet check of `Receiver::completePacket` (lines 836-846). -/
def checkShort (s : Receiver) : Receiver :=
  if sub32 s.lastSlotEndTime s.breakStartTime < kMinDMXPacketTime then
    let s1 := { s with
      errorStats := { s.errorStats with shortPacketCount := s.errorStats.shortPacketCount + 1 } }
    if s1.keepShortPackets then
      { s1 with packetStats := { s1.packetStats with isShort := true } }
    else
      { s1 with packetStats := { s1.packetStats with isShort := false }, activeBufIndex := 0 }
  else
    { s with packetStats := { s.packetStats with isShort := false } }

/-- The buffer swap of `Receiver::completePacket` (lines 849-855). -/
def swapBuffers (s : Receiver) : Receiver :=
  if s.activeBuf = BufId.buf1 then
    { s with activeBuf := BufId.buf2, inactiveBuf := BufId.buf1 }
  else
    { s with activeBuf := BufId.buf1, inactiveBuf := BufId.buf2 }

/-- The statistics update of `Receiver::completePacket` (lines 857-865). -/
def publishStats (s : Receiver) : Receiver :=
  { s with
    packetCount := s.packetCount + 1
    packetSize := s.activeBufIndex
    packetStats := { s.packetStats with
      size := s.activeBufIndex
      timestamp := s.millis
      packetTime := sub32 s.lastSlotEndTime s.breakStartTime
      breakPlusMABTime := s.packetStats.nextBreakPlusMABTime
      breakTime := s.packetStats.nextBreakTime
      mabTime := s.packetStats.nextMABTime } }

/-- The responder `responders_[startCode].get()`, null when there is no table. -/
def responderFor (s : Receiver) (startCode : Nat) : Option Responder :=
  match s.responders with
  | none => none
  | some tbl => tbl startCode

/-- The responder dispatch of `Receiver::completePacket` (lines 868-876). -/
def dispatchPacket (s : Receiver) : Receiver :=
  match s.responderFor (s.inactiveData 0) with
  | none => s
  | some r =>
    let s1 := { s with
      receivePacketCalls := s.receivePacketCalls ++ [⟨r, s.inactiveData, s.packetSize⟩] }
    if r.eatPacket then
      { s1 with packetSize := 0, packetStats := { s1.packetStats with size := 0 } }
    else s1

/-- `Receiver::completePacket`. -/
def completePacket (s : Receiver) : Receiver :=
  let s0 := clearILT { s with state := RecvStates.kIdle }
  if s0.activeBufIndex ≤ 0 then s0
  else
    { dispatchPacket (publishStats (swapBuffers (checkShort s0))) with activeBufIndex := 0 }

/-- `Receiver::receiveBadBreak`. -/
def receiveBadBreak (s : Receiver) : Receiver :=
  let s1 := { s with
    errorStats := { s.errorStats with framingErrorCount := s.errorStats.framingErrorCount + 1 } }
  setConnected (completePacket { s1 with activeBufIndex := 0 }) false

/-- The callback `Receiver::receiveIdle` hands to `periodicTimer_`, run when the
timer fires. -/
def timerFired (s : Receiver) : Receiver :=
  if s.timerRunning then
    setConnected (completePacket (timerEnd s)) false
  else s

/-- `Receiver::receiveIdle`. -/
def receiveIdle (s : Receiver) (eventTime : Int) : Receiver :=
  match s.state with
  | RecvStates.kBreak =>
    if s.seenMABStart then
      if sub32 s.mabStartTime s.breakStartTime < kMinBreakTime then
        receiveBadBreak { s with seenMABStart := false }
      else timerBegin s
    else
      if sub32 eventTime s.breakStartTime < u32 (kMinBreakTime + kCharTime) then
        receiveBadBreak { s with seenMABStart := false }
      else
        timerBegin (setILT { s with seenMABStart := true, mabStartTime := sub32 eventTime kCharTime })
  | RecvStates.kData =>
    if sub32 eventTime s.breakStartTime > kMaxDMXPacketTime ∨
        sub32 eventTime s.lastSlotEndTime ≥ kMaxDMXIdleTime then
      setConnected (completePacket s) false
    else timerBegin s
  | RecvStates.kIdle => timerBegin s

/-- `Receiver::receivePotentialBreak`. -/
def receivePotentialBreak (s : Receiver) (eventTime : Int) : Receiver :=
  let s1 := { timerEnd s with
    breakStartTime := sub32 eventTime kCharTime
    state := RecvStates.kBreak }
  if s1.rxWatchPin ≥ 0 then { s1 with seenMABStart := false, pinAttached := true }
  else s1

/-- `Receiver::rxPinRose_isr`, with the value `micros()` returns. -/
def rxPinRose_isr (s : Receiver) (micros : Int) : Receiver :=
  let s1 := { s with mabStartTime := micros }
  if !s1.seenMABStart then setILT { s1 with seenMABStart := true, pinAttached := false }
  else setILT { s1 with seenMABStart := false }

/-- `Receiver::setRXWatchPin`. -/
def setRXWatchPin (s : Receiver) (pin : Int) : Receiver :=
  if pin < 0 then
    { s with
      pinAttached := if s.rxWatchPin ≥ 0 then false else s.pinAttached
      rxWatchPin := -1
      seenMABStart := false }
  else if s.rxWatchPin ≠ pin then
    { s with pinAttached := false, rxWatchPin := pin, seenMABStart := false }
  else s

/-- The bookkeeping `Receiver::receiveByte` does for the first byte after a valid
BREAK (lines 1187-1222): the previous packet is completed or dropped, the BREAK
and MAB measurements are stored and the state becomes `kData`. -/
def acceptBreak (s : Receiver) (eopTime breakTime mabTime : Int) : Receiver :=
  let s1 :=
    if s.connected then
      let dt := sub32 s.breakStartTime s.lastBreakStartTime
      let s2 := { s with packetStats := { s.packetStats with breakToBreakTime := dt } }
      if dt < kMinDMXPacketTime then
        completePacket { s2 with
          errorStats := { s2.errorStats with
            shortPacketCount := s2.errorStats.shortPacketCount + 1 }
          activeBufIndex := 0 }
      else if dt > kMaxDMXPacketTime then
        completePacket { s2 with
          errorStats := { s2.errorStats with
            packetTimeoutCount := s2.errorStats.packetTimeoutCount + 1 } }
      else completePacket s2
    else
      { s with
        packetStats := { s.packetStats with breakToBreakTime := 0 }
        activeBufIndex := 0 }
  let s3 := { s1 with
    packetStats := { s1.packetStats with
      nextBreakPlusMABTime := sub32 (sub32 eopTime kCharTime) s1.breakStartTime
      nextBreakTime := breakTime
      nextMABTime := mabTime }
    lastBreakStartTime := s1.breakStartTime }
  { setConnected s3 true with state := RecvStates.kData }

/-- The store `activeBuf_[activeBufIndex_++] = b` of `Receiver::receiveByte`
(line 1261). -/
def putByte (s : Receiver) (b : Nat) : Receiver :=
  { writeActive s s.activeBufIndex b with activeBufIndex := s.activeBufIndex + 1 }

/-- What `Receiver::receiveByte` does after the store (lines 1262-1290): the
responder for the start code, if any, processes the byte, and the packet is
completed when the buffer is full or the responder has a reply. The reply is
sent on the UART after `completePacket` and writes no field of the class; it is
not part of the record. -/
def processStored (s : Receiver) : Receiver :=
  let packetFull : Bool := decide (s.activeBufIndex = kMaxDMXPacketSize)
  match s.responderFor (s.activeData 0) with
  | none => if packetFull then completePacket s else s
  | some r =>
    if r.processByte s.activeData s.activeBufIndex ≤ 0 then
      if packetFull then completePacket s else s
    else completePacket s

/-- The part of `Receiver::receiveByte` after the state switch (lines 1247-1290):
the packet-time check, the store of the byte and the responder's `processByte`. -/
def storeByte (s : Receiver) (b : Nat) (eopTime : Int) : Receiver :=
  let s1 := { s with lastSlotEndTime := eopTime }
  if sub32 eopTime s1.breakStartTime > kMaxDMXPacketTime then
    setConnected
      (completePacket { s1 with
        errorStats := { s1.errorStats with
          packetTimeoutCount := s1.errorStats.packetTimeoutCount + 1 } })
      false
  else processStored (putByte s1 b)

/-- `Receiver::receiveByte`. -/
def receiveByte (s : Receiver) (b : Nat) (eopTime : Int) : Receiver :=
  let s0 := timerEnd s
  match s0.state with
  | RecvStates.kBreak =>
    if s0.seenMABStart then
      let s1 := { s0 with seenMABStart := false }
      if sub32 s1.mabStartTime s1.breakStartTime < kMinBreakTime ∨
          sub32 eopTime s1.mabStartTime < u32 (kMinMABTime + kCharTime) then
        receiveBadBreak s1
      else
        let breakTime := sub32 s1.mabStartTime s1.breakStartTime
        let mabTime := sub32 (sub32 eopTime kCharTime) s1.mabStartTime
        if mabTime ≥ kMaxDMXIdleTime then setConnected (completePacket s1) false
        else storeByte (acceptBreak s1 eopTime breakTime mabTime) b eopTime
    else
      let s1 := { s0 with seenMABStart := false }
      if sub32 eopTime s1.breakStartTime < u32 (kMinBreakTime + kMinMABTime + kCharTime) then
        receiveBadBreak s1
      else storeByte (acceptBreak (setILT s1) eopTime 0 0) b eopTime
  | RecvStates.kData =>
    if sub32 eopTime s0.breakStartTime <
        u32 (kMinBreakTime + kMinMABTime + kCharTime + kCharTime * s0.activeBufIndex) then
      receiveBadBreak s0
    else storeByte s0 b eopTime
  | RecvStates.kIdle => s0

/-- The effect of `Receiver::begin` on the receiver itself, for a supported serial
port; the entry of the instance table `rxInstances` is not a field of the
class. -/
def begin (s : Receiver) : Receiver :=
  if s.began then s
  else
    let s1 := { s with began := true }
    if s1.serialIndex < 0 then s1
    else
      let s2 := { s1 with
        packetCount := 0
        packetSize := 0
        lastBreakStartTime := 0
        packetStats := PacketStats.zero
        errorStats := ErrorStats.zero
        state := RecvStates.kIdle
        activeBufIndex := 0 }
      clearILT (setConnected s2 false)

/-- What `Receiver::readPacket` returns: the return value, the caller's buffer,
the caller's statistics record (`none` is a null `stats` pointer) and the
receiver afterwards. -/
structure ReadResult where
  retval : Int
  buf : Int → Nat
  stats : Option PacketStats
  recv : Receiver

/-- The copy `std::copy_n(&src[start], len, &dst[0])`. -/
def copy_n (src : Int → Nat) (start len : Int) (dst : Int → Nat) : Int → Nat :=
  fun i => if 0 ≤ i ∧ i < len then src (start + i) else dst i

/-- `Receiver::readPacket`. The sum `startChannel + len` is an `int` sum and is
reduced to 32 bits. -/
def readPacket (s : Receiver) (buf : Int → Nat) (startChannel len : Int)
    (stats : Option PacketStats) : ReadResult :=
  if len ≤ 0 ∨ startChannel < 0 ∨ kMaxDMXPacketSize ≤ startChannel then
    ⟨0, buf, stats, s⟩
  else
    let stats1 := stats.map fun _ => s.packetStats
    if s.packetSize > 0 then
      if startChannel ≥ s.packetSize then
        ⟨0, buf, stats1, { s with packetSize := 0 }⟩
      else
        let len1 :=
          if wrapInt32 (startChannel + len) > s.packetSize then s.packetSize - startChannel
          else len
        ⟨len1, copy_n s.inactiveData startChannel len1 buf, stats1, { s with packetSize := 0 }⟩
    else
      ⟨-1, buf, stats1, s⟩

/-- `Receiver::setResponder`. A null responder is `none`; `tableAlloc` and
`outBufAlloc` say whether the allocation of the table and of the output buffer
succeed when the call makes them. The result is the returned pointer and the
receiver afterwards. -/
def setResponder (s : Receiver) (startCode : Nat) (r : Option Responder)
    (tableAlloc outBufAlloc : Bool) : Option Responder × Receiver :=
  match r with
  | none =>
    match s.responders with
    | none => (none, s)
    | some tbl =>
      let old := tbl startCode
      let s1 := if old.isSome then { s with responderCount := s.responderCount - 1 } else s
      let s2 :=
        if s1.responderCount = 0 then { s1 with responderOutBuf := false, responders := none }
        else s1
      (old, s2)
  | some resp =>
    let allocated : Option (Nat → Option Responder) :=
      match s.responders with
      | some tbl => some tbl
      | none => if tableAlloc then some (fun _ => none) else none
    match allocated with
    | none => (none, s)
    | some tbl =>
      let s1 := { s with responders := some tbl }
      let outBufSize := resp.outputBufferSize
      let needOutBuf : Bool := !s1.responderOutBuf || decide (s1.responderOutBufLen < outBufSize)
      if needOutBuf && !outBufAlloc then
        (none, { s1 with
          responderOutBuf := false
          responderOutBufLen := 0
          responders := none
          responderCount := 0 })
      else
        let s2 :=
          if needOutBuf then { s1 with responderOutBuf := true, responderOutBufLen := outBufSize }
          else s1
        let old := tbl startCode
        let s3 := { s2 with responders := some (Function.update tbl startCode (some resp)) }
        (old, if old.isSome then s3 else { s3 with responderCount := s3.responderCount + 1 })

/-! ## Wire scenarios -/

/-- A freshly begun receiver on the first serial port: no responder, keep-short
packets off, no RX-watch pin. -/
def fresh : Receiver := begin (new 0)

/-- Bytes arriving back to back: the stop bit of the first ends at `eop`, the
stop bit of each following byte one character time later. -/
def feedBytes (s : Receiver) : List Nat → Int → Receiver
  | [], _ => s
  | b :: bs, eop => feedBytes (receiveByte s b (u32 eop)) bs (eop + kCharTime)

/-- Modelled from the spec: the delivery of UART events to the handlers (the
interrupt routines of `uart_routine_defines.h` are not among the sources). As in
section 4.1, a framing error with end-of-character time `e` is
`receivePotentialBreak e`, so that the BREAK starts at `e - kCharTime`, and a byte
whose stop bit ends at `e` is `receiveByte b e`.

The events of one packet on the wire: a framing error for a BREAK that starts at
`t`, then the bytes back to back after a BREAK of `breakTime` and a MAB of
`mabTime` microseconds. -/
def wirePacket (s : Receiver) (t breakTime mabTime : Int) (bytes : List Nat) : Receiver :=
  feedBytes (receivePotentialBreak s (u32 (t + kCharTime))) bytes
    (t + breakTime + mabTime + kCharTime)

/-- End of a packet by idle timeout: the idle-line event at `eventTime`
(`receiveIdle`), then the expiry of the timer that event may have started. -/
def endByIdle (s : Receiver) (eventTime : Int) : Receiver :=
  timerFired (receiveIdle s eventTime)

/-- End of a packet by the next BREAK, starting at `breakStart`, and a first byte
`b` whose stop bit ends at `eop`. -/
def endByBreak (s : Receiver) (breakStart : Int) (b : Nat) (eop : Int) : Receiver :=
  receiveByte (receivePotentialBreak s (u32 (breakStart + kCharTime))) b (u32 eop)

/-- The receiver after a 25-slot packet with the ascending bytes 0..24 (BREAK at
time 0, BREAK = 100 us, MAB = 12 us) that was ended by an idle timeout. -/
def packet25 : Receiver :=
  endByIdle (wirePacket fresh 0 100 12 (List.range 25)) 1300

/-- A responder that never replies (`processByte` returns 0) and eats every packet. -/
def eater : Responder := ⟨16, fun _ _ => 0, true⟩

/-- A freshly begun receiver with `eater` registered for start code 0xCC. -/
def withEater : Receiver := (setResponder fresh 0xCC (some eater) true true).2

/-- A responder that never replies and does not eat packets. -/
def watcher : Responder := ⟨8, fun _ _ => 0, false⟩

/-- A freshly begun receiver with `eater` registered for start code 1 and `watcher`
for start code 2. -/
def twoResponders : Receiver :=
  (setResponder (setResponder fresh 1 (some eater) true true).2 2 (some watcher) true true).2

/-! ## Predicates used in the proofs -/

/-- The published packet as `readPacket` and `packetCount` see it. -/
def view (s : Receiver) : Nat × Int × (Int → Nat) :=
  (s.packetCount, s.packetSize, s.inactiveData)

/-- The statistics an application can read: error counters, packet statistics,
published size and packet count. -/
def sview (s : Receiver) : ErrorStats × PacketStats × Int × Nat :=
  (s.errorStats, s.packetStats, s.packetSize, s.packetCount)

/-- The receiver at the top of the `kBreak` case of `receiveByte`: the timer is
stopped and `seenMABStart_` is cleared. -/
def breakEntry (s : Receiver) : Receiver :=
  { timerEnd s with seenMABStart := false }

/-- The receiver is in the middle of the first packet after `begin`, whose BREAK
started at `t` and whose first start bit came `off` microseconds later: the bytes
`pre` are in the active buffer. -/
structure Filling (s : Receiver) (t off : Int) (pre : List Nat) : Prop where
  state : s.state = RecvStates.kData
  idx : s.activeBufIndex = pre.length
  pos : 0 < pre.length
  brk : s.breakStartTime = t
  lastBrk : s.lastBreakStartTime = t
  last : s.lastSlotEndTime = u32 (t + off + 44 * pre.length)
  data : ∀ (i : Nat) (h : i < pre.length), s.activeData i = pre[i]
  resp : s.responders = none
  keep : s.keepShortPackets = false
  pin : s.rxWatchPin = -1
  seen : s.seenMABStart = false
  count : s.packetCount = 0
  size : s.packetSize = 0
  conn : s.connected = true
  errs : s.errorStats = ErrorStats.zero

/-- One packet holding `bytes` has been published. -/
structure Published (s : Receiver) (bytes : List Nat) : Prop where
  count : s.packetCount = 1
  size : s.packetSize = bytes.length
  data : ∀ (i : Nat) (h : i < bytes.length), s.inactiveData i = bytes[i]

/-- The packet `bytes` was completed and nothing has arrived since. -/
structure Completed (s : Receiver) (bytes : List Nat) extends Published s bytes : Prop where
  state : s.state = RecvStates.kIdle
  idx : s.activeBufIndex = 0
  distinct : s.activeBuf ≠ s.inactiveBuf
  resp : s.responders = none
  pin : s.rxWatchPin = -1
  seen : s.seenMABStart = false

/-- State of the receiver after the bytes of one packet: still filling, or
completed by the 513th byte. -/
def Received (s : Receiver) (t off : Int) (bytes : List Nat) : Prop :=
  (bytes.length < 513 ∧ Filling s t off bytes) ∨ (bytes.length = 513 ∧ Completed s bytes)

/-! ## Further members of `Receiver` and the operations as a step function -/

/-- The effect of `Receiver::end` on the receiver itself; the entry of the instance
table `rxInstances` is not a field of the class. -/
def end_ (s : Receiver) : Receiver :=
  if !s.began then s
  else
    let s1 := { s with began := false }
    if s1.serialIndex < 0 then s1 else setConnected s1 false

/-- Modelled from the spec: `setKeepShortPackets` (section 4.1), declared in a
header that is not among the sources: it stores the flag. -/
def setKeepShortPackets (s : Receiver) (flag : Bool) : Receiver :=
  { s with keepShortPackets := flag }

/-- Modelled from the spec: `setConnectChangeCallback` (section 4.1), declared in a
header that is not among the sources: it stores the function pointer; `installed`
says whether the pointer is non-null. -/
def setConnectChangeCallback (s : Receiver) (installed : Bool) : Receiver :=
  { s with connectChangeFunc := installed }

/-- `Receiver::get(channel, rangeError)`. The pointer `rangeError` is `none` when
null, otherwise the value it points to; the result is the returned byte and the
value behind the pointer afterwards. -/
def get (s : Receiver) (channel : Int) (rangeError : Option Bool) : Nat × Option Bool :=
  let re := rangeError.map fun _ => true
  if channel < 0 ∨ kMaxDMXPacketSize ≤ channel then (0, re)
  else if channel < s.packetStats.size then
    (s.inactiveData channel, re.map fun _ => false)
  else (0, re)

/-- The 16-bit value `(uint16_t{hi} << 8) | uint16_t{lo}` that `Receiver::get16Bit`
builds from two bytes. -/
def decode16 (hi lo : Nat) : Nat := ((hi <<< 8) ||| lo) % 65536

/-- `Receiver::get16Bit(channel, rangeError)`, with the pointer as in `get`. -/
def get16Bit (s : Receiver) (channel : Int) (rangeError : Option Bool) : Nat × Option Bool :=
  let re := rangeError.map fun _ => true
  if channel < 0 ∨ kMaxDMXPacketSize - 1 ≤ channel then (0, re)
  else if channel < s.packetStats.size - 1 then
    (decode16 (s.inactiveData channel) (s.inactiveData (channel + 1)), re.map fun _ => false)
  else (0, re)

/-- The operations on one receiver: calls of the application and events of the
interrupt routines. -/
inductive Op where
  | begin
  | end_
  | receiveByte (b : Nat) (eopTime : Int)
  | receivePotentialBreak (eventTime : Int)
  | receiveIdle (eventTime : Int)
  | timerFired
  | rxPinRose (micros : Int)
  | readPacket (buf : Int → Nat) (startChannel len : Int) (stats : Option PacketStats)
  | setResponder (startCode : Nat) (r : Option Responder) (tableAlloc outBufAlloc : Bool)
  | setRXWatchPin (pin : Int)
  | setKeepShortPackets (flag : Bool)
  | setConnectChangeCallback (installed : Bool)
  | millis (ms : Int)

/-- The receiver after one operation. `Op.millis` is the clock moving on. -/
def step (s : Receiver) : Op → Receiver
  | Op.begin => begin s
  | Op.end_ => end_ s
  | Op.receiveByte b eopTime => receiveByte s b eopTime
  | Op.receivePotentialBreak eventTime => receivePotentialBreak s eventTime
  | Op.receiveIdle eventTime => receiveIdle s eventTime
  | Op.timerFired => timerFired s
  | Op.rxPinRose micros => rxPinRose_isr s micros
  | Op.readPacket buf startChannel len stats => (readPacket s buf startChannel len stats).recv
  | Op.setResponder startCode r tableAlloc outBufAlloc =>
    (setResponder s startCode r tableAlloc outBufAlloc).2
  | Op.setRXWatchPin pin => setRXWatchPin s pin
  | Op.setKeepShortPackets flag => setKeepShortPackets s flag
  | Op.setConnectChangeCallback installed => setConnectChangeCallback s installed
  | Op.millis ms => { s with millis := ms }

/-- The receiver after a sequence of operations, first operation first. -/
def run (s : Receiver) (ops : List Op) : Receiver := ops.foldl step s

/-- The states a receiver constructed for a serial port can get into. -/
def Reachable (s : Receiver) : Prop :=
  ∃ (serialIndex : Int) (ops : List Op), s = run (new serialIndex) ops

/-- Bounds kept by every operation: the fill index of the active buffer and the
published sizes. -/
structure Bounded (s : Receiver) : Prop where
  idx0 : 0 ≤ s.activeBufIndex
  idx : s.activeBufIndex < kMaxDMXPacketSize
  size0 : 0 ≤ s.packetStats.size
  size : s.packetStats.size ≤ kMaxDMXPacketSize
  psize0 : 0 ≤ s.packetSize
  psize : s.packetSize ≤ kMaxDMXPacketSize

/-- The fields `Bounded` is about. -/
def bview (s : Receiver) : Int × Int × Int :=
  (s.activeBufIndex, s.packetStats.size, s.packetSize)

/-- The fields `Track` is about. -/
def tally (s : Receiver) : ErrorStats × Nat × Bool × Nat × Nat :=
  (s.errorStats, s.packetCount, s.connectChangeFunc, s.connectChangeCalls, s.connectedChanges)

/-- The four counters of a receiver. -/
def counters (s : Receiver) : Nat × Nat × Nat × Nat :=
  (s.errorStats.framingErrorCount, s.errorStats.shortPacketCount,
    s.errorStats.packetTimeoutCount, s.packetCount)

/-- No counter of `a` is larger than the same counter of `b`. -/
def countersLe (a b : Nat × Nat × Nat × Nat) : Prop :=
  a.1 ≤ b.1 ∧ a.2.1 ≤ b.2.1 ∧ a.2.2.1 ≤ b.2.2.1 ∧ a.2.2.2 ≤ b.2.2.2

/-- Names of the four counters of a receiver. -/
inductive Counter where
  | framingErrorCount
  | shortPacketCount
  | packetTimeoutCount
  | packetCount
  deriving DecidableEq, Repr

/-- The number of increments of a counter since it was last set to zero. -/
def count (s : Receiver) : Counter → Nat
  | Counter.framingErrorCount => s.errorStats.framingErrorCount
  | Counter.shortPacketCount => s.errorStats.shortPacketCount
  | Counter.packetTimeoutCount => s.errorStats.packetTimeoutCount
  | Counter.packetCount => s.packetCount

/-- The value the 32-bit C++ variable of a counter holds, which is what
`packetCount()` and `errorStats()` return: every `++` is an addition modulo
2^32, so the variable holds the number of increments modulo 2^32. -/
def counter32 (s : Receiver) (c : Counter) : Nat := count s c % 4294967296

/-- Upper bounds for the increments between `s` and `r`: the framing-error
counter was incremented at most `f` times, the short-packet counter at most `p`
times, the timeout counter at most `t` times and the packet counter at most `c`
times. -/
structure Grow (f p t c : Nat) (s r : Receiver) : Prop where
  framing : r.errorStats.framingErrorCount ≤ s.errorStats.framingErrorCount + f
  short : r.errorStats.shortPacketCount ≤ s.errorStats.shortPacketCount + p
  timeout : r.errorStats.packetTimeoutCount ≤ s.errorStats.packetTimeoutCount + t
  packets : r.packetCount ≤ s.packetCount + c

/-- What the operations between `s` and `t` did to the counters and to the
connection callback: no counter went down, the callback pointer is the same, and
the callback was called once for each change of `connected_` if it is non-null
and not at all if it is null. -/
structure Track (s t : Receiver) : Prop where
  counts : countersLe (counters s) (counters t)
  func : t.connectChangeFunc = s.connectChangeFunc
  calls : s.connectChangeFunc = true →
    t.connectChangeCalls + s.connectedChanges = s.connectChangeCalls + t.connectedChanges
  quiet : s.connectChangeFunc = false → t.connectChangeCalls = s.connectChangeCalls

/-- The operations that make `packet25` out of a newly constructed receiver:
`begin`, the framing error of the BREAK, the 25 bytes, the idle-line event and
the expiry of the timer. -/
def packet25Ops : List Op :=
  Op.begin :: Op.receivePotentialBreak 44 ::
    ((List.range 25).map fun i => Op.receiveByte i (156 + 44 * (i : Int))) ++
      [Op.receiveIdle 1300, Op.timerFired]

/-- A responder that needs a 64-byte output buffer, more than `eater` does. -/
def bigResponder : Responder := ⟨64, fun _ _ => 0, false⟩

end Receiver

/-! ## Sender -/

/-- The fields of `Sender` that `begin`, `end` and the `set` functions use. The
transmit state machine and the UART are outside the model. -/
structure Sender where
  /-- Index of the serial port, negative when the port is not supported. -/
  serialIndex : Int
  began : Bool
  /-- The array `outputBuf_`, read at indices 0 to 512. -/
  outputBuf : Int → Nat
  packetCount : Nat
  transmitting : Bool
  /-- Whether `periodicTimer_` is running. -/
  timerRunning : Bool

namespace Sender

/-- The constructor `Sender::Sender`. -/
def new (serialIndex : Int) : Sender where
  serialIndex := serialIndex
  began := false
  outputBuf := fun _ => 0
  packetCount := 0
  transmitting := false
  timerRunning := false

/-- The effect of `Sender::begin` on the sender itself; the entry of the instance
table `txInstances` is not a field of the class. -/
def begin (s : Sender) : Sender :=
  if s.began then s
  else
    let s1 := { s with began := true }
    if s1.serialIndex < 0 then s1
    else { s1 with packetCount := 0, transmitting := false }

/-- The effect of `Sender::end` on the sender itself. -/
def end_ (s : Sender) : Sender :=
  if !s.began then s
  else
    let s1 := { s with began := false }
    if s1.serialIndex < 0 then s1 else { s1 with timerRunning := false }

/-- `Sender::set(int channel, uint8_t value)`: the returned flag and the sender
afterwards. The argument is converted to a byte. -/
def set (s : Sender) (channel : Int) (value : Nat) : Bool × Sender :=
  if channel < 0 ∨ kMaxDMXPacketSize ≤ channel then (false, s)
  else (true, { s with outputBuf := Function.update s.outputBuf channel (value % 256) })

/-- `Sender::set16Bit(int channel, uint16_t value)`. The argument is converted to
16 bits, and each store converts to a byte. -/
def set16Bit (s : Sender) (channel : Int) (value : Nat) : Bool × Sender :=
  if channel < 0 ∨ kMaxDMXPacketSize - 1 ≤ channel then (false, s)
  else
    let v := value % 65536
    let buf1 := Function.update s.outputBuf channel ((v >>> 8) % 256)
    (true, { s with outputBuf := Function.update buf1 (channel + 1) (v % 256) })

/-- The copy `std::copy_n(&values[0], len, &dst[start])`. -/
def copy_n_to (values : Int → Nat) (len : Int) (dst : Int → Nat) (start : Int) : Int → Nat :=
  fun i => if start ≤ i ∧ i < start + len then values (i - start) else dst i

/-- `Sender::set(int startChannel, const uint8_t *values, int len)`. The sum
`startChannel + len` is an `int` sum and is reduced to 32 bits. -/
def setRange (s : Sender) (startChannel : Int) (values : Int → Nat) (len : Int) :
    Bool × Sender :=
  if len < 0 ∨ startChannel < 0 ∨ kMaxDMXPacketSize ≤ startChannel then (false, s)
  else if len = 0 then (true, s)
  else if wrapInt32 (startChannel + len) ≤ 0 ∨
      kMaxDMXPacketSize < wrapInt32 (startChannel + len) then (false, s)
  else (true, { s with outputBuf := copy_n_to values len s.outputBuf startChannel })

end Sender

/-! ## The instance tables -/

/-- All receivers and senders of a program, named by numbers, and the two static
tables `rxInstances` (Receiver.cpp) and `txInstances` (Sender.cpp) that map a
serial-port index to the instance the interrupt routines serve. -/
structure World where
  receivers : Nat → Receiver
  senders : Nat → Sender
  rxInstances : Int → Option Nat
  txInstances : Int → Option Nat

namespace World

/-- A program that has constructed its receivers and senders, receiver and sender
`n` for the serial port with index `rxPort n` and `txPort n`, and has begun
none. -/
def init (rxPort txPort : Nat → Int) : World where
  receivers := fun n => Receiver.new (rxPort n)
  senders := fun n => Sender.new (txPort n)
  rxInstances := fun _ => none
  txInstances := fun _ => none

/-- `Receiver::end` called on receiver `a`, table entry included. -/
def endRx (w : World) (a : Nat) : World :=
  let r := w.receivers a
  if !r.began then w
  else
    { w with
      receivers := Function.update w.receivers a (Receiver.end_ r)
      rxInstances :=
        if 0 ≤ r.serialIndex ∧ w.rxInstances r.serialIndex = some a then
          Function.update w.rxInstances r.serialIndex none
        else w.rxInstances }

/-- The assignment `rxInstances[serialIndex_] = this` of `Receiver::begin`, for
receiver `a`. -/
def claimRx (w : World) (a : Nat) : World :=
  { w with rxInstances := Function.update w.rxInstances (w.receivers a).serialIndex (some a) }

/-- `Receiver::begin` called on receiver `a`, table entry included: the previous
owner of the entry, if it is another receiver, is ended. -/
def beginRx (w : World) (a : Nat) : World :=
  let r := w.receivers a
  if r.began then w
  else if r.serialIndex < 0 then
    { w with receivers := Function.update w.receivers a (Receiver.begin r) }
  else
    let prev := w.rxInstances r.serialIndex
    let w1 := claimRx w a
    let w2 :=
      match prev with
      | some b => if b ≠ a then endRx w1 b else w1
      | none => w1
    { w2 with receivers := Function.update w2.receivers a (Receiver.begin r) }

/-- `Sender::end` called on sender `a`, table entry included. -/
def endTx (w : World) (a : Nat) : World :=
  let r := w.senders a
  if !r.began then w
  else
    { w with
      senders := Function.update w.senders a (Sender.end_ r)
      txInstances :=
        if 0 ≤ r.serialIndex ∧ w.txInstances r.serialIndex = some a then
          Function.update w.txInstances r.serialIndex none
        else w.txInstances }

/-- The assignment `txInstances[serialIndex_] = this` of `Sender::begin`, for
sender `a`. -/
def claimTx (w : World) (a : Nat) : World :=
  { w with txInstances := Function.update w.txInstances (w.senders a).serialIndex (some a) }

/-- `Sender::begin` called on sender `a`, table entry included. -/
def beginTx (w : World) (a : Nat) : World :=
  let r := w.senders a
  if r.began then w
  else if r.serialIndex < 0 then
    { w with senders := Function.update w.senders a (Sender.begin r) }
  else
    let prev := w.txInstances r.serialIndex
    let w1 := claimTx w a
    let w2 :=
      match prev with
      | some b => if b ≠ a then endTx w1 b else w1
      | none => w1
    { w2 with senders := Function.update w2.senders a (Sender.begin r) }

/-- The calls of `begin` and `end` a program makes on its instances. -/
inductive Call where
  | beginRx (a : Nat)
  | endRx (a : Nat)
  | beginTx (a : Nat)
  | endTx (a : Nat)

/-- The program after one call. -/
def call (w : World) : Call → World
  | Call.beginRx a => beginRx w a
  | Call.endRx a => endRx w a
  | Call.beginTx a => beginTx w a
  | Call.endTx a => endTx w a

/-- The program after a sequence of calls, first call first. -/
def calls (w : World) (cs : List Call) : World := cs.foldl call w

/-- Every begun receiver on a supported serial port owns the entry of its port,
and the same for senders. -/
structure Owned (w : World) : Prop where
  rx : ∀ a, (w.receivers a).began = true → 0 ≤ (w.receivers a).serialIndex →
    w.rxInstances (w.receivers a).serialIndex = some a
  tx : ∀ a, (w.senders a).began = true → 0 ≤ (w.senders a).serialIndex →
    w.txInstances (w.senders a).serialIndex = some a

/-- The programs that come about: some instances are constructed and then
`begin` and `end` are called on them in some order. -/
def Reachable (w : World) : Prop :=
  ∃ (rxPort txPort : Nat → Int) (cs : List Call), w = calls (init rxPort txPort) cs

/-- A program with receivers and senders all on the first serial port, after
`begin` on receiver 0. -/
def oneReceiver : World := calls (init (fun _ => 0) (fun _ => 0)) [Call.beginRx 0]

/-- The same program after `begin` on receiver 0 and then `begin` on sender 0. -/
def rxAndTx : World :=
  calls (init (fun _ => 0) (fun _ => 0)) [Call.beginRx 0, Call.beginTx 0]

end World

namespace Receiver

/-! ## Further scenarios -/

/-- The inline `Receiver::get(int channel)` of the header `TeensyDMX.h`. It has
the name of the `get` of `Receiver.cpp`; the two differ in the range test. -/
def getInline (s : Receiver) (channel : Int) : Nat :=
  if channel ≤ 0 ∨ kMaxDMXPacketSize ≤ channel then 0 else s.inactiveData channel

/-- A freshly begun receiver that has received the framing error of a BREAK at
time 0 and then the 25 bytes 0..24 (BREAK = 100 us, MAB = 12 us); the last slot
ends at 1212 us and nothing has ended the packet yet. -/
def filling25 : Receiver := wirePacket fresh 0 100 12 (List.range 25)

/-- The same with the 10 bytes 0..9; the last slot ends at 552 us. -/
def filling10 : Receiver := wirePacket fresh 0 100 12 (List.range 10)

/-- The receiver `filling25` after the next BREAK, which starts at 2000 us, and its
first byte, whose stop bit ends at 2156 us. -/
def nextBreak25 : Receiver := endByBreak filling25 2000 7 2156

/-- The receiver `filling10` after the same next BREAK and first byte. -/
def nextBreak10 : Receiver := endByBreak filling10 2000 7 2156

/-- The receiver `filling25` after a BREAK that starts two seconds after the first
one, and its first byte, whose stop bit ends 156 us after the BREAK start. -/
def lateBreak : Receiver := endByBreak filling25 2000000 7 2000156

/-- The same, but the first byte comes 1.1 s after the start of the late BREAK. -/
def lateBreakLongMAB : Receiver := endByBreak filling25 2000000 7 3100000

/-- The receiver `filling25` with 4294967295 packets counted before, the largest
value `packetCount_` can hold. -/
def lastCount25 : Receiver := { filling25 with packetCount := 4294967295 }

/-- The receiver after a 25-slot packet with start code 0xCC (BREAK at time 0)
that was ended by an idle timeout. -/
def packetCC : Receiver :=
  endByIdle (wirePacket fresh 0 100 12 (0xCC :: List.replicate 24 7)) 1300

/-- The receiver `twoResponders` after the three bytes `[2, 1, 2]` (start code 2,
the one `watcher` is registered for; last slot ends at 244 us) and an idle
timeout. Keep-short-packets is off. -/
def shortForWatcher : Receiver :=
  endByIdle (wirePacket twoResponders 0 100 12 [2, 1, 2]) 300

/-! ## Shifted event times -/

/-- The receiver with its four stored event times replaced. -/
def retime (s : Receiver) (b l e m : Int) : Receiver :=
  { s with
    breakStartTime := b
    lastBreakStartTime := l
    lastSlotEndTime := e
    mabStartTime := m }

/-- The time `y` is the time `x` plus `d`, modulo 2^32. -/
def Cong (d x y : Int) : Prop := u32 y = u32 (x + d)

/-- The operation with its event time moved by `d` microseconds, modulo 2^32.
Operations that carry no event time are unchanged. -/
def shiftOp (d : Int) : Op → Op
  | Op.receiveByte b eopTime => Op.receiveByte b (u32 (eopTime + d))
  | Op.receivePotentialBreak eventTime => Op.receivePotentialBreak (u32 (eventTime + d))
  | Op.receiveIdle eventTime => Op.receiveIdle (u32 (eventTime + d))
  | Op.rxPinRose micros => Op.rxPinRose (u32 (micros + d))
  | op => op

/-- The receiver `t` is the receiver `s` with every event time moved by `d`: the
two agree on every field other than the four stored event times, and each stored
event time that the code can still read (the BREAK start outside the idle state
or with bytes buffered, the previous BREAK start while connected, the last slot
end in the data state or with bytes buffered, the MAB start while
`seenMABStart_` is set) is moved by `d` modulo 2^32. -/
structure Shifted (d : Int) (s t : Receiver) : Prop where
  same : t = retime s t.breakStartTime t.lastBreakStartTime t.lastSlotEndTime t.mabStartTime
  brk : (s.state ≠ RecvStates.kIdle ∨ 0 < s.activeBufIndex) →
    Cong d s.breakStartTime t.breakStartTime
  last : s.connected = true → Cong d s.lastBreakStartTime t.lastBreakStartTime
  slot : (s.state = RecvStates.kData ∨ 0 < s.activeBufIndex) →
    Cong d s.lastSlotEndTime t.lastSlotEndTime
  mab : s.seenMABStart = true → Cong d s.mabStartTime t.mabStartTime

/-! ## Lemmas -/

theorem setConnected_connected (s : Receiver) (flag : Bool) :
    (setConnected s flag).connected = flag := by
  unfold setConnected
  by_cases h : s.connected = flag <;> simp [h]

theorem sub32_u32_left (x t : Int) : sub32 (u32 x) t = sub32 x t := by
  unfold sub32 u32; omega

theorem sub32_eq (x t d : Int) (hd : 0 ≤ d ∧ d < 4294967296) (h : x = t + d) :
    sub32 x t = d := by
  unfold sub32; omega

theorem u32_small (x : Int) (h : 0 ≤ x ∧ x < 4294967296) : u32 x = x := by
  unfold u32; omega

theorem filling_first (t off : Int) (b : Nat) (ht : 0 ≤ t ∧ t < 4294967296)
    (hoff : 96 ≤ off ∧ off ≤ 900000) :
    Filling (receiveByte (receivePotentialBreak fresh (u32 (t + kCharTime))) b
      (u32 (t + off + kCharTime))) t off [b] := by
  have e1 : sub32 (u32 (t + 44)) 44 = t := by unfold sub32 u32; omega
  have e2 : ¬ sub32 (u32 (t + off + 44)) t < 140 := by unfold sub32 u32; omega
  have e3 : ¬ sub32 (u32 (t + off + 44)) t > 1000000 := by unfold sub32 u32; omega
  have e4 : u32 140 = 140 := by unfold u32; omega
  constructor <;>
  simp [fresh, begin, new, receivePotentialBreak, receiveByte, timerEnd, acceptBreak, storeByte,
    putByte, processStored,
    setConnected, clearILT, setILT, writeActive, responderFor, activeData, bufOf,
    kCharTime, kBitTime, kMinBreakTime, kMinMABTime, kMaxDMXPacketTime, kMaxDMXPacketSize,
    e1, e2, e3, e4]

theorem activeData_writeActive (s : Receiver) (i : Int) (b : Nat) :
    (writeActive s i b).activeData = Function.update s.activeData i b := by
  cases h : s.activeBuf <;> simp [writeActive, activeData, bufOf, h]

theorem getElem_append_single (pre : List Nat) (b : Nat) (i : Nat) (h : i < (pre ++ [b]).length) :
    (pre ++ [b])[i] = if h2 : i < pre.length then pre[i] else b := by
  split
  · rename_i h2; exact List.getElem_append_left h2
  · rename_i h2
    have : i = pre.length := by simp at h; omega
    subst this; simp

/-- A byte accepted in state `kData` without a responder table, before the buffer is full. -/
theorem receiveByte_data (s : Receiver) (b : Nat) (eop : Int)
    (hst : s.state = RecvStates.kData) (hresp : s.responders = none)
    (hearly : ¬ sub32 eop s.breakStartTime <
      u32 (kMinBreakTime + kMinMABTime + kCharTime + kCharTime * s.activeBufIndex))
    (hto : ¬ sub32 eop s.breakStartTime > kMaxDMXPacketTime)
    (hfull : ¬ s.activeBufIndex + 1 = kMaxDMXPacketSize) :
    (receiveByte s b eop).state = RecvStates.kData ∧
    (receiveByte s b eop).activeBufIndex = s.activeBufIndex + 1 ∧
    (receiveByte s b eop).activeData = Function.update s.activeData s.activeBufIndex b ∧
    (receiveByte s b eop).breakStartTime = s.breakStartTime ∧
    (receiveByte s b eop).lastBreakStartTime = s.lastBreakStartTime ∧
    (receiveByte s b eop).lastSlotEndTime = eop ∧
    (receiveByte s b eop).responders = none ∧
    (receiveByte s b eop).keepShortPackets = s.keepShortPackets ∧
    (receiveByte s b eop).rxWatchPin = s.rxWatchPin ∧
    (receiveByte s b eop).seenMABStart = s.seenMABStart ∧
    (receiveByte s b eop).packetCount = s.packetCount ∧
    (receiveByte s b eop).packetSize = s.packetSize ∧
    (receiveByte s b eop).connected = s.connected ∧
    (receiveByte s b eop).errorStats = s.errorStats := by
  cases hb : s.activeBuf <;>
  simp [receiveByte, storeByte, putByte, processStored, responderFor, writeActive, activeData,
    bufOf, timerEnd,
    hst, hresp, hearly, hto, hfull, hb]

theorem filling_next (s : Receiver) (t off : Int) (pre : List Nat) (b : Nat)
    (hoff : 96 ≤ off ∧ off ≤ 900000) (hf : Filling s t off pre) (hlen : pre.length < 512) :
    Filling (receiveByte s b (u32 (t + off + 44 * (pre.length + 1)))) t off (pre ++ [b]) := by
  obtain ⟨hst, hidx, hpos, hbrk, hlb, hlast, hdata, hresp, hkeep, hpin, hseen, hcnt, hsz, hconn,
    herr⟩ := hf
  have d1 : sub32 (u32 (t + off + 44 * ((pre.length : Int) + 1))) t =
      off + 44 * ((pre.length : Int) + 1) := by
    rw [sub32_u32_left]; exact sub32_eq _ _ _ (by omega) (by omega)
  have d2 : u32 (kMinBreakTime + kMinMABTime + kCharTime + kCharTime * (pre.length : Int)) =
      140 + 44 * (pre.length : Int) := by
    have hk : kMinBreakTime + kMinMABTime + kCharTime + kCharTime * (pre.length : Int) =
        140 + 44 * (pre.length : Int) := by
      simp [kMinBreakTime, kMinMABTime, kCharTime, kBitTime]
    rw [hk]
    exact u32_small _ (by omega)
  obtain ⟨h1, h2, h3, h4, h5, h6, h7, h8, h9, h10, h11, h12, h13, h14⟩ :=
    receiveByte_data s b (u32 (t + off + 44 * ((pre.length : Int) + 1))) hst hresp
      (by rw [hbrk, hidx, d1, d2]; omega)
      (by rw [hbrk, d1]; simp [kMaxDMXPacketTime]; omega)
      (by rw [hidx]; simp [kMaxDMXPacketSize]; omega)
  constructor
  · exact h1
  · rw [h2, hidx]; simp
  · simp
  · rw [h4, hbrk]
  · rw [h5, hlb]
  · rw [h6]; simp
  · intro i h
    rw [h3, hidx, getElem_append_single]
    by_cases hi : i < pre.length
    · have : (i : Int) ≠ (pre.length : Int) := by omega
      simp [Function.update, this, hi, hdata i hi]
    · have : i = pre.length := by simp at h; omega
      subst this; simp
  · exact h7
  · rw [h8, hkeep]
  · rw [h9, hpin]
  · rw [h10, hseen]
  · rw [h11, hcnt]
  · rw [h12, hsz]
  · rw [h13, hconn]
  · rw [h14, herr]


theorem view_setConnected (s : Receiver) (flag : Bool) :
    view (setConnected s flag) = view s := by
  unfold setConnected view
  split <;> rfl

theorem completePacket_empty (s : Receiver) (h : s.activeBufIndex = 0) :
    completePacket s = clearILT { s with state := RecvStates.kIdle } := by
  simp [completePacket, clearILT, h]

theorem view_completePacket_empty (s : Receiver) (h : s.activeBufIndex = 0) :
    view (completePacket s) = view s := by
  rw [completePacket_empty s h]; rfl

theorem view_receiveBadBreak (s : Receiver) : view (receiveBadBreak s) = view s := by
  unfold receiveBadBreak
  rw [view_setConnected, view_completePacket_empty _ rfl]; rfl

theorem setConnected_frame (s : Receiver) (flag : Bool) :
    (setConnected s flag).activeBufIndex = s.activeBufIndex ∧
    (setConnected s flag).responders = s.responders ∧
    (setConnected s flag).activeBuf = s.activeBuf ∧
    (setConnected s flag).inactiveBuf = s.inactiveBuf := by
  unfold setConnected
  split <;> simp

/-- The first byte after a BREAK when nothing is buffered: nothing is published. -/
theorem acceptBreak_empty (s : Receiver) (eop bt mt : Int) (hidx : s.activeBufIndex = 0) :
    view (acceptBreak s eop bt mt) = view s ∧
    (acceptBreak s eop bt mt).activeBufIndex = 0 ∧
    (acceptBreak s eop bt mt).responders = s.responders ∧
    (acceptBreak s eop bt mt).activeBuf = s.activeBuf ∧
    (acceptBreak s eop bt mt).inactiveBuf = s.inactiveBuf := by
  unfold acceptBreak
  simp only []
  cases hi : s.inactiveBuf <;> split_ifs <;>
  simp [completePacket_empty, clearILT, hidx, view, setConnected, inactiveData, bufOf, hi] <;>
  split <;> simp [bufOf, hi]

/-- Storing the first byte of a packet does not touch the published packet. -/
theorem view_storeByte (s : Receiver) (b : Nat) (eop : Int) (hidx : s.activeBufIndex = 0)
    (hresp : s.responders = none) (hdist : s.activeBuf ≠ s.inactiveBuf) :
    view (storeByte s b eop) = view s := by
  unfold storeByte
  simp only []
  by_cases h1 : sub32 eop s.breakStartTime > kMaxDMXPacketTime
  · rw [if_pos h1]
    exact (view_setConnected _ _).trans ((view_completePacket_empty _ (by exact hidx)).trans rfl)
  · rw [if_neg h1]
    revert hdist
    cases ha : s.activeBuf <;> cases hi : s.inactiveBuf <;>
    simp [putByte, processStored, writeActive, responderFor, hresp, hidx, kMaxDMXPacketSize,
      view, inactiveData, bufOf, ha, hi]

/-- The `kBreak` case of `receiveByte` when no MAB start was seen. -/
theorem receiveByte_break (s : Receiver) (b : Nat) (eop : Int)
    (hst : s.state = RecvStates.kBreak) (hseen : s.seenMABStart = false) :
    receiveByte s b eop =
      if sub32 eop s.breakStartTime < 140 then receiveBadBreak (breakEntry s)
      else storeByte (acceptBreak (setILT (breakEntry s)) eop 0 0) b eop := by
  simp [receiveByte, timerEnd, hst, hseen, breakEntry, kMinBreakTime, kMinMABTime, kCharTime, kBitTime, u32]

/-- What `receivePotentialBreak` changes when no RX-watch pin is set. -/
theorem receivePotentialBreak_noPin (s : Receiver) (e : Int) (hpin : s.rxWatchPin = -1) :
    receivePotentialBreak s e =
      { timerEnd s with
        breakStartTime := sub32 e kCharTime
        state := RecvStates.kBreak } := by
  simp [receivePotentialBreak, timerEnd, hpin]

/-- With an empty active buffer, a BREAK and a first byte leave the published packet alone. -/
theorem view_endByBreak_empty (s : Receiver) (tb : Int) (b : Nat) (eop : Int)
    (hidx : s.activeBufIndex = 0) (hresp : s.responders = none)
    (hdist : s.activeBuf ≠ s.inactiveBuf) (hpin : s.rxWatchPin = -1)
    (hseen : s.seenMABStart = false) :
    view (endByBreak s tb b eop) = view s := by
  unfold endByBreak
  have hs1 := receivePotentialBreak_noPin s (u32 (tb + kCharTime)) hpin
  have f1 : (receivePotentialBreak s (u32 (tb + kCharTime))).state = RecvStates.kBreak := by
    rw [hs1]
  have f2 : (receivePotentialBreak s (u32 (tb + kCharTime))).seenMABStart = false := by
    rw [hs1]; exact hseen
  have f3 : (receivePotentialBreak s (u32 (tb + kCharTime))).activeBufIndex = 0 := by
    rw [hs1]; exact hidx
  have f4 : (receivePotentialBreak s (u32 (tb + kCharTime))).responders = none := by
    rw [hs1]; exact hresp
  have f5 : (receivePotentialBreak s (u32 (tb + kCharTime))).activeBuf ≠
      (receivePotentialBreak s (u32 (tb + kCharTime))).inactiveBuf := by
    rw [hs1]; exact hdist
  have f6 : view (receivePotentialBreak s (u32 (tb + kCharTime))) = view s := by
    rw [hs1]; rfl
  clear hs1
  generalize receivePotentialBreak s (u32 (tb + kCharTime)) = s1 at f1 f2 f3 f4 f5 f6 ⊢
  rw [receiveByte_break s1 b (u32 eop) f1 f2]
  split_ifs with h1
  · rw [view_receiveBadBreak (breakEntry s1)]; exact f6
  · obtain ⟨e1, e2, e3, e4, e5⟩ := acceptBreak_empty (setILT (breakEntry s1)) (u32 eop) 0 0 f3
    rw [view_storeByte (acceptBreak (setILT (breakEntry s1)) (u32 eop) 0 0) b (u32 eop) e2
      (e3.trans f4) (by rw [e4, e5]; exact f5), e1]
    exact f6


/-- The first byte after a valid BREAK publishes the buffered packet. -/
theorem acceptBreak_publish (s : Receiver) (eop bt mt : Int) (hconn : s.connected = true)
    (hdt1 : ¬ sub32 s.breakStartTime s.lastBreakStartTime < kMinDMXPacketTime)
    (hidx : 0 < s.activeBufIndex)
    (hlong : ¬ sub32 s.lastSlotEndTime s.breakStartTime < kMinDMXPacketTime)
    (hresp : s.responders = none) :
    view (acceptBreak s eop bt mt) = (s.packetCount + 1, s.activeBufIndex, s.activeData) ∧
    (acceptBreak s eop bt mt).activeBufIndex = 0 ∧
    (acceptBreak s eop bt mt).responders = none ∧
    (acceptBreak s eop bt mt).activeBuf ≠ (acceptBreak s eop bt mt).inactiveBuf := by
  have h1 : ¬ s.activeBufIndex ≤ 0 := by omega
  by_cases hdt2 : sub32 s.breakStartTime s.lastBreakStartTime > kMaxDMXPacketTime <;>
  cases hb : s.activeBuf <;>
  simp [acceptBreak, completePacket, clearILT, checkShort, swapBuffers, publishStats,
    dispatchPacket, responderFor, inactiveData, activeData, bufOf, view, setConnected,
    h1, hlong, hresp, hb, hconn, hdt1, hdt2]

/-- The 513th byte completes the packet. -/
theorem receiveByte_full (s : Receiver) (b : Nat) (eop : Int)
    (hst : s.state = RecvStates.kData) (hresp : s.responders = none)
    (hearly : ¬ sub32 eop s.breakStartTime <
      u32 (kMinBreakTime + kMinMABTime + kCharTime + kCharTime * s.activeBufIndex))
    (hto : ¬ sub32 eop s.breakStartTime > kMaxDMXPacketTime)
    (hlong : ¬ sub32 eop s.breakStartTime < kMinDMXPacketTime)
    (hfull : s.activeBufIndex + 1 = kMaxDMXPacketSize) :
    view (receiveByte s b eop) =
      (s.packetCount + 1, kMaxDMXPacketSize, Function.update s.activeData s.activeBufIndex b) ∧
    (receiveByte s b eop).state = RecvStates.kIdle ∧
    (receiveByte s b eop).activeBufIndex = 0 ∧
    (receiveByte s b eop).activeBuf ≠ (receiveByte s b eop).inactiveBuf ∧
    (receiveByte s b eop).responders = none ∧
    (receiveByte s b eop).rxWatchPin = s.rxWatchPin ∧
    (receiveByte s b eop).seenMABStart = s.seenMABStart := by
  have h1 : ¬ kMaxDMXPacketSize ≤ 0 := by decide
  cases hb : s.activeBuf <;>
  simp [receiveByte, storeByte, putByte, processStored, responderFor, writeActive, activeData,
    bufOf, timerEnd,
    completePacket, clearILT, checkShort, swapBuffers, publishStats, dispatchPacket,
    inactiveData, view, hst, hresp, hearly, hto, hfull, hb, h1, hlong]


theorem completed_of_full (s : Receiver) (t off : Int) (pre : List Nat) (b : Nat)
    (hoff : 96 ≤ off ∧ off ≤ 900000) (hf : Filling s t off pre) (hlen : pre.length = 512) :
    Completed (receiveByte s b (u32 (t + off + 44 * (pre.length + 1)))) (pre ++ [b]) := by
  obtain ⟨hst, hidx, hpos, hbrk, hlb, hlast, hdata, hresp, hkeep, hpin, hseen, hcnt, hsz, hconn,
    herr⟩ := hf
  have d1 : sub32 (u32 (t + off + 44 * ((pre.length : Int) + 1))) t =
      off + 44 * ((pre.length : Int) + 1) := by
    rw [sub32_u32_left]; exact sub32_eq _ _ _ (by omega) (by omega)
  have d2 : u32 (kMinBreakTime + kMinMABTime + kCharTime + kCharTime * (pre.length : Int)) =
      140 + 44 * (pre.length : Int) := by
    have hk : kMinBreakTime + kMinMABTime + kCharTime + kCharTime * (pre.length : Int) =
        140 + 44 * (pre.length : Int) := by
      simp [kMinBreakTime, kMinMABTime, kCharTime, kBitTime]
    rw [hk]
    exact u32_small _ (by omega)
  obtain ⟨h1, h2, h3, h4, h5, h6, h7⟩ :=
    receiveByte_full s b (u32 (t + off + 44 * ((pre.length : Int) + 1))) hst hresp
      (by rw [hbrk, hidx, d1, d2]; omega)
      (by rw [hbrk, d1]; simp [kMaxDMXPacketTime]; omega)
      (by rw [hbrk, d1]; simp [kMinDMXPacketTime]; omega)
      (by rw [hidx]; simp [kMaxDMXPacketSize]; omega)
  simp only [view, Prod.mk.injEq] at h1
  obtain ⟨v1, v2, v3⟩ := h1
  refine ⟨⟨?_, ?_, ?_⟩, h2, h3, h4, h5, h6.trans hpin, h7.trans hseen⟩
  · rw [v1, hcnt]
  · rw [v2]; simp [kMaxDMXPacketSize, hlen]
  · intro i h
    rw [v3, hidx, getElem_append_single]
    by_cases hi : i < pre.length
    · have : (i : Int) ≠ (pre.length : Int) := by omega
      simp [Function.update, this, hi, hdata i hi]
    · have : i = pre.length := by simp at h; omega
      subst this; simp

theorem feedBytes_cons (s : Receiver) (b : Nat) (bs : List Nat) (eop : Int) :
    feedBytes s (b :: bs) eop = feedBytes (receiveByte s b (u32 eop)) bs (eop + kCharTime) := rfl

theorem feedBytes_nil (s : Receiver) (eop : Int) : feedBytes s [] eop = s := rfl

theorem received_feed (t off : Int) (hoff : 96 ≤ off ∧ off ≤ 900000) (rest : List Nat) :
    ∀ (s : Receiver) (pre : List Nat), Filling s t off pre → pre.length + rest.length ≤ 513 →
      pre.length < 513 →
      Received (feedBytes s rest (t + off + 44 * (pre.length + 1))) t off (pre ++ rest) := by
  induction rest with
  | nil =>
    intro s pre hf _ hlt
    rw [feedBytes_nil, List.append_nil]
    exact Or.inl ⟨hlt, hf⟩
  | cons b rest ih =>
    intro s pre hf hlen hlt
    simp only [List.length_cons] at hlen
    have happ : pre ++ b :: rest = (pre ++ [b]) ++ rest := by simp
    have heop : t + off + 44 * ((pre.length : Int) + 1) + kCharTime =
        t + off + 44 * (((pre ++ [b]).length : Int) + 1) := by
      have : kCharTime = 44 := rfl
      rw [this, List.length_append, List.length_singleton]
      push_cast
      ring
    rw [happ, feedBytes_cons, heop]
    by_cases h512 : pre.length < 512
    · have hl : (pre ++ [b]).length = pre.length + 1 := by simp
      exact ih _ _ (filling_next s t off pre b hoff hf h512) (by omega) (by omega)
    · have h512 : pre.length = 512 := by omega
      have hrest : rest = [] := by
        cases rest with
        | nil => rfl
        | cons c cs => simp only [List.length_cons] at hlen; omega
      subst hrest
      have hl : (pre ++ [b]).length = pre.length + 1 := by simp
      rw [feedBytes_nil, List.append_nil]
      exact Or.inr ⟨by omega, completed_of_full s t off pre b hoff hf h512⟩

theorem received_wire (t brk mab : Int) (bytes : List Nat) (ht : 0 ≤ t ∧ t < 4294967296)
    (hoff : 96 ≤ brk + mab ∧ brk + mab ≤ 900000)
    (hpos : 0 < bytes.length) (hlen : bytes.length ≤ 513) :
    Received (wirePacket fresh t brk mab bytes) t (brk + mab) bytes := by
  cases bytes with
  | nil => simp at hpos
  | cons b rest =>
    simp only [List.length_cons] at hlen
    have h := received_feed t (brk + mab) hoff rest _ [b]
      (filling_first t (brk + mab) b ht hoff) (by simp; omega) (by simp)
    have h1 : t + brk + mab + kCharTime = t + (brk + mab) + kCharTime := by ring
    have heop : t + (brk + mab) + kCharTime + kCharTime =
        t + (brk + mab) + 44 * ((([b] : List Nat).length : Int) + 1) := by
      simp [kCharTime, kBitTime]; omega
    unfold wirePacket
    rw [feedBytes_cons, h1, heop]
    exact h

theorem view_timerFired_empty (s : Receiver) (hidx : s.activeBufIndex = 0) :
    view (timerFired s) = view s := by
  unfold timerFired
  split_ifs
  · exact (view_setConnected _ _).trans ((view_completePacket_empty _ (by exact hidx)).trans rfl)
  · rfl

theorem filling_packetTime (s : Receiver) (t off : Int) (pre : List Nat)
    (hoff : 96 ≤ off ∧ off ≤ 900000) (hf : Filling s t off pre) (h513 : pre.length ≤ 513) :
    sub32 s.lastSlotEndTime s.breakStartTime = off + 44 * (pre.length : Int) := by
  rw [hf.last, hf.brk, sub32_u32_left]
  exact sub32_eq _ _ _ (by omega) (by omega)

theorem filling_long (s : Receiver) (t off : Int) (pre : List Nat)
    (hoff : 96 ≤ off ∧ off ≤ 900000) (hf : Filling s t off pre)
    (h25 : 25 ≤ pre.length) (h513 : pre.length ≤ 513) :
    ¬ sub32 s.lastSlotEndTime s.breakStartTime < kMinDMXPacketTime := by
  rw [filling_packetTime s t off pre hoff hf h513]
  simp [kMinDMXPacketTime]; omega

/-- The `kData` case of `receiveIdle`. -/
theorem receiveIdle_data (s : Receiver) (te : Int) (hst : s.state = RecvStates.kData) :
    receiveIdle s te =
      if sub32 te s.breakStartTime > kMaxDMXPacketTime ∨
          sub32 te s.lastSlotEndTime ≥ kMaxDMXIdleTime then
        setConnected (completePacket s) false
      else timerBegin s := by
  simp [receiveIdle, hst]

theorem timerFired_timerBegin (s : Receiver) :
    timerFired (timerBegin s) = setConnected (completePacket (timerEnd s)) false := by
  simp [timerFired, timerBegin, timerEnd]

/-- What `completePacket` does to a non-empty packet that is not short when no
responder table exists. -/
theorem completePacket_publish (s : Receiver) (hidx : 0 < s.activeBufIndex)
    (hlong : ¬ sub32 s.lastSlotEndTime s.breakStartTime < kMinDMXPacketTime)
    (hresp : s.responders = none) :
    view (completePacket s) = (s.packetCount + 1, s.activeBufIndex, s.activeData) ∧
    (completePacket s).activeBufIndex = 0 := by
  have h1 : ¬ s.activeBufIndex ≤ 0 := by omega
  cases hb : s.activeBuf <;>
  simp [completePacket, clearILT, checkShort, swapBuffers, publishStats, dispatchPacket,
    responderFor, inactiveData, activeData, bufOf, view, h1, hlong, hresp, hb]

/-- An idle timeout publishes the packet being filled. -/
theorem view_endByIdle_filling (s : Receiver) (t off : Int) (pre : List Nat) (te : Int)
    (hoff : 96 ≤ off ∧ off ≤ 900000) (hf : Filling s t off pre) (h25 : 25 ≤ pre.length) (h513 : pre.length ≤ 513) :
    view (endByIdle s te) = (1, (pre.length : Int), s.activeData) := by
  have hlong := filling_long s t off pre hoff hf h25 h513
  have hidx : 0 < s.activeBufIndex := by rw [hf.idx]; omega
  have hv : (s.packetCount + 1, s.activeBufIndex, s.activeData) =
      (1, (pre.length : Int), s.activeData) := by rw [hf.count, hf.idx]
  unfold endByIdle
  rw [receiveIdle_data s te hf.state]
  split_ifs with h1
  · obtain ⟨c1, c2⟩ := completePacket_publish s hidx hlong hf.resp
    rw [view_timerFired_empty _ ((setConnected_frame _ _).1.trans c2), view_setConnected, c1, hv]
  · rw [timerFired_timerBegin, view_setConnected]
    exact (completePacket_publish (timerEnd s) hidx hlong hf.resp).1.trans hv

/-- The next valid BREAK and its first byte publish the packet being filled. -/
theorem view_endByBreak_filling (s : Receiver) (t off : Int) (pre : List Nat) (g bm : Int)
    (b : Nat) (hoff : 96 ≤ off ∧ off ≤ 900000)
    (hf : Filling s t off pre) (h25 : 25 ≤ pre.length) (h513 : pre.length ≤ 513)
    (hg : 1 ≤ g ∧ off + 44 * (pre.length : Int) + g < 4294967296)
    (hbm : 96 ≤ bm ∧ bm + 44 < 4294967296) :
    view (endByBreak s (t + off + 44 * pre.length + g) b
      (t + off + 44 * pre.length + g + bm + 44)) = (1, (pre.length : Int), s.activeData) := by
  have hidx : 0 < s.activeBufIndex := by rw [hf.idx]; omega
  unfold endByBreak
  have hs1 := receivePotentialBreak_noPin s (u32 (t + off + 44 * pre.length + g + kCharTime)) hf.pin
  have hb : sub32 (u32 (t + off + 44 * pre.length + g + kCharTime)) kCharTime =
      u32 (t + off + 44 * pre.length + g) := by
    simp only [sub32, u32, kCharTime, kBitTime]; omega
  rw [hb] at hs1
  have f1 : (receivePotentialBreak s (u32 (t + off + 44 * pre.length + g + kCharTime))).state =
      RecvStates.kBreak := by rw [hs1]
  have f2 : (receivePotentialBreak s (u32 (t + off + 44 * pre.length + g + kCharTime))).seenMABStart =
      false := by rw [hs1]; exact hf.seen
  have f3 : (receivePotentialBreak s (u32 (t + off + 44 * pre.length + g + kCharTime))).breakStartTime =
      u32 (t + off + 44 * pre.length + g) := by rw [hs1]
  have f4 : acceptBreak (setILT (breakEntry
        (receivePotentialBreak s (u32 (t + off + 44 * pre.length + g + kCharTime)))))
        (u32 (t + off + 44 * pre.length + g + bm + 44)) 0 0 =
      acceptBreak (setILT (breakEntry { timerEnd s with
        breakStartTime := u32 (t + off + 44 * pre.length + g)
        state := RecvStates.kBreak }))
        (u32 (t + off + 44 * pre.length + g + bm + 44)) 0 0 := by rw [hs1]
  clear hs1
  have hvalid : ¬ sub32 (u32 (t + off + 44 * pre.length + g + bm + 44))
      (u32 (t + off + 44 * pre.length + g)) < 140 := by
    simp only [sub32, u32]; omega
  rw [receiveByte_break _ b _ f1 f2, f3, if_neg hvalid, f4]
  obtain ⟨a1, a2, a3, a4⟩ := acceptBreak_publish
    (setILT (breakEntry { timerEnd s with
        breakStartTime := u32 (t + off + 44 * pre.length + g)
        state := RecvStates.kBreak }))
    (u32 (t + off + 44 * pre.length + g + bm + 44)) 0 0 hf.conn
    (by
      show ¬ sub32 (u32 (t + off + 44 * pre.length + g)) s.lastBreakStartTime < kMinDMXPacketTime
      rw [hf.lastBrk]; simp only [sub32, u32, kMinDMXPacketTime]; omega)
    hidx
    (by
      show ¬ sub32 s.lastSlotEndTime (u32 (t + off + 44 * pre.length + g)) < kMinDMXPacketTime
      rw [hf.last]; simp only [sub32, u32, kMinDMXPacketTime]; omega)
    hf.resp
  rw [view_storeByte _ b _ a2 a3 a4, a1]
  show (s.packetCount + 1, s.activeBufIndex, s.activeData) = _
  rw [hf.count, hf.idx]

/-- The `kIdle` case of `receiveIdle`. -/
theorem receiveIdle_idle (s : Receiver) (te : Int) (hst : s.state = RecvStates.kIdle) :
    receiveIdle s te = timerBegin s := by
  simp [receiveIdle, hst]

/-- After a completed packet an idle timeout publishes nothing more. -/
theorem view_endByIdle_completed (s : Receiver) (bytes : List Nat) (te : Int)
    (hc : Completed s bytes) : view (endByIdle s te) = view s := by
  unfold endByIdle
  rw [receiveIdle_idle s te hc.state, timerFired_timerBegin, view_setConnected]
  exact view_completePacket_empty (timerEnd s) hc.idx

theorem published_of_view (s : Receiver) (bytes : List Nat) (d : Int → Nat)
    (hv : view s = (1, (bytes.length : Int), d))
    (hd : ∀ (i : Nat) (h : i < bytes.length), d i = bytes[i]) : Published s bytes := by
  simp only [view, Prod.mk.injEq] at hv
  obtain ⟨v1, v2, v3⟩ := hv
  exact ⟨v1, v2, fun i h => by rw [v3]; exact hd i h⟩

theorem published_of_view_eq (s s1 : Receiver) (bytes : List Nat) (hv : view s1 = view s)
    (hp : Published s bytes) : Published s1 bytes := by
  simp only [view, Prod.mk.injEq] at hv
  obtain ⟨v1, v2, v3⟩ := hv
  exact ⟨v1.trans hp.count, v2.trans hp.size, fun i h => by rw [v3]; exact hp.data i h⟩

/-- Reading the whole published packet. -/
theorem readPacket_published (s : Receiver) (bytes : List Nat) (buf : Int → Nat)
    (stats : Option PacketStats) (hp : Published s bytes)
    (hlen : 0 < bytes.length ∧ bytes.length ≤ 513) :
    (readPacket s buf 0 513 stats).retval = bytes.length ∧
    ∀ (i : Nat) (h : i < bytes.length), (readPacket s buf 0 513 stats).buf i = bytes[i] := by
  have h0 : ¬ ((513 : Int) ≤ 0 ∨ (0 : Int) < 0 ∨ kMaxDMXPacketSize ≤ 0) := by
    simp [kMaxDMXPacketSize]
  have h1 : s.packetSize > 0 := by rw [hp.size]; omega
  have h2 : ¬ (0 : Int) ≥ s.packetSize := by omega
  have hw : wrapInt32 (0 + 513) = 513 := by decide
  unfold readPacket
  rw [if_neg h0, if_pos h1, if_neg h2, hw]
  simp only []
  by_cases h513 : (513 : Int) > s.packetSize
  · rw [if_pos h513]
    refine ⟨by rw [hp.size]; omega, fun i h => ?_⟩
    have hi : (0 : Int) ≤ i ∧ (i : Int) < s.packetSize - 0 := by rw [hp.size]; omega
    simp only [copy_n, if_pos hi, zero_add]
    exact hp.data i h
  · rw [if_neg h513]
    have hsz := hp.size
    refine ⟨by omega, fun i h => ?_⟩
    have hi : (0 : Int) ≤ i ∧ (i : Int) < 513 := by omega
    simp only [copy_n, if_pos hi, zero_add]
    exact hp.data i h

/-- After the store the receiver is either left as it is or the packet is completed. -/
theorem processStored_cases (s : Receiver) :
    processStored s = s ∨ processStored s = completePacket s := by
  unfold processStored
  simp only []
  split
  · split_ifs
    · exact Or.inr rfl
    · exact Or.inl rfl
  · split_ifs
    · exact Or.inr rfl
    · exact Or.inl rfl
    · exact Or.inr rfl

theorem errorStats_dispatchPacket (s : Receiver) :
    (dispatchPacket s).errorStats = s.errorStats := by
  unfold dispatchPacket
  split
  · rfl
  · simp only []
    split <;> rfl

theorem errorStats_setConnected (s : Receiver) (flag : Bool) :
    (setConnected s flag).errorStats = s.errorStats := by
  unfold setConnected
  split <;> rfl

theorem errorStats_putByte (s : Receiver) (b : Nat) :
    (putByte s b).errorStats = s.errorStats := by
  unfold putByte writeActive
  split <;> rfl

theorem shortPacketCount_completePacket (s : Receiver) (hidx : 0 < s.activeBufIndex) :
    (completePacket s).errorStats.shortPacketCount =
      s.errorStats.shortPacketCount +
        (if sub32 s.lastSlotEndTime s.breakStartTime < kMinDMXPacketTime then 1 else 0) := by
  have h1 : ¬ s.activeBufIndex ≤ 0 := by omega
  unfold completePacket
  simp only [clearILT, if_neg h1]
  show (dispatchPacket _).errorStats.shortPacketCount = _
  rw [errorStats_dispatchPacket]
  simp only [publishStats, swapBuffers, checkShort]
  split_ifs <;> rfl

theorem sview_setConnected (s : Receiver) (flag : Bool) :
    sview (setConnected s flag) = sview s := by
  unfold setConnected sview
  split <;> rfl

theorem sview_completePacket_empty (s : Receiver) (h : s.activeBufIndex = 0) :
    sview (completePacket s) = sview s := by
  rw [completePacket_empty s h]; rfl

theorem sview_timerFired_empty (s : Receiver) (hidx : s.activeBufIndex = 0) :
    sview (timerFired s) = sview s := by
  unfold timerFired
  split_ifs
  · exact (sview_setConnected _ _).trans ((sview_completePacket_empty _ (by exact hidx)).trans rfl)
  · rfl

theorem filling_timerEnd (s : Receiver) (t off : Int) (pre : List Nat)
    (hf : Filling s t off pre) : Filling (timerEnd s) t off pre :=
  ⟨hf.state, hf.idx, hf.pos, hf.brk, hf.lastBrk, hf.last, hf.data, hf.resp, hf.keep, hf.pin,
    hf.seen, hf.count, hf.size, hf.conn, hf.errs⟩

/-- Completion of the first packet after `begin`, with keep-short-packets off. -/
theorem completePacket_filling (s : Receiver) (t off : Int) (pre : List Nat)
    (hoff : 96 ≤ off ∧ off ≤ 900000) (hf : Filling s t off pre) (h513 : pre.length ≤ 513) :
    (completePacket s).errorStats.shortPacketCount =
      (if off + 44 * (pre.length : Int) < 1196 then 1 else 0) ∧
    (completePacket s).packetStats.isShort = false ∧
    (completePacket s).packetStats.packetTime = off + 44 * (pre.length : Int) ∧
    (completePacket s).packetSize =
      (if off + 44 * (pre.length : Int) < 1196 then 0 else (pre.length : Int)) ∧
    (completePacket s).packetCount = 1 ∧
    (completePacket s).activeBufIndex = 0 := by
  have hpt := filling_packetTime s t off pre hoff hf h513
  have h1 : ¬ (pre.length : Int) ≤ 0 := by have := hf.pos; omega
  have h2 : ¬ s.activeBufIndex ≤ 0 := by rw [hf.idx]; exact h1
  have h3 : s.errorStats.shortPacketCount = 0 := by rw [hf.errs]; rfl
  by_cases hs : off + 44 * (pre.length : Int) < 1196 <;>
  cases hb : s.activeBuf <;>
  simp [completePacket, clearILT, checkShort, swapBuffers, publishStats, dispatchPacket,
    responderFor, kMinDMXPacketTime, hf.resp, hf.keep, hf.count, hf.idx, h1, h2, h3, hpt, hs, hb]

/-- An idle timeout during the first packet after `begin` completes that packet. -/
theorem sview_endByIdle_filling (s : Receiver) (t off : Int) (pre : List Nat) (te : Int)
    (hoff : 96 ≤ off ∧ off ≤ 900000) (hf : Filling s t off pre) (h513 : pre.length ≤ 513) :
    (endByIdle s te).errorStats.shortPacketCount =
      (if off + 44 * (pre.length : Int) < 1196 then 1 else 0) ∧
    (endByIdle s te).packetStats.isShort = false ∧
    (endByIdle s te).packetStats.packetTime = off + 44 * (pre.length : Int) ∧
    (endByIdle s te).packetSize =
      (if off + 44 * (pre.length : Int) < 1196 then 0 else (pre.length : Int)) ∧
    (endByIdle s te).packetCount = 1 := by
  have key : ∃ s1 : Receiver, Filling s1 t off pre ∧
      sview (endByIdle s te) = sview (completePacket s1) := by
    unfold endByIdle
    rw [receiveIdle_data s te hf.state]
    split_ifs with h1
    · refine ⟨s, hf, ?_⟩
      have c6 := (completePacket_filling s t off pre hoff hf h513).2.2.2.2.2
      rw [sview_timerFired_empty _ ((setConnected_frame _ _).1.trans c6), sview_setConnected]
    · refine ⟨timerEnd s, filling_timerEnd s t off pre hf, ?_⟩
      rw [timerFired_timerBegin, sview_setConnected]
  obtain ⟨s1, hf1, hv⟩ := key
  obtain ⟨c1, c2, c3, c4, c5, _⟩ := completePacket_filling s1 t off pre hoff hf1 h513
  simp only [sview, Prod.mk.injEq] at hv
  obtain ⟨v1, v2, v3, v4⟩ := hv
  rw [v1, v2, v3, v4]
  exact ⟨c1, c2, c3, c4, c5⟩

/-- Completion of a packet that is not short and whose start code has a responder
that eats packets. -/
theorem completePacket_eaten (s : Receiver) (r : Responder) (hidx : 0 < s.activeBufIndex)
    (hlong : ¬ sub32 s.lastSlotEndTime s.breakStartTime < kMinDMXPacketTime)
    (hresp : s.responderFor (s.activeData 0) = some r) (heat : r.eatPacket = true) :
    (completePacket s).receivePacketCalls =
      s.receivePacketCalls ++ [⟨r, s.activeData, s.activeBufIndex⟩] ∧
    (completePacket s).packetSize = 0 := by
  have h1 : ¬ s.activeBufIndex ≤ 0 := by omega
  cases hb : s.activeBuf <;>
  simp only [activeData, bufOf, hb] at hresp <;>
  simp [completePacket, clearILT, checkShort, swapBuffers, publishStats, dispatchPacket,
    inactiveData, activeData, bufOf, h1, hlong, hb] <;>
  simp only [responderFor] at hresp ⊢ <;>
  simp [hresp, heat]

end Receiver

/-! ### The instance tables -/

namespace Receiver

theorem setConnected_serialIndex (s : Receiver) (flag : Bool) :
    (setConnected s flag).serialIndex = s.serialIndex := by
  unfold setConnected
  split_ifs <;> rfl

theorem setConnected_began (s : Receiver) (flag : Bool) :
    (setConnected s flag).began = s.began := by
  unfold setConnected
  split_ifs <;> rfl

theorem begin_serialIndex (s : Receiver) : (begin s).serialIndex = s.serialIndex := by
  unfold begin
  cases hb : s.began
  · by_cases h2 : s.serialIndex < 0 <;> simp [h2, clearILT, setConnected_serialIndex]
  · simp

theorem end_serialIndex (s : Receiver) : (end_ s).serialIndex = s.serialIndex := by
  unfold end_
  cases hb : s.began
  · simp
  · by_cases h2 : s.serialIndex < 0 <;> simp [h2, setConnected_serialIndex]

theorem begin_began (s : Receiver) : (begin s).began = true := by
  unfold begin
  cases hb : s.began
  · by_cases h2 : s.serialIndex < 0 <;> simp [h2, clearILT, setConnected_began]
  · simp [hb]

theorem end_began (s : Receiver) : (end_ s).began = false := by
  unfold end_
  cases hb : s.began
  · simp [hb]
  · by_cases h2 : s.serialIndex < 0 <;> simp [h2, setConnected_began]

end Receiver

namespace Sender

theorem tx_begin_serialIndex (s : Sender) : (begin s).serialIndex = s.serialIndex := by
  unfold begin
  cases hb : s.began
  · by_cases h2 : s.serialIndex < 0 <;> simp [h2]
  · simp

theorem tx_end_serialIndex (s : Sender) : (end_ s).serialIndex = s.serialIndex := by
  unfold end_
  cases hb : s.began
  · simp
  · by_cases h2 : s.serialIndex < 0 <;> simp [h2]

theorem tx_begin_began (s : Sender) : (begin s).began = true := by
  unfold begin
  cases hb : s.began
  · by_cases h2 : s.serialIndex < 0 <;> simp [h2]
  · simp [hb]

theorem tx_end_began (s : Sender) : (end_ s).began = false := by
  unfold end_
  cases hb : s.began
  · simp [hb]
  · by_cases h2 : s.serialIndex < 0 <;> simp [h2]

end Sender

namespace World

theorem endRx_other (w : World) (b c : Nat) (h : c ≠ b) :
    (endRx w b).receivers c = w.receivers c := by
  unfold endRx
  dsimp only
  split_ifs <;> first | rfl | exact Function.update_noteq h _ _

theorem endRx_self_began (w : World) (b : Nat) : ((endRx w b).receivers b).began = false := by
  unfold endRx
  dsimp only
  split_ifs with h1 h2
  · simpa using h1
  · simp only [Function.update_same]; exact Receiver.end_began _
  · simp only [Function.update_same]; exact Receiver.end_began _

theorem endRx_serialIndex (w : World) (b c : Nat) :
    ((endRx w b).receivers c).serialIndex = (w.receivers c).serialIndex := by
  by_cases h : c = b
  · subst h
    unfold endRx
    dsimp only
    split_ifs <;> first | rfl | (simp only [Function.update_same]; exact Receiver.end_serialIndex _)
  · rw [endRx_other w b c h]

theorem endRx_slot (w : World) (b : Nat) (i : Int) :
    (endRx w b).rxInstances i = w.rxInstances i ∨ w.rxInstances i = some b := by
  unfold endRx
  dsimp only
  split_ifs with h1 h2
  · exact Or.inl rfl
  · by_cases hi : i = (w.receivers b).serialIndex
    · subst hi; exact Or.inr h2.2
    · exact Or.inl (Function.update_noteq hi _ _)
  · exact Or.inl rfl

theorem endRx_tx (w : World) (b : Nat) :
    (endRx w b).senders = w.senders ∧ (endRx w b).txInstances = w.txInstances := by
  unfold endRx
  dsimp only
  split_ifs <;> exact ⟨rfl, rfl⟩

theorem beginRx_tx (w : World) (a : Nat) :
    (beginRx w a).senders = w.senders ∧ (beginRx w a).txInstances = w.txInstances := by
  unfold beginRx
  dsimp only
  split_ifs
  · exact ⟨rfl, rfl⟩
  · exact ⟨rfl, rfl⟩
  · simp only
    split
    · split_ifs
      · exact endRx_tx _ _
      · exact ⟨rfl, rfl⟩
    · exact ⟨rfl, rfl⟩

theorem endTx_other (w : World) (b c : Nat) (h : c ≠ b) :
    (endTx w b).senders c = w.senders c := by
  unfold endTx
  dsimp only
  split_ifs <;> first | rfl | exact Function.update_noteq h _ _

theorem endTx_self_began (w : World) (b : Nat) : ((endTx w b).senders b).began = false := by
  unfold endTx
  dsimp only
  split_ifs with h1 h2
  · simpa using h1
  · simp only [Function.update_same]; exact Sender.tx_end_began _
  · simp only [Function.update_same]; exact Sender.tx_end_began _

theorem endTx_serialIndex (w : World) (b c : Nat) :
    ((endTx w b).senders c).serialIndex = (w.senders c).serialIndex := by
  by_cases h : c = b
  · subst h
    unfold endTx
    dsimp only
    split_ifs <;> first | rfl | (simp only [Function.update_same]; exact Sender.tx_end_serialIndex _)
  · rw [endTx_other w b c h]

theorem endTx_slot (w : World) (b : Nat) (i : Int) :
    (endTx w b).txInstances i = w.txInstances i ∨ w.txInstances i = some b := by
  unfold endTx
  dsimp only
  split_ifs with h1 h2
  · exact Or.inl rfl
  · by_cases hi : i = (w.senders b).serialIndex
    · subst hi; exact Or.inr h2.2
    · exact Or.inl (Function.update_noteq hi _ _)
  · exact Or.inl rfl

theorem endTx_rx (w : World) (b : Nat) :
    (endTx w b).receivers = w.receivers ∧ (endTx w b).rxInstances = w.rxInstances := by
  unfold endTx
  dsimp only
  split_ifs <;> exact ⟨rfl, rfl⟩

theorem beginTx_rx (w : World) (a : Nat) :
    (beginTx w a).receivers = w.receivers ∧ (beginTx w a).rxInstances = w.rxInstances := by
  unfold beginTx
  dsimp only
  split_ifs
  · exact ⟨rfl, rfl⟩
  · exact ⟨rfl, rfl⟩
  · simp only
    split
    · split_ifs
      · exact endTx_rx _ _
      · exact ⟨rfl, rfl⟩
    · exact ⟨rfl, rfl⟩


theorem beginRx_began_self (w : World) (a : Nat) : ((beginRx w a).receivers a).began = true := by
  unfold beginRx
  dsimp only
  split_ifs with h1 h2
  · exact h1
  · simp only [Function.update_same]; exact Receiver.begin_began _
  · simp only [Function.update_same]; exact Receiver.begin_began _

/-- What `beginRx` does when receiver `a` is not begun and its port is supported,
in terms of the world `w2` in which the previous owner has been ended. -/
theorem beginRx_fresh (w : World) (a : Nat) (h1 : (w.receivers a).began = false)
    (h2 : 0 ≤ (w.receivers a).serialIndex) :
    ∃ w2 : World,
      beginRx w a =
        { w2 with receivers := Function.update w2.receivers a (Receiver.begin (w.receivers a)) } ∧
      (w2 = claimRx w a ∧
        (w.rxInstances (w.receivers a).serialIndex = none ∨
          w.rxInstances (w.receivers a).serialIndex = some a) ∨
      ∃ b, b ≠ a ∧ w.rxInstances (w.receivers a).serialIndex = some b ∧
        w2 = endRx (claimRx w a) b) := by
  have h3 : ¬(w.receivers a).serialIndex < 0 := by omega
  unfold beginRx
  dsimp only
  simp only [h1, h3, if_false, Bool.false_eq_true]
  cases hp : w.rxInstances (w.receivers a).serialIndex with
  | none => exact ⟨_, rfl, Or.inl ⟨rfl, Or.inl rfl⟩⟩
  | some b =>
    by_cases hb : b = a
    · subst hb
      simp only [ne_eq, not_true_eq_false, if_false]
      exact ⟨_, rfl, Or.inl ⟨rfl, Or.inr trivial⟩⟩
    · simp only [ne_eq, hb, not_false_eq_true, if_true]
      exact ⟨_, rfl, Or.inr ⟨b, hb, rfl, rfl⟩⟩

theorem beginRx_ownedRx (w : World) (hO : Owned w) (a : Nat) :
    ∀ c, ((beginRx w a).receivers c).began = true →
      0 ≤ ((beginRx w a).receivers c).serialIndex →
      (beginRx w a).rxInstances ((beginRx w a).receivers c).serialIndex = some c := by
  cases h1 : (w.receivers a).began with
  | true =>
    have e : beginRx w a = w := by
      unfold beginRx; dsimp only; simp only [h1, if_true]
    rw [e]; exact hO.rx
  | false =>
    by_cases h2 : (w.receivers a).serialIndex < 0
    · have e : beginRx w a =
          { w with receivers := Function.update w.receivers a (Receiver.begin (w.receivers a)) } := by
        unfold beginRx; dsimp only; simp only [h1, h2, if_true, if_false, Bool.false_eq_true]
      rw [e]
      intro c hb hi
      by_cases hc : c = a
      · subst hc
        simp only [Function.update_same, Receiver.begin_serialIndex] at hi
        omega
      · simp only [Function.update_noteq hc] at hb hi ⊢
        exact hO.rx c hb hi
    · have h2p : 0 ≤ (w.receivers a).serialIndex := by omega
      obtain ⟨w2, e, hw2⟩ := beginRx_fresh w a h1 h2p
      rw [e]
      -- the facts about `w2` that the three cases share
      have key : w2.rxInstances (w.receivers a).serialIndex = some a ∧
          ∀ c, c ≠ a → (w2.receivers c).began = true → 0 ≤ (w2.receivers c).serialIndex →
            w2.rxInstances (w2.receivers c).serialIndex = some c := by
        rcases hw2 with ⟨rfl, hp⟩ | ⟨b, hba, hp, rfl⟩
        · refine ⟨by simp only [claimRx, Function.update_same], fun c hc hb hi => ?_⟩
          have hb : (w.receivers c).began = true := hb
          have hi : 0 ≤ (w.receivers c).serialIndex := hi
          show Function.update w.rxInstances (w.receivers a).serialIndex (some a)
            (w.receivers c).serialIndex = some c
          have hs := hO.rx c hb hi
          have hne : (w.receivers c).serialIndex ≠ (w.receivers a).serialIndex := by
            intro heq
            rw [heq] at hs
            rcases hp with hp | hp
            · rw [hp] at hs; exact absurd hs (by simp)
            · rw [hp] at hs; exact hc (Option.some.inj hs).symm
          simp only [Function.update_noteq hne]
          exact hs
        · constructor
          · rcases endRx_slot (claimRx w a) b (w.receivers a).serialIndex with e1 | e1
            · rw [e1]; simp only [claimRx, Function.update_same]
            · simp only [claimRx, Function.update_same] at e1
              exact absurd (Option.some.inj e1).symm hba
          · intro c hc hb hi
            by_cases hcb : c = b
            · subst hcb
              rw [endRx_self_began] at hb
              exact absurd hb (by simp)
            · rw [endRx_other _ _ _ hcb] at hb hi ⊢
              have hb2 : (w.receivers c).began = true := hb
              have hi2 : 0 ≤ (w.receivers c).serialIndex := hi
              have hs := hO.rx c hb2 hi2
              have hne : (w.receivers c).serialIndex ≠ (w.receivers a).serialIndex := by
                intro heq
                rw [heq, hp] at hs
                exact hcb (Option.some.inj hs).symm
              show (endRx (claimRx w a) b).rxInstances (w.receivers c).serialIndex = some c
              rcases endRx_slot (claimRx w a) b (w.receivers c).serialIndex with e1 | e1
              · rw [e1]
                show Function.update w.rxInstances (w.receivers a).serialIndex (some a)
                  (w.receivers c).serialIndex = some c
                rw [Function.update_noteq hne]; exact hs
              · have e2 : Function.update w.rxInstances (w.receivers a).serialIndex (some a)
                    (w.receivers c).serialIndex = some b := e1
                rw [Function.update_noteq hne, hs] at e2
                exact absurd (Option.some.inj e2) hcb
      intro c hb hi
      by_cases hc : c = a
      · subst hc
        simp only [Function.update_same, Receiver.begin_serialIndex]
        exact key.1
      · simp only [Function.update_noteq hc] at hb hi ⊢
        exact key.2 c hc hb hi

theorem beginTx_began_self (w : World) (a : Nat) : ((beginTx w a).senders a).began = true := by
  unfold beginTx
  dsimp only
  split_ifs with h1 h2
  · exact h1
  · simp only [Function.update_same]; exact Sender.tx_begin_began _
  · simp only [Function.update_same]; exact Sender.tx_begin_began _

/-- What `beginTx` does when sender `a` is not begun and its port is supported,
in terms of the world `w2` in which the previous owner has been ended. -/
theorem beginTx_fresh (w : World) (a : Nat) (h1 : (w.senders a).began = false)
    (h2 : 0 ≤ (w.senders a).serialIndex) :
    ∃ w2 : World,
      beginTx w a =
        { w2 with senders := Function.update w2.senders a (Sender.begin (w.senders a)) } ∧
      (w2 = claimTx w a ∧
        (w.txInstances (w.senders a).serialIndex = none ∨
          w.txInstances (w.senders a).serialIndex = some a) ∨
      ∃ b, b ≠ a ∧ w.txInstances (w.senders a).serialIndex = some b ∧
        w2 = endTx (claimTx w a) b) := by
  have h3 : ¬(w.senders a).serialIndex < 0 := by omega
  unfold beginTx
  dsimp only
  simp only [h1, h3, if_false, Bool.false_eq_true]
  cases hp : w.txInstances (w.senders a).serialIndex with
  | none => exact ⟨_, rfl, Or.inl ⟨rfl, Or.inl rfl⟩⟩
  | some b =>
    by_cases hb : b = a
    · subst hb
      simp only [ne_eq, not_true_eq_false, if_false]
      exact ⟨_, rfl, Or.inl ⟨rfl, Or.inr trivial⟩⟩
    · simp only [ne_eq, hb, not_false_eq_true, if_true]
      exact ⟨_, rfl, Or.inr ⟨b, hb, rfl, rfl⟩⟩

theorem beginTx_ownedTx (w : World) (hO : Owned w) (a : Nat) :
    ∀ c, ((beginTx w a).senders c).began = true →
      0 ≤ ((beginTx w a).senders c).serialIndex →
      (beginTx w a).txInstances ((beginTx w a).senders c).serialIndex = some c := by
  cases h1 : (w.senders a).began with
  | true =>
    have e : beginTx w a = w := by
      unfold beginTx; dsimp only; simp only [h1, if_true]
    rw [e]; exact hO.tx
  | false =>
    by_cases h2 : (w.senders a).serialIndex < 0
    · have e : beginTx w a =
          { w with senders := Function.update w.senders a (Sender.begin (w.senders a)) } := by
        unfold beginTx; dsimp only; simp only [h1, h2, if_true, if_false, Bool.false_eq_true]
      rw [e]
      intro c hb hi
      by_cases hc : c = a
      · subst hc
        simp only [Function.update_same, Sender.tx_begin_serialIndex] at hi
        omega
      · simp only [Function.update_noteq hc] at hb hi ⊢
        exact hO.tx c hb hi
    · have h2p : 0 ≤ (w.senders a).serialIndex := by omega
      obtain ⟨w2, e, hw2⟩ := beginTx_fresh w a h1 h2p
      rw [e]
      -- the facts about `w2` that the three cases share
      have key : w2.txInstances (w.senders a).serialIndex = some a ∧
          ∀ c, c ≠ a → (w2.senders c).began = true → 0 ≤ (w2.senders c).serialIndex →
            w2.txInstances (w2.senders c).serialIndex = some c := by
        rcases hw2 with ⟨rfl, hp⟩ | ⟨b, hba, hp, rfl⟩
        · refine ⟨by simp only [claimTx, Function.update_same], fun c hc hb hi => ?_⟩
          have hb : (w.senders c).began = true := hb
          have hi : 0 ≤ (w.senders c).serialIndex := hi
          show Function.update w.txInstances (w.senders a).serialIndex (some a)
            (w.senders c).serialIndex = some c
          have hs := hO.tx c hb hi
          have hne : (w.senders c).serialIndex ≠ (w.senders a).serialIndex := by
            intro heq
            rw [heq] at hs
            rcases hp with hp | hp
            · rw [hp] at hs; exact absurd hs (by simp)
            · rw [hp] at hs; exact hc (Option.some.inj hs).symm
          simp only [Function.update_noteq hne]
          exact hs
        · constructor
          · rcases endTx_slot (claimTx w a) b (w.senders a).serialIndex with e1 | e1
            · rw [e1]; simp only [claimTx, Function.update_same]
            · simp only [claimTx, Function.update_same] at e1
              exact absurd (Option.some.inj e1).symm hba
          · intro c hc hb hi
            by_cases hcb : c = b
            · subst hcb
              rw [endTx_self_began] at hb
              exact absurd hb (by simp)
            · rw [endTx_other _ _ _ hcb] at hb hi ⊢
              have hb2 : (w.senders c).began = true := hb
              have hi2 : 0 ≤ (w.senders c).serialIndex := hi
              have hs := hO.tx c hb2 hi2
              have hne : (w.senders c).serialIndex ≠ (w.senders a).serialIndex := by
                intro heq
                rw [heq, hp] at hs
                exact hcb (Option.some.inj hs).symm
              show (endTx (claimTx w a) b).txInstances (w.senders c).serialIndex = some c
              rcases endTx_slot (claimTx w a) b (w.senders c).serialIndex with e1 | e1
              · rw [e1]
                show Function.update w.txInstances (w.senders a).serialIndex (some a)
                  (w.senders c).serialIndex = some c
                rw [Function.update_noteq hne]; exact hs
              · have e2 : Function.update w.txInstances (w.senders a).serialIndex (some a)
                    (w.senders c).serialIndex = some b := e1
                rw [Function.update_noteq hne, hs] at e2
                exact absurd (Option.some.inj e2) hcb
      intro c hb hi
      by_cases hc : c = a
      · subst hc
        simp only [Function.update_same, Sender.tx_begin_serialIndex]
        exact key.1
      · simp only [Function.update_noteq hc] at hb hi ⊢
        exact key.2 c hc hb hi


theorem owned_endRx (w : World) (hO : Owned w) (b : Nat) : Owned (endRx w b) := by
  constructor
  · intro c hb hi
    by_cases hcb : c = b
    · subst hcb
      rw [endRx_self_began] at hb
      exact absurd hb (by simp)
    · rw [endRx_other _ _ _ hcb] at hb hi ⊢
      have hs := hO.rx c hb hi
      rcases endRx_slot w b (w.receivers c).serialIndex with e1 | e1
      · rw [e1]; exact hs
      · rw [hs] at e1
        exact absurd (Option.some.inj e1) hcb
  · rw [(endRx_tx w b).1, (endRx_tx w b).2]
    exact hO.tx

theorem owned_endTx (w : World) (hO : Owned w) (b : Nat) : Owned (endTx w b) := by
  constructor
  · rw [(endTx_rx w b).1, (endTx_rx w b).2]
    exact hO.rx
  · intro c hb hi
    by_cases hcb : c = b
    · subst hcb
      rw [endTx_self_began] at hb
      exact absurd hb (by simp)
    · rw [endTx_other _ _ _ hcb] at hb hi ⊢
      have hs := hO.tx c hb hi
      rcases endTx_slot w b (w.senders c).serialIndex with e1 | e1
      · rw [e1]; exact hs
      · rw [hs] at e1
        exact absurd (Option.some.inj e1) hcb

theorem owned_beginRx (w : World) (hO : Owned w) (a : Nat) : Owned (beginRx w a) := by
  constructor
  · exact beginRx_ownedRx w hO a
  · rw [(beginRx_tx w a).1, (beginRx_tx w a).2]
    exact hO.tx

theorem owned_beginTx (w : World) (hO : Owned w) (a : Nat) : Owned (beginTx w a) := by
  constructor
  · rw [(beginTx_rx w a).1, (beginTx_rx w a).2]
    exact hO.rx
  · exact beginTx_ownedTx w hO a

theorem owned_init (rxPort txPort : Nat → Int) : Owned (init rxPort txPort) := by
  constructor
  · intro a hb _
    exact absurd hb (by simp [init, Receiver.new])
  · intro a hb _
    exact absurd hb (by simp [init, Sender.new])

theorem owned_call (w : World) (hO : Owned w) (c : Call) : Owned (call w c) := by
  cases c with
  | beginRx a => exact owned_beginRx w hO a
  | endRx a => exact owned_endRx w hO a
  | beginTx a => exact owned_beginTx w hO a
  | endTx a => exact owned_endTx w hO a

theorem owned_calls (cs : List Call) : ∀ w : World, Owned w → Owned (calls w cs) := by
  induction cs with
  | nil => intro w hO; exact hO
  | cons c cs ih => intro w hO; exact ih (call w c) (owned_call w hO c)

theorem owned_of_reachable (w : World) (h : Reachable w) : Owned w := by
  obtain ⟨rxPort, txPort, cs, rfl⟩ := h
  exact owned_calls cs _ (owned_init rxPort txPort)

/-- Receiver `b` begins on the port that the begun receiver `a` owns. -/
theorem beginRx_supersedes (w : World) (hO : Owned w) (a b : Nat) (hab : a ≠ b)
    (ha : (w.receivers a).began = true) (hi : 0 ≤ (w.receivers a).serialIndex)
    (hb : (w.receivers b).serialIndex = (w.receivers a).serialIndex) :
    (beginRx w b).rxInstances (w.receivers a).serialIndex = some b ∧
    ((beginRx w b).receivers b).began = true ∧
    ((beginRx w b).receivers a).began = false ∧
    endRx (beginRx w b) a = beginRx w b := by
  have hsa := hO.rx a ha hi
  have hbn : (w.receivers b).began = false := by
    cases hbb : (w.receivers b).began with
    | false => rfl
    | true =>
      have hsb := hO.rx b hbb (by rw [hb]; exact hi)
      rw [hb, hsa] at hsb
      exact absurd (Option.some.inj hsb) hab
  obtain ⟨w2, e, hw2⟩ := beginRx_fresh w b hbn (by rw [hb]; exact hi)
  rw [hb, hsa] at hw2
  have hw2e : w2 = endRx (claimRx w b) a := by
    rcases hw2 with ⟨_, hp | hp⟩ | ⟨d, _, hp, hd⟩
    · exact absurd hp (by simp)
    · exact absurd (Option.some.inj hp) hab
    · rw [← Option.some.inj hp] at hd; exact hd
  have hna : ((beginRx w b).receivers a).began = false := by
    rw [e]
    show (Function.update w2.receivers b (Receiver.begin (w.receivers b)) a).began = false
    rw [Function.update_noteq hab, hw2e]
    exact endRx_self_began _ _
  refine ⟨?_, beginRx_began_self w b, hna, ?_⟩
  · rw [e]
    show w2.rxInstances (w.receivers a).serialIndex = some b
    rw [hw2e]
    rcases endRx_slot (claimRx w b) a (w.receivers a).serialIndex with e1 | e1
    · rw [e1]
      show Function.update w.rxInstances (w.receivers b).serialIndex (some b)
        (w.receivers a).serialIndex = some b
      rw [hb, Function.update_same]
    · have e2 : Function.update w.rxInstances (w.receivers b).serialIndex (some b)
          (w.receivers a).serialIndex = some a := e1
      rw [hb, Function.update_same] at e2
      exact absurd (Option.some.inj e2).symm hab
  · unfold endRx
    dsimp only
    simp only [hna, Bool.not_false, if_true]

end World

namespace Receiver

/-! ### Counters and the connection callback along the operations -/

theorem track_refl (s : Receiver) : Track s s :=
  ⟨⟨le_refl _, le_refl _, le_refl _, le_refl _⟩, rfl, fun _ => rfl, fun _ => rfl⟩

theorem track_trans {a s t : Receiver} (h1 : Track a s) (h2 : Track s t) : Track a t := by
  obtain ⟨⟨c1, c2, c3, c4⟩, f1, k1, q1⟩ := h1
  obtain ⟨⟨d1, d2, d3, d4⟩, f2, k2, q2⟩ := h2
  refine ⟨⟨le_trans c1 d1, le_trans c2 d2, le_trans c3 d3, le_trans c4 d4⟩, f2.trans f1, ?_, ?_⟩
  · intro hf
    have e1 := k1 hf
    have e2 := k2 (f1.trans hf)
    omega
  · intro hf
    rw [q2 (f1.trans hf), q1 hf]

theorem track_of_tally {s t : Receiver} (e : tally t = tally s) : Track s t := by
  simp only [tally, Prod.mk.injEq] at e
  obtain ⟨e1, e2, e3, e4, e5⟩ := e
  refine ⟨?_, e3, fun _ => by rw [e4, e5], fun _ => e4⟩
  simp only [counters, countersLe, e1, e2, le_refl, and_self]

theorem track_same {a s t : Receiver} (h : Track a s) (e : tally t = tally s) : Track a t :=
  track_trans h (track_of_tally e)

theorem track_setConnected (s : Receiver) (flag : Bool) : Track s (setConnected s flag) := by
  unfold setConnected
  by_cases h : (s.connected != flag) = true
  · simp only [h, if_true]
    refine ⟨⟨le_refl _, le_refl _, le_refl _, le_refl _⟩, rfl, fun hf => ?_, fun hf => ?_⟩
    · simp only [hf, if_true]; omega
    · simp only [hf, Bool.false_eq_true, if_false]
  · simp only [h, if_false]
    exact track_refl s

theorem track_setConnected_of {a s : Receiver} (h : Track a s) (flag : Bool) :
    Track a (setConnected s flag) :=
  track_trans h (track_setConnected s flag)

theorem track_checkShort (s : Receiver) : Track s (checkShort s) := by
  unfold checkShort
  simp only []
  split_ifs
  · exact ⟨⟨le_refl _, Nat.le_succ _, le_refl _, le_refl _⟩, rfl, fun _ => rfl, fun _ => rfl⟩
  · exact ⟨⟨le_refl _, Nat.le_succ _, le_refl _, le_refl _⟩, rfl, fun _ => rfl, fun _ => rfl⟩
  · exact track_of_tally rfl

theorem track_swapBuffers (s : Receiver) : Track s (swapBuffers s) := by
  unfold swapBuffers
  split_ifs <;> exact track_of_tally rfl

theorem track_publishStats (s : Receiver) : Track s (publishStats s) :=
  ⟨⟨le_refl _, le_refl _, le_refl _, Nat.le_succ _⟩, rfl, fun _ => rfl, fun _ => rfl⟩

theorem track_dispatchPacket (s : Receiver) : Track s (dispatchPacket s) := by
  unfold dispatchPacket
  split
  · exact track_refl s
  · simp only []
    split <;> exact track_of_tally rfl

theorem track_completePacket (s : Receiver) : Track s (completePacket s) := by
  unfold completePacket
  simp only []
  split_ifs
  · exact track_of_tally rfl
  · have h0 : Track s (clearILT { s with state := RecvStates.kIdle }) := track_of_tally rfl
    exact track_same (track_trans (track_trans (track_trans (track_trans h0 (track_checkShort _))
      (track_swapBuffers _)) (track_publishStats _)) (track_dispatchPacket _)) rfl

theorem track_completePacket_of {a s : Receiver} (h : Track a s) :
    Track a (completePacket s) :=
  track_trans h (track_completePacket s)

theorem track_lost_of {a s : Receiver} (h : Track a s) :
    Track a (setConnected (completePacket s) false) :=
  track_setConnected_of (track_completePacket_of h) false

theorem track_receiveBadBreak_of {a s : Receiver} (h : Track a s) :
    Track a (receiveBadBreak s) := by
  unfold receiveBadBreak
  simp only []
  refine track_lost_of (track_trans h ?_)
  exact ⟨⟨Nat.le_succ _, le_refl _, le_refl _, le_refl _⟩, rfl, fun _ => rfl, fun _ => rfl⟩

theorem track_timerFired (s : Receiver) : Track s (timerFired s) := by
  unfold timerFired
  split_ifs
  · exact track_lost_of (track_of_tally rfl)
  · exact track_refl s

theorem track_receiveIdle (s : Receiver) (eventTime : Int) : Track s (receiveIdle s eventTime) := by
  unfold receiveIdle
  split
  · split_ifs
    · exact track_receiveBadBreak_of (track_of_tally rfl)
    · exact track_of_tally rfl
    · exact track_receiveBadBreak_of (track_of_tally rfl)
    · exact track_of_tally rfl
  · split_ifs
    · exact track_lost_of (track_refl s)
    · exact track_of_tally rfl
  · exact track_of_tally rfl

theorem track_receivePotentialBreak (s : Receiver) (eventTime : Int) :
    Track s (receivePotentialBreak s eventTime) := by
  unfold receivePotentialBreak
  simp only []
  split_ifs <;> exact track_of_tally rfl

theorem track_rxPinRose_isr (s : Receiver) (micros : Int) : Track s (rxPinRose_isr s micros) := by
  unfold rxPinRose_isr
  simp only []
  split_ifs <;> exact track_of_tally rfl

theorem track_setRXWatchPin (s : Receiver) (pin : Int) : Track s (setRXWatchPin s pin) := by
  unfold setRXWatchPin
  split_ifs <;> exact track_of_tally rfl

theorem track_acceptTail {a s1 : Receiver} (h : Track a s1) (ps : PacketStats) (l : Int) :
    Track a { setConnected { s1 with packetStats := ps, lastBreakStartTime := l } true with
      state := RecvStates.kData } := by
  have h1 : Track a { s1 with packetStats := ps, lastBreakStartTime := l } := track_same h rfl
  have h2 := track_setConnected_of h1 true
  exact track_same h2 rfl

theorem track_acceptBreak_of {a s : Receiver} (h : Track a s) (eopTime breakTime mabTime : Int) :
    Track a (acceptBreak s eopTime breakTime mabTime) := by
  unfold acceptBreak
  refine track_acceptTail (track_trans h ?_) _ _
  simp only []
  split_ifs
  · refine track_completePacket_of ?_
    exact ⟨⟨le_refl _, Nat.le_succ _, le_refl _, le_refl _⟩, rfl, fun _ => rfl, fun _ => rfl⟩
  · refine track_completePacket_of ?_
    exact ⟨⟨le_refl _, le_refl _, Nat.le_succ _, le_refl _⟩, rfl, fun _ => rfl, fun _ => rfl⟩
  · exact track_completePacket_of (track_of_tally rfl)
  · exact track_of_tally rfl

theorem track_storeByte_of {a s : Receiver} (h : Track a s) (b : Nat) (eopTime : Int) :
    Track a (storeByte s b eopTime) := by
  unfold storeByte
  simp only []
  refine track_trans h ?_
  split_ifs
  · exact track_lost_of
      ⟨⟨le_refl _, le_refl _, Nat.le_succ _, le_refl _⟩, rfl, fun _ => rfl, fun _ => rfl⟩
  · have hp : Track s (putByte { s with lastSlotEndTime := eopTime } b) := by
      apply track_of_tally
      unfold putByte writeActive
      split <;> rfl
    rcases processStored_cases (putByte { s with lastSlotEndTime := eopTime } b) with h | h
    · rw [h]; exact hp
    · rw [h]; exact track_completePacket_of hp

theorem track_receiveByte (s : Receiver) (b : Nat) (eopTime : Int) :
    Track s (receiveByte s b eopTime) := by
  have h0 : Track s (timerEnd s) := track_of_tally rfl
  unfold receiveByte
  simp only []
  generalize timerEnd s = s0 at h0 ⊢
  have h1 : Track s { s0 with seenMABStart := false } := track_same h0 rfl
  have h2 : Track s (setILT { s0 with seenMABStart := false }) := track_same h0 rfl
  split
  · split_ifs
    · exact track_receiveBadBreak_of h1
    · exact track_lost_of h1
    · exact track_storeByte_of (track_acceptBreak_of h1 _ _ _) _ _
    · exact track_receiveBadBreak_of h1
    · exact track_storeByte_of (track_acceptBreak_of h2 _ _ _) _ _
  · split_ifs
    · exact track_receiveBadBreak_of h0
    · exact track_storeByte_of h0 _ _
  · exact h0

/-! ### Bounds of the fill index and of the published sizes -/

theorem zero_lt_max : (0 : Int) < kMaxDMXPacketSize := by decide

theorem zero_le_max : (0 : Int) ≤ 513 := by decide

theorem bounded_same {s t : Receiver} (h : Bounded s) (e : bview t = bview s) : Bounded t := by
  simp only [bview, Prod.mk.injEq] at e
  obtain ⟨e1, e2, e3⟩ := e
  exact ⟨e1 ▸ h.idx0, e1 ▸ h.idx, e2 ▸ h.size0, e2 ▸ h.size, e3 ▸ h.psize0, e3 ▸ h.psize⟩

theorem bview_setConnected (s : Receiver) (flag : Bool) :
    bview (setConnected s flag) = bview s := by
  unfold setConnected
  split_ifs <;> rfl

theorem bounded_setConnected {s : Receiver} (h : Bounded s) (flag : Bool) :
    Bounded (setConnected s flag) :=
  bounded_same h (bview_setConnected s flag)

theorem dispatchPacket_sizes (s : Receiver) :
    ((dispatchPacket s).packetStats.size = s.packetStats.size ∧
      (dispatchPacket s).packetSize = s.packetSize) ∨
    ((dispatchPacket s).packetStats.size = 0 ∧ (dispatchPacket s).packetSize = 0) := by
  unfold dispatchPacket
  split
  · exact Or.inl ⟨rfl, rfl⟩
  · simp only []
    split
    · exact Or.inr ⟨rfl, rfl⟩
    · exact Or.inl ⟨rfl, rfl⟩

theorem checkShort_idx (s : Receiver) :
    (checkShort s).activeBufIndex = s.activeBufIndex ∨ (checkShort s).activeBufIndex = 0 := by
  unfold checkShort
  simp only []
  split_ifs
  · exact Or.inl rfl
  · exact Or.inr rfl
  · exact Or.inl rfl

theorem swapBuffers_idx (s : Receiver) :
    (swapBuffers s).activeBufIndex = s.activeBufIndex := by
  unfold swapBuffers
  split_ifs <;> rfl

/-- `completePacket` restores the bounds also when the buffer is full. -/
theorem bounded_completePacket (s : Receiver)
    (h : 0 ≤ s.activeBufIndex ∧ s.activeBufIndex ≤ 513 ∧ 0 ≤ s.packetStats.size ∧
      s.packetStats.size ≤ 513 ∧ 0 ≤ s.packetSize ∧ s.packetSize ≤ 513) :
    Bounded (completePacket s) := by
  obtain ⟨h1, h2, h3, h4, h5, h6⟩ := h
  unfold completePacket
  simp only []
  split_ifs with hi
  · have hi2 : s.activeBufIndex ≤ 0 := hi
    refine ⟨?_, ?_, h3, h4, h5, h6⟩
    · exact h1
    · show s.activeBufIndex < 513
      omega
  · have e1 : (publishStats (swapBuffers (checkShort
        (clearILT { s with state := RecvStates.kIdle })))).packetStats.size =
        (checkShort (clearILT { s with state := RecvStates.kIdle })).activeBufIndex := by
      show (swapBuffers _).activeBufIndex = _
      exact swapBuffers_idx _
    have e2 : (publishStats (swapBuffers (checkShort
        (clearILT { s with state := RecvStates.kIdle })))).packetSize =
        (checkShort (clearILT { s with state := RecvStates.kIdle })).activeBufIndex := by
      show (swapBuffers _).activeBufIndex = _
      exact swapBuffers_idx _
    have e3 := checkShort_idx (clearILT { s with state := RecvStates.kIdle })
    have e4 : (clearILT { s with state := RecvStates.kIdle }).activeBufIndex =
        s.activeBufIndex := rfl
    rw [e4] at e3
    have e5 := dispatchPacket_sizes (publishStats (swapBuffers (checkShort
        (clearILT { s with state := RecvStates.kIdle }))))
    rw [e1, e2] at e5
    generalize (dispatchPacket (publishStats (swapBuffers (checkShort
        (clearILT { s with state := RecvStates.kIdle }))))) = d at e5 ⊢
    generalize (checkShort (clearILT { s with state := RecvStates.kIdle })).activeBufIndex = k
      at e3 e5
    refine ⟨le_refl _, zero_lt_max, ?_, ?_, ?_, ?_⟩
    · show 0 ≤ d.packetStats.size
      omega
    · show d.packetStats.size ≤ 513
      omega
    · show 0 ≤ d.packetSize
      omega
    · show d.packetSize ≤ 513
      omega

theorem bounded_completePacket_of {s : Receiver} (h : Bounded s) : Bounded (completePacket s) :=
  bounded_completePacket s
    ⟨h.idx0, le_of_lt h.idx, h.size0, h.size, h.psize0, h.psize⟩

theorem bounded_lost {s : Receiver} (h : Bounded s) :
    Bounded (setConnected (completePacket s) false) :=
  bounded_setConnected (bounded_completePacket_of h) false

theorem bounded_receiveBadBreak {s : Receiver} (h : Bounded s) :
    Bounded (receiveBadBreak s) := by
  unfold receiveBadBreak
  simp only []
  refine bounded_setConnected (bounded_completePacket _ ?_) false
  exact ⟨le_refl _, zero_le_max, h.size0, h.size, h.psize0, h.psize⟩

theorem bounded_timerFired {s : Receiver} (h : Bounded s) : Bounded (timerFired s) := by
  unfold timerFired
  split_ifs
  · have h1 : Bounded (timerEnd s) := bounded_same h rfl
    exact bounded_lost h1
  · exact h

theorem bounded_receiveIdle {s : Receiver} (h : Bounded s) (eventTime : Int) :
    Bounded (receiveIdle s eventTime) := by
  have h1 : Bounded { s with seenMABStart := false } := bounded_same h rfl
  unfold receiveIdle
  split
  · split_ifs
    · exact bounded_receiveBadBreak h1
    · exact bounded_same h rfl
    · exact bounded_receiveBadBreak h1
    · exact bounded_same h rfl
  · split_ifs
    · exact bounded_lost h
    · exact bounded_same h rfl
  · exact bounded_same h rfl

theorem bounded_receivePotentialBreak {s : Receiver} (h : Bounded s) (eventTime : Int) :
    Bounded (receivePotentialBreak s eventTime) := by
  unfold receivePotentialBreak
  simp only []
  split_ifs <;> exact bounded_same h rfl

theorem bounded_rxPinRose_isr {s : Receiver} (h : Bounded s) (micros : Int) :
    Bounded (rxPinRose_isr s micros) := by
  unfold rxPinRose_isr
  simp only []
  split_ifs <;> exact bounded_same h rfl

theorem bounded_setRXWatchPin {s : Receiver} (h : Bounded s) (pin : Int) :
    Bounded (setRXWatchPin s pin) := by
  unfold setRXWatchPin
  split_ifs <;> exact bounded_same h rfl

theorem bounded_acceptTail {s1 : Receiver} (h : Bounded s1) (ps : PacketStats)
    (hps : ps.size = s1.packetStats.size) (l : Int) :
    Bounded { setConnected { s1 with packetStats := ps, lastBreakStartTime := l } true with
      state := RecvStates.kData } := by
  have h1 : Bounded { s1 with packetStats := ps, lastBreakStartTime := l } :=
    ⟨h.idx0, h.idx, hps ▸ h.size0, hps ▸ h.size, h.psize0, h.psize⟩
  have h2 := bounded_setConnected h1 true
  exact bounded_same h2 rfl

theorem bounded_acceptBreak {s : Receiver} (h : Bounded s) (eopTime breakTime mabTime : Int) :
    Bounded (acceptBreak s eopTime breakTime mabTime) := by
  unfold acceptBreak
  refine bounded_acceptTail ?_ _ ?_ _
  · simp only []
    split_ifs
    · exact bounded_completePacket _
        ⟨le_refl _, zero_le_max, h.size0, h.size, h.psize0, h.psize⟩
    · exact bounded_completePacket _
        ⟨h.idx0, le_of_lt h.idx, h.size0, h.size, h.psize0, h.psize⟩
    · exact bounded_completePacket _
        ⟨h.idx0, le_of_lt h.idx, h.size0, h.size, h.psize0, h.psize⟩
    · exact ⟨le_refl _, zero_lt_max, h.size0, h.size, h.psize0, h.psize⟩
  · rfl

theorem bview_putByte (s : Receiver) (b : Nat) :
    bview (putByte s b) = (s.activeBufIndex + 1, s.packetStats.size, s.packetSize) := by
  unfold putByte writeActive
  split <;> rfl

theorem processStored_cases_full (s : Receiver) :
    (processStored s = s ∧ s.activeBufIndex ≠ kMaxDMXPacketSize) ∨
    processStored s = completePacket s := by
  unfold processStored
  simp only []
  split
  · split_ifs with h
    · exact Or.inr rfl
    · exact Or.inl ⟨rfl, by simpa using h⟩
  · split_ifs with h1 h2
    · exact Or.inr rfl
    · exact Or.inl ⟨rfl, by simpa using h2⟩
    · exact Or.inr rfl

theorem bounded_storeByte {s : Receiver} (h : Bounded s) (b : Nat) (eopTime : Int) :
    Bounded (storeByte s b eopTime) := by
  unfold storeByte
  simp only []
  split_ifs
  · refine bounded_setConnected (bounded_completePacket _ ?_) false
    exact ⟨h.idx0, le_of_lt h.idx, h.size0, h.size, h.psize0, h.psize⟩
  · have hv := bview_putByte { s with lastSlotEndTime := eopTime } b
    simp only [bview, Prod.mk.injEq] at hv
    obtain ⟨v1, v2, v3⟩ := hv
    have v1b : (putByte { s with lastSlotEndTime := eopTime } b).activeBufIndex =
        s.activeBufIndex + 1 := v1
    have v2b : (putByte { s with lastSlotEndTime := eopTime } b).packetStats.size =
        s.packetStats.size := v2
    have v3b : (putByte { s with lastSlotEndTime := eopTime } b).packetSize = s.packetSize := v3
    have hi0 := h.idx0
    have hi1 : s.activeBufIndex < 513 := h.idx
    have hs0 := h.size0
    have hs1 : s.packetStats.size ≤ 513 := h.size
    have hp0 := h.psize0
    have hp1 : s.packetSize ≤ 513 := h.psize
    generalize putByte { s with lastSlotEndTime := eopTime } b = p at v1b v2b v3b ⊢
    rcases processStored_cases_full p with ⟨e, hne⟩ | e
    · rw [e]
      have hne2 : p.activeBufIndex ≠ 513 := hne
      refine ⟨by omega, ?_, by omega, ?_, by omega, ?_⟩
      · show p.activeBufIndex < 513
        omega
      · show p.packetStats.size ≤ 513
        omega
      · show p.packetSize ≤ 513
        omega
    · rw [e]
      exact bounded_completePacket p ⟨by omega, by omega, by omega, by omega, by omega, by omega⟩

theorem bounded_receiveByte {s : Receiver} (h : Bounded s) (b : Nat) (eopTime : Int) :
    Bounded (receiveByte s b eopTime) := by
  have h0 : Bounded (timerEnd s) := bounded_same h rfl
  unfold receiveByte
  simp only []
  generalize timerEnd s = s0 at h0 ⊢
  have h1 : Bounded { s0 with seenMABStart := false } := bounded_same h0 rfl
  have h2 : Bounded (setILT { s0 with seenMABStart := false }) := bounded_same h0 rfl
  split
  · split_ifs
    · exact bounded_receiveBadBreak h1
    · exact bounded_lost h1
    · exact bounded_storeByte (bounded_acceptBreak h1 _ _ _) _ _
    · exact bounded_receiveBadBreak h1
    · exact bounded_storeByte (bounded_acceptBreak h2 _ _ _) _ _
  · split_ifs
    · exact bounded_receiveBadBreak h0
    · exact bounded_storeByte h0 _ _
  · exact h0

/-! ### The operations one by one and in sequence -/

theorem track_end_ (s : Receiver) : Track s (end_ s) := by
  unfold end_
  cases hb : s.began
  · simp only [Bool.not_false, if_true]
    exact track_refl s
  · simp only [Bool.not_true, Bool.false_eq_true, if_false]
    have h0 : Track s { s with began := false } := track_of_tally rfl
    split_ifs
    · exact h0
    · exact track_setConnected_of h0 false

theorem track_readPacket (s : Receiver) (buf : Int → Nat) (startChannel len : Int)
    (stats : Option PacketStats) : Track s (readPacket s buf startChannel len stats).recv := by
  unfold readPacket
  simp only []
  split_ifs <;> exact track_of_tally rfl

theorem track_setResponder (s : Receiver) (startCode : Nat) (r : Option Responder)
    (tableAlloc outBufAlloc : Bool) :
    Track s (setResponder s startCode r tableAlloc outBufAlloc).2 := by
  apply track_of_tally
  unfold setResponder
  cases r with
  | none =>
    simp only []
    split
    · rfl
    · simp only []
      split_ifs <;> rfl
  | some resp =>
    simp only []
    cases hr : s.responders with
    | none =>
      cases tableAlloc
      · rfl
      · simp only [if_true]
        split_ifs <;> rfl
    | some tbl =>
      simp only []
      split_ifs <;> rfl

theorem track_step (s : Receiver) (op : Op) (h1 : op ≠ Op.begin)
    (h2 : ∀ b, op ≠ Op.setConnectChangeCallback b) : Track s (step s op) := by
  cases op with
  | begin => exact absurd rfl h1
  | end_ => exact track_end_ s
  | receiveByte b eopTime => exact track_receiveByte s b eopTime
  | receivePotentialBreak eventTime => exact track_receivePotentialBreak s eventTime
  | receiveIdle eventTime => exact track_receiveIdle s eventTime
  | timerFired => exact track_timerFired s
  | rxPinRose micros => exact track_rxPinRose_isr s micros
  | readPacket buf startChannel len stats => exact track_readPacket s buf startChannel len stats
  | setResponder startCode r tableAlloc outBufAlloc =>
    exact track_setResponder s startCode r tableAlloc outBufAlloc
  | setRXWatchPin pin => exact track_setRXWatchPin s pin
  | setKeepShortPackets flag => exact track_of_tally rfl
  | setConnectChangeCallback installed => exact absurd rfl (h2 installed)
  | millis ms => exact track_of_tally rfl

theorem countersLe_step (s : Receiver) (op : Op) (h : op ≠ Op.begin) :
    countersLe (counters s) (counters (step s op)) := by
  by_cases h2 : ∀ b, op ≠ Op.setConnectChangeCallback b
  · exact (track_step s op h h2).counts
  · have h3 : ∃ b, op = Op.setConnectChangeCallback b := by
      by_contra hn
      exact h2 fun b hb => hn ⟨b, hb⟩
    obtain ⟨b, rfl⟩ := h3
    exact ⟨le_refl _, le_refl _, le_refl _, le_refl _⟩

theorem run_cons (s : Receiver) (op : Op) (ops : List Op) :
    run s (op :: ops) = run (step s op) ops := rfl

theorem run_nil (s : Receiver) : run s [] = s := rfl

theorem countersLe_run (ops : List Op) :
    ∀ s : Receiver, (∀ op ∈ ops, op ≠ Op.begin) →
      countersLe (counters s) (counters (run s ops)) := by
  induction ops with
  | nil => intro s _; exact ⟨le_refl _, le_refl _, le_refl _, le_refl _⟩
  | cons op ops ih =>
    intro s h
    rw [run_cons]
    have h1 := countersLe_step s op (h op (List.mem_cons_self _ _))
    have h2 := ih (step s op) fun o ho => h o (List.mem_cons_of_mem _ ho)
    exact ⟨le_trans h1.1 h2.1, le_trans h1.2.1 h2.2.1, le_trans h1.2.2.1 h2.2.2.1,
      le_trans h1.2.2.2 h2.2.2.2⟩

theorem bounded_begin {s : Receiver} (h : Bounded s) : Bounded (begin s) := by
  unfold begin
  cases hb : s.began
  · simp only [Bool.false_eq_true, if_false]
    split_ifs
    · exact bounded_same h rfl
    · have h0 : Bounded { s with
          began := true
          packetCount := 0
          packetSize := 0
          lastBreakStartTime := 0
          packetStats := PacketStats.zero
          errorStats := ErrorStats.zero
          state := RecvStates.kIdle
          activeBufIndex := 0 } :=
        ⟨le_refl _, zero_lt_max, le_refl _, zero_le_max, le_refl _, zero_le_max⟩
      exact bounded_same (bounded_setConnected h0 false) rfl
  · simp only [if_true]
    exact h

theorem bounded_end_ {s : Receiver} (h : Bounded s) : Bounded (end_ s) := by
  unfold end_
  cases hb : s.began
  · simp only [Bool.not_false, if_true]
    exact h
  · simp only [Bool.not_true, Bool.false_eq_true, if_false]
    split_ifs
    · exact bounded_same h rfl
    · have h0 : Bounded { s with began := false } := bounded_same h rfl
      exact bounded_setConnected h0 false

theorem bounded_readPacket {s : Receiver} (h : Bounded s) (buf : Int → Nat)
    (startChannel len : Int) (stats : Option PacketStats) :
    Bounded (readPacket s buf startChannel len stats).recv := by
  have h0 : Bounded { s with packetSize := 0 } :=
    ⟨h.idx0, h.idx, h.size0, h.size, le_refl _, zero_le_max⟩
  unfold readPacket
  simp only []
  split_ifs
  · exact h
  · exact h0
  · exact h0
  · exact h0
  · exact h

theorem bview_setResponder (s : Receiver) (startCode : Nat) (r : Option Responder)
    (tableAlloc outBufAlloc : Bool) :
    bview (setResponder s startCode r tableAlloc outBufAlloc).2 = bview s := by
  unfold setResponder
  cases r with
  | none =>
    simp only []
    split
    · rfl
    · simp only []
      split_ifs <;> rfl
  | some resp =>
    simp only []
    cases hr : s.responders with
    | none =>
      cases tableAlloc
      · rfl
      · simp only [if_true]
        split_ifs <;> rfl
    | some tbl =>
      simp only []
      split_ifs <;> rfl

theorem bounded_step {s : Receiver} (h : Bounded s) (op : Op) : Bounded (step s op) := by
  cases op with
  | begin => exact bounded_begin h
  | end_ => exact bounded_end_ h
  | receiveByte b eopTime => exact bounded_receiveByte h b eopTime
  | receivePotentialBreak eventTime => exact bounded_receivePotentialBreak h eventTime
  | receiveIdle eventTime => exact bounded_receiveIdle h eventTime
  | timerFired => exact bounded_timerFired h
  | rxPinRose micros => exact bounded_rxPinRose_isr h micros
  | readPacket buf startChannel len stats => exact bounded_readPacket h buf startChannel len stats
  | setResponder startCode r tableAlloc outBufAlloc =>
    exact bounded_same h (bview_setResponder s startCode r tableAlloc outBufAlloc)
  | setRXWatchPin pin => exact bounded_setRXWatchPin h pin
  | setKeepShortPackets flag => exact bounded_same h rfl
  | setConnectChangeCallback installed => exact bounded_same h rfl
  | millis ms => exact bounded_same h rfl

theorem bounded_new (serialIndex : Int) : Bounded (new serialIndex) :=
  ⟨le_refl _, zero_lt_max, le_refl _, zero_le_max, le_refl _, zero_le_max⟩

theorem bounded_run (ops : List Op) : ∀ s : Receiver, Bounded s → Bounded (run s ops) := by
  induction ops with
  | nil => intro s h; exact h
  | cons op ops ih => intro s h; exact ih (step s op) (bounded_step h op)

theorem bounded_of_reachable (s : Receiver) (h : Reachable s) : Bounded s := by
  obtain ⟨serialIndex, ops, rfl⟩ := h
  exact bounded_run ops _ (bounded_new serialIndex)

theorem packet25_reachable : Reachable packet25 := ⟨0, packet25Ops, by rfl⟩

/-! ### Frame lemmas for the later claims -/

/-- What `readPacket` returns and copies depends only on the published size and
the published buffer. -/
theorem readPacket_congr (s t : Receiver) (h1 : t.packetSize = s.packetSize)
    (h2 : t.inactiveData = s.inactiveData) (buf : Int → Nat) (startChannel len : Int)
    (stats : Option PacketStats) :
    (readPacket t buf startChannel len stats).retval =
      (readPacket s buf startChannel len stats).retval ∧
    (readPacket t buf startChannel len stats).buf =
      (readPacket s buf startChannel len stats).buf := by
  unfold readPacket
  simp only [h1, h2]
  split_ifs <;> exact ⟨rfl, rfl⟩

/-! ### The handlers case by case -/

theorem receiveByte_kIdle (s : Receiver) (b : Nat) (eop : Int)
    (hst : s.state = RecvStates.kIdle) : receiveByte s b eop = timerEnd s := by
  simp [receiveByte, timerEnd, hst]

theorem receiveByte_kData (s : Receiver) (b : Nat) (eop : Int)
    (hst : s.state = RecvStates.kData) :
    receiveByte s b eop =
      if sub32 eop s.breakStartTime <
          u32 (kMinBreakTime + kMinMABTime + kCharTime + kCharTime * s.activeBufIndex) then
        receiveBadBreak (timerEnd s)
      else storeByte (timerEnd s) b eop := by
  simp [receiveByte, timerEnd, hst]

theorem receiveByte_kBreak_unseen (s : Receiver) (b : Nat) (eop : Int)
    (hst : s.state = RecvStates.kBreak) (hseen : s.seenMABStart = false) :
    receiveByte s b eop =
      if sub32 eop s.breakStartTime < u32 (kMinBreakTime + kMinMABTime + kCharTime) then
        receiveBadBreak (breakEntry s)
      else storeByte (acceptBreak (setILT (breakEntry s)) eop 0 0) b eop := by
  simp [receiveByte, timerEnd, hst, hseen, breakEntry]

theorem receiveByte_kBreak_seen (s : Receiver) (b : Nat) (eop : Int)
    (hst : s.state = RecvStates.kBreak) (hseen : s.seenMABStart = true) :
    receiveByte s b eop =
      if sub32 s.mabStartTime s.breakStartTime < kMinBreakTime ∨
          sub32 eop s.mabStartTime < u32 (kMinMABTime + kCharTime) then
        receiveBadBreak (breakEntry s)
      else if sub32 (sub32 eop kCharTime) s.mabStartTime ≥ kMaxDMXIdleTime then
        setConnected (completePacket (breakEntry s)) false
      else
        storeByte (acceptBreak (breakEntry s) eop (sub32 s.mabStartTime s.breakStartTime)
          (sub32 (sub32 eop kCharTime) s.mabStartTime)) b eop := by
  simp [receiveByte, timerEnd, hst, hseen, breakEntry]

theorem receiveIdle_kBreak_seen (s : Receiver) (te : Int)
    (hst : s.state = RecvStates.kBreak) (hseen : s.seenMABStart = true) :
    receiveIdle s te =
      if sub32 s.mabStartTime s.breakStartTime < kMinBreakTime then
        receiveBadBreak { s with seenMABStart := false }
      else timerBegin s := by
  simp [receiveIdle, hst, hseen]

theorem receiveIdle_kBreak_unseen (s : Receiver) (te : Int)
    (hst : s.state = RecvStates.kBreak) (hseen : s.seenMABStart = false) :
    receiveIdle s te =
      if sub32 te s.breakStartTime < u32 (kMinBreakTime + kCharTime) then
        receiveBadBreak { s with seenMABStart := false }
      else
        timerBegin (setILT { s with seenMABStart := true, mabStartTime := sub32 te kCharTime }) := by
  simp [receiveIdle, hst, hseen]

/-! ### What the pieces of the handlers leave alone -/

theorem dispatchPacket_keeps (s : Receiver) :
    (dispatchPacket s).connected = s.connected ∧
    (dispatchPacket s).seenMABStart = s.seenMABStart ∧
    (dispatchPacket s).state = s.state := by
  unfold dispatchPacket
  split
  · exact ⟨rfl, rfl, rfl⟩
  · simp only []
    split <;> exact ⟨rfl, rfl, rfl⟩

theorem completePacket_keeps (s : Receiver) :
    (completePacket s).connected = s.connected ∧
    (completePacket s).seenMABStart = s.seenMABStart ∧
    (completePacket s).errorStats.packetTimeoutCount = s.errorStats.packetTimeoutCount ∧
    (completePacket s).state = RecvStates.kIdle ∧
    ¬ 0 < (completePacket s).activeBufIndex := by
  unfold completePacket
  simp only []
  split_ifs with hi
  · exact ⟨rfl, rfl, rfl, rfl, not_lt.mpr hi⟩
  · refine ⟨?_, ?_, ?_, ?_, ?_⟩
    · show (dispatchPacket _).connected = _
      rw [(dispatchPacket_keeps _).1]
      simp only [publishStats, swapBuffers, checkShort, clearILT]
      split_ifs <;> rfl
    · show (dispatchPacket _).seenMABStart = _
      rw [(dispatchPacket_keeps _).2.1]
      simp only [publishStats, swapBuffers, checkShort, clearILT]
      split_ifs <;> rfl
    · show (dispatchPacket _).errorStats.packetTimeoutCount = _
      rw [errorStats_dispatchPacket]
      simp only [publishStats, swapBuffers, checkShort, clearILT]
      split_ifs <;> rfl
    · show (dispatchPacket _).state = _
      rw [(dispatchPacket_keeps _).2.2]
      simp only [publishStats, swapBuffers, checkShort, clearILT]
      split_ifs <;> rfl
    · show ¬ (0 : Int) < 0
      decide

theorem setConnected_keeps (s : Receiver) (flag : Bool) :
    (setConnected s flag).seenMABStart = s.seenMABStart ∧
    (setConnected s flag).state = s.state ∧
    (setConnected s flag).breakStartTime = s.breakStartTime := by
  unfold setConnected
  split <;> exact ⟨rfl, rfl, rfl⟩

/-- After `completePacket(); setConnected(false);`. -/
theorem lost_post (s : Receiver) :
    (setConnected (completePacket s) false).state = RecvStates.kIdle ∧
    ¬ 0 < (setConnected (completePacket s) false).activeBufIndex ∧
    (setConnected (completePacket s) false).connected = false ∧
    (setConnected (completePacket s) false).seenMABStart = s.seenMABStart := by
  refine ⟨?_, ?_, setConnected_connected _ _, ?_⟩
  · rw [(setConnected_keeps _ _).2.1]; exact (completePacket_keeps s).2.2.2.1
  · rw [(setConnected_frame _ _).1]; exact (completePacket_keeps s).2.2.2.2
  · rw [(setConnected_keeps _ _).1]; exact (completePacket_keeps s).2.1

theorem receiveBadBreak_post (s : Receiver) :
    (receiveBadBreak s).state = RecvStates.kIdle ∧
    (receiveBadBreak s).activeBufIndex = 0 ∧
    (receiveBadBreak s).connected = false ∧
    (receiveBadBreak s).seenMABStart = s.seenMABStart := by
  unfold receiveBadBreak
  simp only []
  rw [completePacket_empty _ rfl]
  refine ⟨?_, ?_, setConnected_connected _ _, ?_⟩
  · rw [(setConnected_keeps _ _).2.1]; rfl
  · rw [(setConnected_frame _ _).1]; rfl
  · rw [(setConnected_keeps _ _).1]; rfl

theorem putByte_keeps (s : Receiver) (b : Nat) :
    (putByte s b).connected = s.connected ∧
    (putByte s b).seenMABStart = s.seenMABStart ∧
    (putByte s b).state = s.state := by
  unfold putByte writeActive
  split <;> exact ⟨rfl, rfl, rfl⟩

/-- The receiver is connected after `storeByte` only if it was before, and
`seenMABStart_` is as before. -/
theorem storeByte_post (s : Receiver) (b : Nat) (eop : Int) :
    ((storeByte s b eop).connected = true → s.connected = true) ∧
    (storeByte s b eop).seenMABStart = s.seenMABStart := by
  unfold storeByte
  simp only []
  split_ifs
  · constructor
    · intro h
      rw [(lost_post _).2.2.1] at h
      exact absurd h (by simp)
    · rw [(lost_post _).2.2.2]
  · rcases processStored_cases (putByte { s with lastSlotEndTime := eop } b) with h | h
    · rw [h]
      exact ⟨fun hc => by rw [(putByte_keeps _ _).1] at hc; exact hc,
        by rw [(putByte_keeps _ _).2.1]⟩
    · rw [h]
      constructor
      · intro hc
        rw [(completePacket_keeps _).1, (putByte_keeps _ _).1] at hc
        exact hc
      · rw [(completePacket_keeps _).2.1, (putByte_keeps _ _).2.1]

/-- Within the packet time, `storeByte` changes neither the timeout count nor the
connected flag. -/
theorem storeByte_in_time (s : Receiver) (b : Nat) (eop : Int)
    (h : ¬ sub32 eop s.breakStartTime > kMaxDMXPacketTime) :
    (storeByte s b eop).errorStats.packetTimeoutCount = s.errorStats.packetTimeoutCount ∧
    (storeByte s b eop).connected = s.connected := by
  unfold storeByte
  simp only []
  rw [if_neg h]
  rcases processStored_cases (putByte { s with lastSlotEndTime := eop } b) with h1 | h1
  · rw [h1, errorStats_putByte, (putByte_keeps _ _).1]
    exact ⟨rfl, rfl⟩
  · rw [h1, (completePacket_keeps _).2.2.1, (completePacket_keeps _).1, errorStats_putByte,
      (putByte_keeps _ _).1]
    exact ⟨rfl, rfl⟩

/-- The first byte after a valid BREAK that starts more than `kMaxDMXPacketTime`
after the previous one, on a connected receiver. -/
theorem acceptBreak_late (s : Receiver) (eop bt mt : Int) (hconn : s.connected = true)
    (hdt : sub32 s.breakStartTime s.lastBreakStartTime > kMaxDMXPacketTime) :
    (acceptBreak s eop bt mt).errorStats.packetTimeoutCount =
      s.errorStats.packetTimeoutCount + 1 ∧
    (acceptBreak s eop bt mt).connected = true ∧
    (acceptBreak s eop bt mt).breakStartTime = s.breakStartTime := by
  have h1 : ¬ sub32 s.breakStartTime s.lastBreakStartTime < kMinDMXPacketTime := by
    simp only [kMaxDMXPacketTime, kMinDMXPacketTime] at hdt ⊢
    omega
  unfold acceptBreak
  simp only [hconn, if_true, h1, if_false, hdt]
  refine ⟨?_, setConnected_connected _ _, ?_⟩
  · rw [errorStats_setConnected]
    show (completePacket _).errorStats.packetTimeoutCount = _
    rw [(completePacket_keeps _).2.2.1]
  · rw [(setConnected_keeps _ _).2.2]
    show (completePacket _).breakStartTime = _
    unfold completePacket
    simp only []
    split_ifs
    · rfl
    · show (dispatchPacket _).breakStartTime = _
      unfold dispatchPacket
      split
      · simp only [publishStats, swapBuffers, checkShort, clearILT]
        split_ifs <;> rfl
      · simp only []
        split <;>
        · simp only [publishStats, swapBuffers, checkShort, clearILT]
          split_ifs <;> rfl

/-- The tail of `receiveByte` after a valid BREAK that starts more than
`kMaxDMXPacketTime` after the previous one, when the byte itself is in time. -/
theorem late_tail (s : Receiver) (b : Nat) (eop bt mt : Int) (hconn : s.connected = true)
    (hdt : sub32 s.breakStartTime s.lastBreakStartTime > kMaxDMXPacketTime)
    (hfirst : ¬ sub32 eop s.breakStartTime > kMaxDMXPacketTime) :
    (storeByte (acceptBreak s eop bt mt) b eop).errorStats.packetTimeoutCount =
      s.errorStats.packetTimeoutCount + 1 ∧
    (storeByte (acceptBreak s eop bt mt) b eop).connected = true ∧
    (0 < s.activeBufIndex →
      ¬ sub32 s.lastSlotEndTime s.breakStartTime < kMinDMXPacketTime →
      s.responders = none →
      view (storeByte (acceptBreak s eop bt mt) b eop) =
        (s.packetCount + 1, s.activeBufIndex, s.activeData)) := by
  obtain ⟨a1, a2, a3⟩ := acceptBreak_late s eop bt mt hconn hdt
  have hf : ¬ sub32 eop (acceptBreak s eop bt mt).breakStartTime > kMaxDMXPacketTime := by
    rw [a3]; exact hfirst
  obtain ⟨s1, s2⟩ := storeByte_in_time (acceptBreak s eop bt mt) b eop hf
  refine ⟨by rw [s1, a1], by rw [s2, a2], fun hidx hlong hresp => ?_⟩
  have h1 : ¬ sub32 s.breakStartTime s.lastBreakStartTime < kMinDMXPacketTime := by
    simp only [kMaxDMXPacketTime, kMinDMXPacketTime] at hdt ⊢
    omega
  obtain ⟨p1, p2, p3, p4⟩ := acceptBreak_publish s eop bt mt hconn h1 hidx hlong hresp
  rw [view_storeByte (acceptBreak s eop bt mt) b eop p2 p3 p4, p1]

theorem receiveIdle_empty (s : Receiver) (te : Int) (hidx : s.activeBufIndex = 0) :
    view (receiveIdle s te) = view s ∧ (receiveIdle s te).activeBufIndex = 0 := by
  have hl : view (setConnected (completePacket s) false) = view s ∧
      (setConnected (completePacket s) false).activeBufIndex = 0 := by
    rw [view_setConnected, (setConnected_frame _ _).1, completePacket_empty s hidx]
    exact ⟨rfl, hidx⟩
  have hb : view (receiveBadBreak { s with seenMABStart := false }) = view s ∧
      (receiveBadBreak { s with seenMABStart := false }).activeBufIndex = 0 :=
    ⟨view_receiveBadBreak _, (receiveBadBreak_post _).2.1⟩
  unfold receiveIdle
  split
  · split_ifs
    · exact hb
    · exact ⟨rfl, hidx⟩
    · exact hb
    · exact ⟨rfl, hidx⟩
  · split_ifs
    · exact hl
    · exact ⟨rfl, hidx⟩
  · exact ⟨rfl, hidx⟩

theorem receivePotentialBreak_frame (s : Receiver) (eventTime : Int) :
    (receivePotentialBreak s eventTime).state = RecvStates.kBreak ∧
    (receivePotentialBreak s eventTime).breakStartTime = sub32 eventTime kCharTime ∧
    view (receivePotentialBreak s eventTime) = view s ∧
    sview (receivePotentialBreak s eventTime) = sview s ∧
    (receivePotentialBreak s eventTime).connected = s.connected ∧
    (receivePotentialBreak s eventTime).receivePacketCalls = s.receivePacketCalls ∧
    (receivePotentialBreak s eventTime).activeBufIndex = s.activeBufIndex ∧
    (receivePotentialBreak s eventTime).activeData = s.activeData := by
  unfold receivePotentialBreak
  simp only []
  split_ifs <;> exact ⟨rfl, rfl, rfl, rfl, rfl, rfl, rfl, rfl⟩

/-- A BREAK and nothing after it: the framing error, the idle-line event and the
expiry of the timer publish nothing, whatever the event times. -/
theorem view_break_only (s : Receiver) (eventTime idleTime : Int) (hidx : s.activeBufIndex = 0) :
    view (receiveIdle (receivePotentialBreak s eventTime) idleTime) = view s ∧
    view (endByIdle (receivePotentialBreak s eventTime) idleTime) = view s := by
  obtain ⟨-, -, f3, -, -, -, f7, -⟩ := receivePotentialBreak_frame s eventTime
  have h1 := receiveIdle_empty (receivePotentialBreak s eventTime) idleTime (f7.trans hidx)
  refine ⟨h1.1.trans f3, ?_⟩
  unfold endByIdle
  rw [view_timerFired_empty _ h1.2]
  exact h1.1.trans f3

theorem acceptBreak_idx (s : Receiver) (eop bt mt : Int) :
    ¬ 0 < (acceptBreak s eop bt mt).activeBufIndex := by
  unfold acceptBreak
  simp only []
  rw [(setConnected_frame _ _).1]
  split_ifs
  · exact (completePacket_keeps _).2.2.2.2
  · exact (completePacket_keeps _).2.2.2.2
  · exact (completePacket_keeps _).2.2.2.2
  · show ¬ (0 : Int) < 0
    decide

theorem putByte_store (s : Receiver) (b : Nat) :
    (putByte s b).activeBufIndex = s.activeBufIndex + 1 ∧
    (putByte s b).activeData = Function.update s.activeData s.activeBufIndex b := by
  refine ⟨?_, ?_⟩
  · unfold putByte writeActive
    split <;> rfl
  · exact (show (putByte s b).activeData = (writeActive s s.activeBufIndex b).activeData from
      rfl).trans (activeData_writeActive s s.activeBufIndex b)

/-- Storing the 513th byte completes the packet in the same event. -/
theorem storeByte_full (s : Receiver) (b : Nat) (eop : Int) (h : s.activeBufIndex = 512) :
    (storeByte s b eop).activeBufIndex = 0 ∧ (storeByte s b eop).state = RecvStates.kIdle := by
  have hc : ∀ x : Receiver, 0 < x.activeBufIndex →
      (completePacket x).activeBufIndex = 0 ∧ (completePacket x).state = RecvStates.kIdle := by
    intro x hx
    refine ⟨?_, (completePacket_keeps x).2.2.2.1⟩
    unfold completePacket
    simp only []
    rw [if_neg (by simpa [clearILT] using hx)]
  unfold storeByte
  simp only []
  split_ifs
  · rw [(setConnected_frame _ _).1, (setConnected_keeps _ _).2.1]
    exact hc _ (by show 0 < s.activeBufIndex; omega)
  · have hp := (putByte_store { s with lastSlotEndTime := eop } b).1
    have hp2 : (putByte { s with lastSlotEndTime := eop } b).activeBufIndex = 513 := by
      rw [hp]; show s.activeBufIndex + 1 = 513; omega
    rcases processStored_cases_full (putByte { s with lastSlotEndTime := eop } b) with ⟨-, hne⟩ | e
    · exact absurd hp2 hne
    · rw [e]
      exact hc _ (by rw [hp2]; decide)

/-! ### Event times moved by a constant: the pieces -/

theorem cong_sub32 {d x x' y y' : Int} (hx : Cong d x x') (hy : Cong d y y') :
    sub32 x' y' = sub32 x y := by
  unfold Cong u32 at hx hy
  unfold sub32
  omega

theorem cong_u32 (d x : Int) : Cong d x (u32 (x + d)) := by
  unfold Cong u32
  omega

theorem cong_sub32_const {d x x' : Int} (hx : Cong d x x') (k : Int) :
    Cong d (sub32 x k) (sub32 x' k) := by
  unfold Cong u32 at hx ⊢
  unfold sub32
  omega

theorem retime_self (s : Receiver) :
    retime s s.breakStartTime s.lastBreakStartTime s.lastSlotEndTime s.mabStartTime = s := rfl

theorem shifted_of_retime {d : Int} (s : Receiver) (b l e m : Int)
    (hb : (s.state ≠ RecvStates.kIdle ∨ 0 < s.activeBufIndex) → Cong d s.breakStartTime b)
    (hl : s.connected = true → Cong d s.lastBreakStartTime l)
    (he : (s.state = RecvStates.kData ∨ 0 < s.activeBufIndex) → Cong d s.lastSlotEndTime e)
    (hm : s.seenMABStart = true → Cong d s.mabStartTime m) :
    Shifted d s (retime s b l e m) :=
  ⟨rfl, hb, hl, he, hm⟩

theorem shifted_elim {d : Int} {s t : Receiver} (h : Shifted d s t) :
    ∃ b l e m : Int, t = retime s b l e m ∧
      ((s.state ≠ RecvStates.kIdle ∨ 0 < s.activeBufIndex) → Cong d s.breakStartTime b) ∧
      (s.connected = true → Cong d s.lastBreakStartTime l) ∧
      ((s.state = RecvStates.kData ∨ 0 < s.activeBufIndex) → Cong d s.lastSlotEndTime e) ∧
      (s.seenMABStart = true → Cong d s.mabStartTime m) :=
  ⟨_, _, _, _, h.same, h.brk, h.last, h.slot, h.mab⟩

theorem retime_setConnected (s : Receiver) (b l e m : Int) (flag : Bool) :
    setConnected (retime s b l e m) flag = retime (setConnected s flag) b l e m := by
  unfold setConnected
  by_cases h : (s.connected != flag) = true
  · have h2 : ((retime s b l e m).connected != flag) = true := h
    rw [if_pos h, if_pos h2]
    rfl
  · have h2 : ¬((retime s b l e m).connected != flag) = true := h
    rw [if_neg h, if_neg h2]

theorem retime_checkShort (s : Receiver) (b l e m : Int)
    (h : sub32 e b = sub32 s.lastSlotEndTime s.breakStartTime) :
    checkShort (retime s b l e m) = retime (checkShort s) b l e m := by
  unfold checkShort
  have e1 : sub32 (retime s b l e m).lastSlotEndTime (retime s b l e m).breakStartTime =
      sub32 s.lastSlotEndTime s.breakStartTime := h
  simp only [e1]
  have e2 : (retime s b l e m).keepShortPackets = s.keepShortPackets := rfl
  split_ifs <;> first | rfl | simp_all

theorem retime_swapBuffers (s : Receiver) (b l e m : Int) :
    swapBuffers (retime s b l e m) = retime (swapBuffers s) b l e m := by
  unfold swapBuffers
  have e1 : (retime s b l e m).activeBuf = s.activeBuf := rfl
  simp only [e1]
  split_ifs <;> rfl

theorem retime_publishStats (s : Receiver) (b l e m : Int)
    (h : sub32 e b = sub32 s.lastSlotEndTime s.breakStartTime) :
    publishStats (retime s b l e m) = retime (publishStats s) b l e m := by
  unfold publishStats
  have e1 : sub32 (retime s b l e m).lastSlotEndTime (retime s b l e m).breakStartTime =
      sub32 s.lastSlotEndTime s.breakStartTime := h
  simp only [e1]
  rfl

theorem retime_dispatchPacket (s : Receiver) (b l e m : Int) :
    dispatchPacket (retime s b l e m) = retime (dispatchPacket s) b l e m := by
  unfold dispatchPacket
  have e1 : (retime s b l e m).responderFor ((retime s b l e m).inactiveData 0) =
      s.responderFor (s.inactiveData 0) := rfl
  rw [e1]
  split
  · rfl
  · simp only []
    split_ifs <;> rfl

theorem retime_completePacket (s : Receiver) (b l e m : Int)
    (h : 0 < s.activeBufIndex → sub32 e b = sub32 s.lastSlotEndTime s.breakStartTime) :
    completePacket (retime s b l e m) = retime (completePacket s) b l e m := by
  unfold completePacket
  simp only []
  have e0 : clearILT { retime s b l e m with state := RecvStates.kIdle } =
      retime (clearILT { s with state := RecvStates.kIdle }) b l e m := rfl
  rw [e0]
  by_cases hi : s.activeBufIndex ≤ 0
  · have h1 : (clearILT { s with state := RecvStates.kIdle }).activeBufIndex ≤ 0 := hi
    have h2 : (retime (clearILT { s with state := RecvStates.kIdle }) b l e m).activeBufIndex ≤ 0 :=
      hi
    rw [if_pos h1, if_pos h2]
  · have h1 : ¬(clearILT { s with state := RecvStates.kIdle }).activeBufIndex ≤ 0 := hi
    have h2 : ¬(retime (clearILT { s with state := RecvStates.kIdle }) b l e m).activeBufIndex ≤ 0 :=
      hi
    rw [if_neg h1, if_neg h2]
    have hd : sub32 e b = sub32 s.lastSlotEndTime s.breakStartTime := h (by omega)
    have hd1 : sub32 e b = sub32 (clearILT { s with state := RecvStates.kIdle }).lastSlotEndTime
        (clearILT { s with state := RecvStates.kIdle }).breakStartTime := hd
    generalize clearILT { s with state := RecvStates.kIdle } = s0 at hd1 ⊢
    rw [retime_checkShort s0 b l e m hd1, retime_swapBuffers]
    have hd2 : sub32 e b = sub32 (swapBuffers (checkShort s0)).lastSlotEndTime
        (swapBuffers (checkShort s0)).breakStartTime := by
      rw [hd1]
      unfold swapBuffers checkShort
      simp only []
      split_ifs <;> rfl
    rw [retime_publishStats _ b l e m hd2, retime_dispatchPacket]
    rfl

theorem retime_lost (s : Receiver) (b l e m : Int)
    (h : 0 < s.activeBufIndex → sub32 e b = sub32 s.lastSlotEndTime s.breakStartTime) :
    setConnected (completePacket (retime s b l e m)) false =
      retime (setConnected (completePacket s) false) b l e m := by
  rw [retime_completePacket s b l e m h, retime_setConnected]

theorem retime_receiveBadBreak (s : Receiver) (b l e m : Int) :
    receiveBadBreak (retime s b l e m) = retime (receiveBadBreak s) b l e m := by
  unfold receiveBadBreak
  simp only []
  have e0 : ({ retime s b l e m with
      errorStats := { (retime s b l e m).errorStats with
        framingErrorCount := (retime s b l e m).errorStats.framingErrorCount + 1 }
      activeBufIndex := 0 } : Receiver) =
      retime { s with
        errorStats := { s.errorStats with framingErrorCount := s.errorStats.framingErrorCount + 1 }
        activeBufIndex := 0 } b l e m := rfl
  rw [e0, retime_lost _ b l e m (fun h0 => (lt_irrefl (0 : Int) h0).elim)]

theorem retime_putByte (s : Receiver) (b l e m : Int) (byte : Nat) :
    putByte (retime s b l e m) byte = retime (putByte s byte) b l e m := by
  unfold putByte writeActive
  have e1 : (retime s b l e m).activeBuf = s.activeBuf := rfl
  rw [e1]
  split <;> rfl

theorem retime_processStored (s : Receiver) (b l e m : Int)
    (h : 0 < s.activeBufIndex → sub32 e b = sub32 s.lastSlotEndTime s.breakStartTime) :
    processStored (retime s b l e m) = retime (processStored s) b l e m := by
  have hc := retime_completePacket s b l e m h
  unfold processStored
  simp only []
  have e1 : (retime s b l e m).responderFor ((retime s b l e m).activeData 0) =
      s.responderFor (s.activeData 0) := rfl
  have e2 : (retime s b l e m).activeBufIndex = s.activeBufIndex := rfl
  have e3 : (retime s b l e m).activeData = s.activeData := rfl
  rw [e1, e2, e3]
  split
  · split_ifs
    · exact hc
    · rfl
  · split_ifs
    · exact hc
    · rfl
    · exact hc

theorem retime_storeByte (s : Receiver) (b l e m : Int) (byte : Nat) (ev ev' : Int)
    (h : sub32 ev' b = sub32 ev s.breakStartTime) :
    storeByte (retime s b l e m) byte ev' = retime (storeByte s byte ev) b l ev' m := by
  by_cases hc : sub32 ev s.breakStartTime > kMaxDMXPacketTime
  · have hc' : sub32 ev' (retime s b l e m).breakStartTime > kMaxDMXPacketTime := by
      show sub32 ev' b > kMaxDMXPacketTime
      rw [h]; exact hc
    have e1 : storeByte s byte ev =
        setConnected (completePacket { s with
          lastSlotEndTime := ev
          errorStats := { s.errorStats with
            packetTimeoutCount := s.errorStats.packetTimeoutCount + 1 } }) false := by
      unfold storeByte
      simp only []
      rw [if_pos hc]
    have e2 : storeByte (retime s b l e m) byte ev' =
        setConnected (completePacket (retime { s with
          lastSlotEndTime := ev
          errorStats := { s.errorStats with
            packetTimeoutCount := s.errorStats.packetTimeoutCount + 1 } } b l ev' m)) false := by
      unfold storeByte
      simp only []
      rw [if_pos hc']
      rfl
    rw [e1, e2]
    exact retime_lost _ b l ev' m (fun _ => h)
  · have hc' : ¬ sub32 ev' (retime s b l e m).breakStartTime > kMaxDMXPacketTime := by
      show ¬ sub32 ev' b > kMaxDMXPacketTime
      rw [h]; exact hc
    have e1 : storeByte s byte ev = processStored (putByte { s with lastSlotEndTime := ev } byte) := by
      unfold storeByte
      simp only []
      rw [if_neg hc]
    have e2 : storeByte (retime s b l e m) byte ev' =
        processStored (putByte (retime { s with lastSlotEndTime := ev } b l ev' m) byte) := by
      unfold storeByte
      simp only []
      rw [if_neg hc']
      rfl
    rw [e1, e2, retime_putByte]
    refine retime_processStored _ b l ev' m (fun _ => ?_)
    rw [h]
    have k1 : (putByte { s with lastSlotEndTime := ev } byte).lastSlotEndTime = ev := by
      unfold putByte writeActive
      split <;> rfl
    have k2 : (putByte { s with lastSlotEndTime := ev } byte).breakStartTime = s.breakStartTime := by
      unfold putByte writeActive
      split <;> rfl
    rw [k1, k2]

theorem times_of_fix (x : Receiver) (b l e m : Int) (h : x = retime x b l e m) :
    x.breakStartTime = b ∧ x.lastBreakStartTime = l ∧ x.lastSlotEndTime = e ∧
      x.mabStartTime = m := by
  rw [h]
  exact ⟨rfl, rfl, rfl, rfl⟩

theorem completePacket_times (s : Receiver) :
    (completePacket s).breakStartTime = s.breakStartTime ∧
    (completePacket s).lastBreakStartTime = s.lastBreakStartTime ∧
    (completePacket s).lastSlotEndTime = s.lastSlotEndTime ∧
    (completePacket s).mabStartTime = s.mabStartTime :=
  times_of_fix _ _ _ _ _
    (retime_completePacket s s.breakStartTime s.lastBreakStartTime s.lastSlotEndTime
      s.mabStartTime (fun _ => rfl))

theorem setConnected_times (s : Receiver) (flag : Bool) :
    (setConnected s flag).breakStartTime = s.breakStartTime ∧
    (setConnected s flag).lastBreakStartTime = s.lastBreakStartTime ∧
    (setConnected s flag).lastSlotEndTime = s.lastSlotEndTime ∧
    (setConnected s flag).mabStartTime = s.mabStartTime :=
  times_of_fix _ _ _ _ _
    (retime_setConnected s s.breakStartTime s.lastBreakStartTime s.lastSlotEndTime
      s.mabStartTime flag)

theorem lost_times (s : Receiver) :
    (setConnected (completePacket s) false).breakStartTime = s.breakStartTime ∧
    (setConnected (completePacket s) false).lastBreakStartTime = s.lastBreakStartTime ∧
    (setConnected (completePacket s) false).lastSlotEndTime = s.lastSlotEndTime ∧
    (setConnected (completePacket s) false).mabStartTime = s.mabStartTime :=
  times_of_fix _ _ _ _ _
    (retime_lost s s.breakStartTime s.lastBreakStartTime s.lastSlotEndTime
      s.mabStartTime (fun _ => rfl))

theorem receiveBadBreak_times (s : Receiver) :
    (receiveBadBreak s).breakStartTime = s.breakStartTime ∧
    (receiveBadBreak s).lastBreakStartTime = s.lastBreakStartTime ∧
    (receiveBadBreak s).lastSlotEndTime = s.lastSlotEndTime ∧
    (receiveBadBreak s).mabStartTime = s.mabStartTime :=
  times_of_fix _ _ _ _ _
    (retime_receiveBadBreak s s.breakStartTime s.lastBreakStartTime s.lastSlotEndTime
      s.mabStartTime)

theorem storeByte_times (s : Receiver) (byte : Nat) (ev : Int) :
    (storeByte s byte ev).breakStartTime = s.breakStartTime ∧
    (storeByte s byte ev).lastBreakStartTime = s.lastBreakStartTime ∧
    (storeByte s byte ev).lastSlotEndTime = ev ∧
    (storeByte s byte ev).mabStartTime = s.mabStartTime :=
  times_of_fix _ _ _ _ _
    (retime_storeByte s s.breakStartTime s.lastBreakStartTime s.lastSlotEndTime
      s.mabStartTime byte ev ev rfl)

/-- The end of `acceptBreak`, for any receiver `x` that its first part produces. -/
theorem retime_acceptTail (x x' : Receiver) (ev ev' bt mt b l e m : Int)
    (hx : x' = retime x b l e m)
    (hn : sub32 (sub32 ev' kCharTime) b = sub32 (sub32 ev kCharTime) x.breakStartTime) :
    ({ setConnected { x' with
        packetStats := { x'.packetStats with
          nextBreakPlusMABTime := sub32 (sub32 ev' kCharTime) x'.breakStartTime
          nextBreakTime := bt
          nextMABTime := mt }
        lastBreakStartTime := x'.breakStartTime } true with
      state := RecvStates.kData } : Receiver) =
    retime { setConnected { x with
        packetStats := { x.packetStats with
          nextBreakPlusMABTime := sub32 (sub32 ev kCharTime) x.breakStartTime
          nextBreakTime := bt
          nextMABTime := mt }
        lastBreakStartTime := x.breakStartTime } true with
      state := RecvStates.kData } b b e m := by
  subst hx
  have e1 : sub32 (sub32 ev' kCharTime) (retime x b l e m).breakStartTime =
      sub32 (sub32 ev kCharTime) x.breakStartTime := hn
  rw [e1]
  have e2 := retime_setConnected { x with
        packetStats := { x.packetStats with
          nextBreakPlusMABTime := sub32 (sub32 ev kCharTime) x.breakStartTime
          nextBreakTime := bt
          nextMABTime := mt }
        lastBreakStartTime := x.breakStartTime } b b e m true
  have e3 : ∀ y y' : Receiver, y' = retime y b b e m →
      ({ y' with state := RecvStates.kData } : Receiver) =
        retime { y with state := RecvStates.kData } b b e m := by
    intro y y' hy
    subst hy
    rfl
  exact e3 _ _ e2

theorem retime_acceptBreak (s : Receiver) (b l e m ev ev' bt mt : Int)
    (hconn : s.connected = true → sub32 b l = sub32 s.breakStartTime s.lastBreakStartTime)
    (hle : 0 < s.activeBufIndex → sub32 e b = sub32 s.lastSlotEndTime s.breakStartTime)
    (hn : sub32 (sub32 ev' kCharTime) b = sub32 (sub32 ev kCharTime) s.breakStartTime) :
    acceptBreak (retime s b l e m) ev' bt mt = retime (acceptBreak s ev bt mt) b b e m := by
  unfold acceptBreak
  refine retime_acceptTail _ _ ev ev' bt mt b l e m ?_ ?_
  · simp only []
    cases hc : s.connected with
    | false =>
      have hc' : (retime s b l e m).connected = false := hc
      simp only [hc', Bool.false_eq_true, if_false]
      rfl
    | true =>
      have hc' : (retime s b l e m).connected = true := hc
      have hd : sub32 (retime s b l e m).breakStartTime (retime s b l e m).lastBreakStartTime =
          sub32 s.breakStartTime s.lastBreakStartTime := hconn hc
      simp only [hc', if_true, hd]
      split_ifs
      · refine Eq.trans ?_ (retime_completePacket _ b l e m ?_)
        · rfl
        · intro h0
          exact (lt_irrefl (0 : Int) h0).elim
      · refine Eq.trans ?_ (retime_completePacket _ b l e m ?_)
        · rfl
        · exact hle
      · refine Eq.trans ?_ (retime_completePacket _ b l e m ?_)
        · rfl
        · exact hle
  · have hb : ∀ y : Receiver, (completePacket y).breakStartTime = y.breakStartTime :=
      fun y => (completePacket_times y).1
    simp only []
    rw [hn]
    split_ifs
    · rw [hb]
    · rw [hb]
    · rw [hb]
    · rfl

theorem acceptBreak_times (s : Receiver) (ev bt mt : Int) :
    (acceptBreak s ev bt mt).breakStartTime = s.breakStartTime ∧
    (acceptBreak s ev bt mt).lastBreakStartTime = s.breakStartTime ∧
    (acceptBreak s ev bt mt).lastSlotEndTime = s.lastSlotEndTime ∧
    (acceptBreak s ev bt mt).mabStartTime = s.mabStartTime :=
  times_of_fix _ _ _ _ _
    (retime_acceptBreak s s.breakStartTime s.lastBreakStartTime s.lastSlotEndTime
      s.mabStartTime ev ev bt mt (fun _ => rfl) (fun _ => rfl) rfl)

theorem acceptBreak_seen (s : Receiver) (ev bt mt : Int) :
    (acceptBreak s ev bt mt).seenMABStart = s.seenMABStart := by
  unfold acceptBreak
  simp only []
  rw [(setConnected_keeps _ _).1]
  split_ifs
  · exact (completePacket_keeps _).2.1
  · exact (completePacket_keeps _).2.1
  · exact (completePacket_keeps _).2.1
  · rfl

/-! ### Event times moved by a constant: the handlers -/

theorem shifted_lost {d : Int} (x : Receiver) (b l e m : Int)
    (hle : 0 < x.activeBufIndex → sub32 e b = sub32 x.lastSlotEndTime x.breakStartTime)
    (hm : x.seenMABStart = true → Cong d x.mabStartTime m) :
    Shifted d (setConnected (completePacket x) false)
      (setConnected (completePacket (retime x b l e m)) false) := by
  rw [retime_lost x b l e m hle]
  obtain ⟨p1, p2, p3, p4⟩ := lost_post x
  refine shifted_of_retime _ b l e m (fun g => ?_) (fun g => ?_) (fun g => ?_) (fun g => ?_)
  · rcases g with g | g
    · exact absurd p1 g
    · exact absurd g p2
  · rw [p3] at g
    exact absurd g (by simp)
  · rcases g with g | g
    · rw [p1] at g
      exact absurd g (by simp)
    · exact absurd g p2
  · rw [p4] at g
    rw [(lost_times x).2.2.2]
    exact hm g

theorem shifted_receiveBadBreak {d : Int} (x : Receiver) (b l e m : Int)
    (hm : x.seenMABStart = true → Cong d x.mabStartTime m) :
    Shifted d (receiveBadBreak x) (receiveBadBreak (retime x b l e m)) := by
  rw [retime_receiveBadBreak x b l e m]
  obtain ⟨p1, p2, p3, p4⟩ := receiveBadBreak_post x
  refine shifted_of_retime _ b l e m (fun g => ?_) (fun g => ?_) (fun g => ?_) (fun g => ?_)
  · rcases g with g | g
    · exact absurd p1 g
    · rw [p2] at g
      exact absurd g (lt_irrefl 0)
  · rw [p3] at g
    exact absurd g (by simp)
  · rcases g with g | g
    · rw [p1] at g
      exact absurd g (by simp)
    · rw [p2] at g
      exact absurd g (lt_irrefl 0)
  · rw [p4] at g
    rw [(receiveBadBreak_times x).2.2.2]
    exact hm g

theorem shifted_storeByte {d : Int} (x : Receiver) (b l e m : Int) (byte : Nat) (ev ev' : Int)
    (hb : Cong d x.breakStartTime b)
    (hl : x.connected = true → Cong d x.lastBreakStartTime l)
    (hev : Cong d ev ev')
    (hm : x.seenMABStart = true → Cong d x.mabStartTime m) :
    Shifted d (storeByte x byte ev) (storeByte (retime x b l e m) byte ev') := by
  rw [retime_storeByte x b l e m byte ev ev' (cong_sub32 hev hb)]
  obtain ⟨t1, t2, t3, t4⟩ := storeByte_times x byte ev
  obtain ⟨q1, q2⟩ := storeByte_post x byte ev
  refine shifted_of_retime _ b l ev' m (fun _ => ?_) (fun g => ?_) (fun _ => ?_) (fun g => ?_)
  · rw [t1]; exact hb
  · rw [t2]; exact hl (q1 g)
  · rw [t3]; exact hev
  · rw [q2] at g
    rw [t4]; exact hm g

/-- The first byte after a valid BREAK: `acceptBreak` and then `storeByte`. -/
theorem shifted_first {d : Int} (x : Receiver) (b l e m : Int) (byte : Nat) (ev ev' bt mt : Int)
    (hb : Cong d x.breakStartTime b)
    (hl : x.connected = true → Cong d x.lastBreakStartTime l)
    (hle : 0 < x.activeBufIndex → Cong d x.lastSlotEndTime e)
    (hev : Cong d ev ev')
    (hseen : x.seenMABStart = false) :
    Shifted d (storeByte (acceptBreak x ev bt mt) byte ev)
      (storeByte (acceptBreak (retime x b l e m) ev' bt mt) byte ev') := by
  rw [retime_acceptBreak x b l e m ev ev' bt mt (fun hc => cong_sub32 hb (hl hc))
    (fun hi => cong_sub32 (hle hi) hb) (cong_sub32 (cong_sub32_const hev kCharTime) hb)]
  obtain ⟨t1, t2, -, -⟩ := acceptBreak_times x ev bt mt
  refine shifted_storeByte _ b b e m byte ev ev' ?_ (fun _ => ?_) hev (fun g => ?_)
  · rw [t1]; exact hb
  · rw [t2]; exact hb
  · rw [acceptBreak_seen, hseen] at g
    exact absurd g (by simp)

theorem shifted_receiveByte {d : Int} {s t : Receiver} (h : Shifted d s t) (byte : Nat)
    (ev : Int) : Shifted d (receiveByte s byte ev) (receiveByte t byte (u32 (ev + d))) := by
  obtain ⟨b, l, e, m, rfl, hb, hl, he, hm⟩ := shifted_elim h
  have hev : Cong d ev (u32 (ev + d)) := cong_u32 d ev
  generalize u32 (ev + d) = ev' at hev ⊢
  cases hst : s.state with
  | kIdle =>
    rw [receiveByte_kIdle s byte ev hst, receiveByte_kIdle (retime s b l e m) byte ev' hst]
    exact ⟨rfl, hb, hl, he, hm⟩
  | kData =>
    have cb : Cong d s.breakStartTime b := hb (Or.inl (by rw [hst]; simp))
    have hcond : sub32 ev' (retime s b l e m).breakStartTime = sub32 ev s.breakStartTime :=
      cong_sub32 hev cb
    have hidx : (retime s b l e m).activeBufIndex = s.activeBufIndex := rfl
    rw [receiveByte_kData s byte ev hst, receiveByte_kData (retime s b l e m) byte ev' hst,
      hcond, hidx]
    split_ifs
    · exact shifted_receiveBadBreak (timerEnd s) b l e m hm
    · exact shifted_storeByte (timerEnd s) b l e m byte ev ev' cb hl hev hm
  | kBreak =>
    have cb : Cong d s.breakStartTime b := hb (Or.inl (by rw [hst]; simp))
    have hno : (breakEntry s).seenMABStart = true → Cong d (breakEntry s).mabStartTime m :=
      fun g => absurd g (by simp [breakEntry])
    have hle : 0 < s.activeBufIndex →
        sub32 e b = sub32 s.lastSlotEndTime s.breakStartTime :=
      fun hi => cong_sub32 (he (Or.inr hi)) cb
    cases hseen : s.seenMABStart with
    | false =>
      have hcond : sub32 ev' (retime s b l e m).breakStartTime = sub32 ev s.breakStartTime :=
        cong_sub32 hev cb
      rw [receiveByte_kBreak_unseen s byte ev hst hseen,
        receiveByte_kBreak_unseen (retime s b l e m) byte ev' hst hseen, hcond]
      split_ifs
      · exact shifted_receiveBadBreak (breakEntry s) b l e m hno
      · exact shifted_first (setILT (breakEntry s)) b l e m byte ev ev' 0 0 cb hl
          (fun hi => he (Or.inr hi)) hev rfl
    | true =>
      have cm : Cong d s.mabStartTime m := hm hseen
      have h1 : sub32 (retime s b l e m).mabStartTime (retime s b l e m).breakStartTime =
          sub32 s.mabStartTime s.breakStartTime := cong_sub32 cm cb
      have h2 : sub32 ev' (retime s b l e m).mabStartTime = sub32 ev s.mabStartTime :=
        cong_sub32 hev cm
      have h3 : sub32 (sub32 ev' kCharTime) (retime s b l e m).mabStartTime =
          sub32 (sub32 ev kCharTime) s.mabStartTime :=
        cong_sub32 (cong_sub32_const hev kCharTime) cm
      rw [receiveByte_kBreak_seen s byte ev hst hseen,
        receiveByte_kBreak_seen (retime s b l e m) byte ev' hst hseen, h1, h2, h3]
      split_ifs
      · exact shifted_receiveBadBreak (breakEntry s) b l e m hno
      · exact shifted_lost (breakEntry s) b l e m hle hno
      · exact shifted_first (breakEntry s) b l e m byte ev ev' _ _ cb hl
          (fun hi => he (Or.inr hi)) hev rfl

theorem shifted_receiveIdle {d : Int} {s t : Receiver} (h : Shifted d s t) (ev : Int) :
    Shifted d (receiveIdle s ev) (receiveIdle t (u32 (ev + d))) := by
  obtain ⟨b, l, e, m, rfl, hb, hl, he, hm⟩ := shifted_elim h
  have hev : Cong d ev (u32 (ev + d)) := cong_u32 d ev
  generalize u32 (ev + d) = ev' at hev ⊢
  cases hst : s.state with
  | kIdle =>
    rw [receiveIdle_idle s ev hst, receiveIdle_idle (retime s b l e m) ev' hst]
    exact ⟨rfl, hb, hl, he, hm⟩
  | kData =>
    have cb : Cong d s.breakStartTime b := hb (Or.inl (by rw [hst]; simp))
    have ce : Cong d s.lastSlotEndTime e := he (Or.inl hst)
    have h1 : sub32 ev' (retime s b l e m).breakStartTime = sub32 ev s.breakStartTime :=
      cong_sub32 hev cb
    have h2 : sub32 ev' (retime s b l e m).lastSlotEndTime = sub32 ev s.lastSlotEndTime :=
      cong_sub32 hev ce
    rw [receiveIdle_data s ev hst, receiveIdle_data (retime s b l e m) ev' hst, h1, h2]
    split_ifs
    · exact shifted_lost s b l e m (fun _ => cong_sub32 ce cb) hm
    · exact ⟨rfl, hb, hl, he, hm⟩
  | kBreak =>
    have cb : Cong d s.breakStartTime b := hb (Or.inl (by rw [hst]; simp))
    have hno : ({ s with seenMABStart := false } : Receiver).seenMABStart = true →
        Cong d ({ s with seenMABStart := false } : Receiver).mabStartTime m :=
      fun g => absurd g (by simp)
    cases hseen : s.seenMABStart with
    | false =>
      have h1 : sub32 ev' (retime s b l e m).breakStartTime = sub32 ev s.breakStartTime :=
        cong_sub32 hev cb
      rw [receiveIdle_kBreak_unseen s ev hst hseen,
        receiveIdle_kBreak_unseen (retime s b l e m) ev' hst hseen, h1]
      split_ifs
      · exact shifted_receiveBadBreak { s with seenMABStart := false } b l e m hno
      · exact ⟨rfl, hb, hl, he, fun _ => cong_sub32_const hev kCharTime⟩
    | true =>
      have cm : Cong d s.mabStartTime m := hm hseen
      have h1 : sub32 (retime s b l e m).mabStartTime (retime s b l e m).breakStartTime =
          sub32 s.mabStartTime s.breakStartTime := cong_sub32 cm cb
      rw [receiveIdle_kBreak_seen s ev hst hseen,
        receiveIdle_kBreak_seen (retime s b l e m) ev' hst hseen, h1]
      split_ifs
      · exact shifted_receiveBadBreak { s with seenMABStart := false } b l e m hno
      · exact ⟨rfl, hb, hl, he, hm⟩

theorem shifted_timerFired {d : Int} {s t : Receiver} (h : Shifted d s t) :
    Shifted d (timerFired s) (timerFired t) := by
  obtain ⟨b, l, e, m, rfl, hb, hl, he, hm⟩ := shifted_elim h
  unfold timerFired
  have e1 : (retime s b l e m).timerRunning = s.timerRunning := rfl
  rw [e1]
  split_ifs
  · exact shifted_lost (timerEnd s) b l e m
      (fun hi => cong_sub32 (he (Or.inr hi)) (hb (Or.inr hi))) hm
  · exact ⟨rfl, hb, hl, he, hm⟩

theorem shifted_receivePotentialBreak {d : Int} {s t : Receiver} (h : Shifted d s t)
    (ev : Int) :
    Shifted d (receivePotentialBreak s ev) (receivePotentialBreak t (u32 (ev + d))) := by
  obtain ⟨b, l, e, m, rfl, hb, hl, he, hm⟩ := shifted_elim h
  have hev : Cong d ev (u32 (ev + d)) := cong_u32 d ev
  generalize u32 (ev + d) = ev' at hev ⊢
  have hc := cong_sub32_const hev kCharTime
  unfold receivePotentialBreak
  simp only []
  have e1 : (timerEnd (retime s b l e m)).rxWatchPin = (timerEnd s).rxWatchPin := rfl
  rw [e1]
  split_ifs
  · refine ⟨rfl, fun _ => hc, hl, fun g => ?_, fun g => absurd g (by simp)⟩
    rcases g with g | g
    · exact absurd g (by simp)
    · exact he (Or.inr g)
  · refine ⟨rfl, fun _ => hc, hl, fun g => ?_, hm⟩
    rcases g with g | g
    · exact absurd g (by simp)
    · exact he (Or.inr g)

theorem shifted_rxPinRose_isr {d : Int} {s t : Receiver} (h : Shifted d s t) (ev : Int) :
    Shifted d (rxPinRose_isr s ev) (rxPinRose_isr t (u32 (ev + d))) := by
  obtain ⟨b, l, e, m, rfl, hb, hl, he, hm⟩ := shifted_elim h
  have hev : Cong d ev (u32 (ev + d)) := cong_u32 d ev
  generalize u32 (ev + d) = ev' at hev ⊢
  unfold rxPinRose_isr
  simp only []
  cases hseen : s.seenMABStart with
  | false =>
    have hs' : (retime s b l e m).seenMABStart = false := hseen
    simp only [hs', Bool.not_false, if_true]
    exact ⟨rfl, hb, hl, he, fun _ => hev⟩
  | true =>
    have hs' : (retime s b l e m).seenMABStart = true := hseen
    simp only [hs', Bool.not_true, Bool.false_eq_true, if_false]
    exact ⟨rfl, hb, hl, he, fun g => absurd g (by simp [setILT])⟩

/-- The end of `begin` and of `end`: the receiver is idle with nothing buffered and
is set to "not connected". -/
theorem shifted_restart {d : Int} (y : Receiver) (b l e m : Int)
    (hst : y.state = RecvStates.kIdle) (hidx : y.activeBufIndex = 0)
    (hm : y.seenMABStart = true → Cong d y.mabStartTime m) :
    Shifted d (clearILT (setConnected y false))
      (clearILT (setConnected (retime y b l e m) false)) := by
  rw [retime_setConnected]
  have q1 : (clearILT (setConnected y false)).state = RecvStates.kIdle := by
    show (setConnected y false).state = _
    rw [(setConnected_keeps _ _).2.1, hst]
  have q2 : (clearILT (setConnected y false)).activeBufIndex = 0 := by
    show (setConnected y false).activeBufIndex = _
    rw [(setConnected_frame _ _).1, hidx]
  have q3 : (clearILT (setConnected y false)).connected = false := setConnected_connected y false
  have q4 : (clearILT (setConnected y false)).seenMABStart = y.seenMABStart :=
    (setConnected_keeps y false).1
  have q5 : (clearILT (setConnected y false)).mabStartTime = y.mabStartTime :=
    (setConnected_times y false).2.2.2
  refine ⟨rfl, fun g => ?_, fun g => ?_, fun g => ?_, fun g => ?_⟩
  · rcases g with g | g
    · exact absurd q1 g
    · rw [q2] at g
      exact absurd g (lt_irrefl 0)
  · rw [q3] at g
    exact absurd g (by simp)
  · rcases g with g | g
    · rw [q1] at g
      exact absurd g (by simp)
    · rw [q2] at g
      exact absurd g (lt_irrefl 0)
  · rw [q4] at g
    rw [q5]
    exact hm g

theorem shifted_disconnect {d : Int} (y : Receiver) (b l e m : Int)
    (hb : (y.state ≠ RecvStates.kIdle ∨ 0 < y.activeBufIndex) → Cong d y.breakStartTime b)
    (he : (y.state = RecvStates.kData ∨ 0 < y.activeBufIndex) → Cong d y.lastSlotEndTime e)
    (hm : y.seenMABStart = true → Cong d y.mabStartTime m) :
    Shifted d (setConnected y false) (setConnected (retime y b l e m) false) := by
  rw [retime_setConnected]
  have q := setConnected_keeps y false
  have qt := setConnected_times y false
  have qf := setConnected_frame y false
  refine shifted_of_retime _ b l e m (fun g => ?_) (fun g => ?_) (fun g => ?_) (fun g => ?_)
  · rw [q.2.1, qf.1] at g
    rw [qt.1]
    exact hb g
  · rw [setConnected_connected] at g
    exact absurd g (by simp)
  · rw [q.2.1, qf.1] at g
    rw [qt.2.2.1]
    exact he g
  · rw [q.1] at g
    rw [qt.2.2.2]
    exact hm g

theorem shifted_begin {d : Int} {s t : Receiver} (h : Shifted d s t) :
    Shifted d (begin s) (begin t) := by
  obtain ⟨b, l, e, m, rfl, hb, hl, he, hm⟩ := shifted_elim h
  unfold begin
  cases hbg : s.began with
  | true =>
    have hbg' : (retime s b l e m).began = true := hbg
    simp only [hbg', if_true]
    exact ⟨rfl, hb, hl, he, hm⟩
  | false =>
    have hbg' : (retime s b l e m).began = false := hbg
    have hsi : (retime s b l e m).serialIndex = s.serialIndex := rfl
    simp only [hbg', Bool.false_eq_true, if_false, hsi]
    split_ifs
    · exact ⟨rfl, hb, hl, he, hm⟩
    · exact shifted_restart _ b 0 e m rfl rfl hm

theorem shifted_end_ {d : Int} {s t : Receiver} (h : Shifted d s t) :
    Shifted d (end_ s) (end_ t) := by
  obtain ⟨b, l, e, m, rfl, hb, hl, he, hm⟩ := shifted_elim h
  unfold end_
  cases hbg : s.began with
  | false =>
    have hbg' : (retime s b l e m).began = false := hbg
    simp only [hbg', Bool.not_false, if_true]
    exact ⟨rfl, hb, hl, he, hm⟩
  | true =>
    have hbg' : (retime s b l e m).began = true := hbg
    have hsi : (retime s b l e m).serialIndex = s.serialIndex := rfl
    simp only [hbg', Bool.not_true, Bool.false_eq_true, if_false, hsi]
    split_ifs
    · exact ⟨rfl, hb, hl, he, hm⟩
    · exact shifted_disconnect { s with began := false } b l e m hb he hm

theorem shifted_readPacket {d : Int} {s t : Receiver} (h : Shifted d s t) (buf : Int → Nat)
    (startChannel len : Int) (stats : Option PacketStats) :
    Shifted d (readPacket s buf startChannel len stats).recv
      (readPacket t buf startChannel len stats).recv := by
  obtain ⟨b, l, e, m, rfl, hb, hl, he, hm⟩ := shifted_elim h
  unfold readPacket
  have e1 : (retime s b l e m).packetSize = s.packetSize := rfl
  simp only [e1]
  split_ifs <;> exact ⟨rfl, hb, hl, he, hm⟩

theorem shifted_setResponder {d : Int} {s t : Receiver} (h : Shifted d s t) (startCode : Nat)
    (r : Option Responder) (tableAlloc outBufAlloc : Bool) :
    Shifted d (setResponder s startCode r tableAlloc outBufAlloc).2
      (setResponder t startCode r tableAlloc outBufAlloc).2 := by
  obtain ⟨b, l, e, m, rfl, hb, hl, he, hm⟩ := shifted_elim h
  unfold setResponder
  have e1 : (retime s b l e m).responders = s.responders := rfl
  have e2 : (retime s b l e m).responderCount = s.responderCount := rfl
  have e3 : (retime s b l e m).responderOutBuf = s.responderOutBuf := rfl
  have e4 : (retime s b l e m).responderOutBufLen = s.responderOutBufLen := rfl
  cases r with
  | none =>
    simp only [e1, e2]
    cases hr : s.responders with
    | none => exact ⟨rfl, hb, hl, he, hm⟩
    | some tbl =>
      simp only []
      cases ho : (tbl startCode).isSome with
      | false =>
        simp only [Bool.false_eq_true, if_false, e2]
        split_ifs <;> exact ⟨rfl, hb, hl, he, hm⟩
      | true =>
        simp only [if_true]
        split_ifs <;> exact ⟨rfl, hb, hl, he, hm⟩
  | some resp =>
    simp only [e1, e3, e4]
    cases hr : s.responders with
    | none =>
      cases tableAlloc
      · exact ⟨rfl, hb, hl, he, hm⟩
      · simp only [if_true]
        split_ifs <;> exact ⟨rfl, hb, hl, he, hm⟩
    | some tbl =>
      simp only []
      split_ifs <;> exact ⟨rfl, hb, hl, he, hm⟩

theorem shifted_setRXWatchPin {d : Int} {s t : Receiver} (h : Shifted d s t) (pin : Int) :
    Shifted d (setRXWatchPin s pin) (setRXWatchPin t pin) := by
  obtain ⟨b, l, e, m, rfl, hb, hl, he, hm⟩ := shifted_elim h
  unfold setRXWatchPin
  have e1 : (retime s b l e m).rxWatchPin = s.rxWatchPin := rfl
  simp only [e1]
  split_ifs <;>
    first
    | exact ⟨rfl, hb, hl, he, hm⟩
    | exact ⟨rfl, hb, hl, he, fun g => absurd g (by simp)⟩

theorem shifted_step {d : Int} {s t : Receiver} (h : Shifted d s t) (op : Op) :
    Shifted d (step s op) (step t (shiftOp d op)) := by
  cases op with
  | begin => exact shifted_begin h
  | end_ => exact shifted_end_ h
  | receiveByte b eopTime => exact shifted_receiveByte h b eopTime
  | receivePotentialBreak eventTime => exact shifted_receivePotentialBreak h eventTime
  | receiveIdle eventTime => exact shifted_receiveIdle h eventTime
  | timerFired => exact shifted_timerFired h
  | rxPinRose micros => exact shifted_rxPinRose_isr h micros
  | readPacket buf startChannel len stats => exact shifted_readPacket h buf startChannel len stats
  | setResponder startCode r tableAlloc outBufAlloc =>
    exact shifted_setResponder h startCode r tableAlloc outBufAlloc
  | setRXWatchPin pin => exact shifted_setRXWatchPin h pin
  | setKeepShortPackets flag =>
    obtain ⟨b, l, e, m, rfl, hb, hl, he, hm⟩ := shifted_elim h
    exact ⟨rfl, hb, hl, he, hm⟩
  | setConnectChangeCallback installed =>
    obtain ⟨b, l, e, m, rfl, hb, hl, he, hm⟩ := shifted_elim h
    exact ⟨rfl, hb, hl, he, hm⟩
  | millis ms =>
    obtain ⟨b, l, e, m, rfl, hb, hl, he, hm⟩ := shifted_elim h
    exact ⟨rfl, hb, hl, he, hm⟩

theorem shifted_run {d : Int} (ops : List Op) :
    ∀ s t : Receiver, Shifted d s t → Shifted d (run s ops) (run t (ops.map (shiftOp d))) := by
  induction ops with
  | nil => intro s t h; exact h
  | cons op ops ih =>
    intro s t h
    rw [List.map_cons, run_cons, run_cons]
    exact ih _ _ (shifted_step h op)

theorem shifted_new (d serialIndex : Int) : Shifted d (new serialIndex) (new serialIndex) :=
  ⟨rfl, fun g => by
      rcases g with g | g
      · exact absurd rfl g
      · exact absurd g (lt_irrefl 0),
    fun g => absurd g (by simp [new]),
    fun g => by
      rcases g with g | g
      · exact absurd g (by simp [new])
      · exact absurd g (lt_irrefl 0),
    fun g => absurd g (by simp [new])⟩

/-- What two receivers that differ by a shift of the event times have in common. -/
theorem shifted_obs {d : Int} {s t : Receiver} (h : Shifted d s t) :
    retime t s.breakStartTime s.lastBreakStartTime s.lastSlotEndTime s.mabStartTime = s ∧
    t.state = s.state ∧ t.connected = s.connected ∧ t.activeBufIndex = s.activeBufIndex ∧
    t.activeData = s.activeData ∧ view t = view s ∧ sview t = sview s ∧
    t.receivePacketCalls = s.receivePacketCalls := by
  obtain ⟨b, l, e, m, rfl, -, -, -, -⟩ := shifted_elim h
  exact ⟨rfl, rfl, rfl, rfl, rfl, rfl, rfl, rfl⟩

end Receiver

namespace Receiver

/-! ### Upper bounds for the increments of the counters -/

theorem grow_of_eq {s r : Receiver} (e1 : r.errorStats = s.errorStats)
    (e2 : r.packetCount = s.packetCount) : Grow 0 0 0 0 s r :=
  ⟨by rw [e1]; exact le_refl _, by rw [e1]; exact le_refl _, by rw [e1]; exact le_refl _,
    by rw [e2]; exact le_refl _⟩

theorem grow_of_tally {s r : Receiver} (e : tally r = tally s) : Grow 0 0 0 0 s r := by
  simp only [tally, Prod.mk.injEq] at e
  exact grow_of_eq e.1 e.2.1

theorem grow_then {f1 p1 t1 c1 f2 p2 t2 c2 : Nat} {a s r : Receiver}
    (h1 : Grow f1 p1 t1 c1 a s) (h2 : Grow f2 p2 t2 c2 s r) (f p t c : Nat)
    (hf : f1 + f2 ≤ f) (hp : p1 + p2 ≤ p) (ht : t1 + t2 ≤ t) (hc : c1 + c2 ≤ c) :
    Grow f p t c a r := by
  obtain ⟨a1, a2, a3, a4⟩ := h1
  obtain ⟨b1, b2, b3, b4⟩ := h2
  exact ⟨by omega, by omega, by omega, by omega⟩

theorem grow_after {f p t c : Nat} {a s r : Receiver} (h1 : Grow 0 0 0 0 a s)
    (h2 : Grow f p t c s r) : Grow f p t c a r :=
  grow_then h1 h2 f p t c (by omega) (by omega) (by omega) (by omega)

theorem grow_before {f p t c : Nat} {a s r : Receiver} (h1 : Grow f p t c a s)
    (h2 : Grow 0 1 1 1 s r) : Grow f (p + 1) (t + 1) (c + 1) a r :=
  grow_then h1 h2 f (p + 1) (t + 1) (c + 1) (le_refl _) (le_refl _) (le_refl _) (le_refl _)

theorem grow_same {f p t c : Nat} {a s r : Receiver} (h : Grow f p t c a s)
    (e1 : r.errorStats = s.errorStats) (e2 : r.packetCount = s.packetCount) :
    Grow f p t c a r :=
  ⟨by rw [e1]; exact h.framing, by rw [e1]; exact h.short, by rw [e1]; exact h.timeout,
    by rw [e2]; exact h.packets⟩

theorem grow_setConnected (s : Receiver) (flag : Bool) : Grow 0 0 0 0 s (setConnected s flag) := by
  unfold setConnected
  split_ifs <;> exact grow_of_eq rfl rfl

theorem grow_checkShort (s : Receiver) : Grow 0 1 0 0 s (checkShort s) := by
  unfold checkShort
  simp only []
  split_ifs
  · exact ⟨le_refl _, le_refl _, le_refl _, le_refl _⟩
  · exact ⟨le_refl _, le_refl _, le_refl _, le_refl _⟩
  · exact ⟨le_refl _, Nat.le_succ _, le_refl _, le_refl _⟩

theorem grow_swapBuffers (s : Receiver) : Grow 0 0 0 0 s (swapBuffers s) := by
  unfold swapBuffers
  split_ifs <;> exact grow_of_eq rfl rfl

theorem grow_publishStats (s : Receiver) : Grow 0 0 0 1 s (publishStats s) :=
  ⟨le_refl _, le_refl _, le_refl _, le_refl _⟩

theorem grow_dispatchPacket (s : Receiver) : Grow 0 0 0 0 s (dispatchPacket s) := by
  unfold dispatchPacket
  split
  · exact grow_of_eq rfl rfl
  · simp only []
    split <;> exact grow_of_eq rfl rfl

theorem grow_completePacket (s : Receiver) : Grow 0 1 0 1 s (completePacket s) := by
  unfold completePacket
  simp only []
  split_ifs
  · exact ⟨le_refl _, Nat.le_succ _, le_refl _, Nat.le_succ _⟩
  · have h0 : Grow 0 0 0 0 s (clearILT { s with state := RecvStates.kIdle }) := grow_of_eq rfl rfl
    have h1 := grow_then h0 (grow_checkShort _) 0 1 0 0 (by decide) (by decide) (by decide)
      (by decide)
    have h2 := grow_then h1 (grow_swapBuffers _) 0 1 0 0 (by decide) (by decide) (by decide)
      (by decide)
    have h3 := grow_then h2 (grow_publishStats _) 0 1 0 1 (by decide) (by decide) (by decide)
      (by decide)
    have h4 := grow_then h3 (grow_dispatchPacket _) 0 1 0 1 (by decide) (by decide) (by decide)
      (by decide)
    exact grow_same h4 rfl rfl

theorem grow_completePacket_empty (s : Receiver) (h : s.activeBufIndex ≤ 0) :
    Grow 0 0 0 0 s (completePacket s) := by
  unfold completePacket
  simp only []
  rw [if_pos (show (clearILT { s with state := RecvStates.kIdle }).activeBufIndex ≤ 0 from h)]
  exact grow_of_eq rfl rfl

theorem grow_lost_of {f p t c : Nat} {a s : Receiver} (h : Grow f p t c a s) (p2 c2 : Nat)
    (hp : p + 1 ≤ p2) (hc : c + 1 ≤ c2) :
    Grow f p2 t c2 a (setConnected (completePacket s) false) :=
  grow_then (grow_then h (grow_completePacket s) f p2 t c2 (le_refl _) hp (le_refl _) hc)
    (grow_setConnected _ false) f p2 t c2 (le_refl _) (le_refl _) (le_refl _) (le_refl _)

theorem grow_receiveBadBreak_of {a s : Receiver} (h : Grow 0 0 0 0 a s) :
    Grow 1 0 0 0 a (receiveBadBreak s) := by
  unfold receiveBadBreak
  simp only []
  have h1 : Grow 1 0 0 0 a { { s with
      errorStats := { s.errorStats with
        framingErrorCount := s.errorStats.framingErrorCount + 1 } } with activeBufIndex := 0 } :=
    ⟨Nat.succ_le_succ h.framing, h.short, h.timeout, h.packets⟩
  have h2 := grow_then h1 (grow_completePacket_empty _ (le_refl (0 : Int))) 1 0 0 0
    (by decide) (by decide) (by decide) (by decide)
  exact grow_then h2 (grow_setConnected _ false) 1 0 0 0 (by decide) (by decide) (by decide)
    (by decide)

theorem grow_timerFired (s : Receiver) : Grow 0 1 0 1 s (timerFired s) := by
  unfold timerFired
  split_ifs
  · have h0 : Grow 0 0 0 0 s (timerEnd s) := grow_of_tally rfl
    exact grow_lost_of h0 1 1 (by decide) (by decide)
  · exact ⟨Nat.le_add_right _ _, Nat.le_add_right _ _, Nat.le_add_right _ _, Nat.le_add_right _ _⟩

theorem grow_wider {f p t c : Nat} {s r : Receiver} (h : Grow f p t c s r) (f2 p2 t2 c2 : Nat)
    (hf : f ≤ f2) (hp : p ≤ p2) (ht : t ≤ t2) (hc : c ≤ c2) : Grow f2 p2 t2 c2 s r := by
  obtain ⟨a1, a2, a3, a4⟩ := h
  exact ⟨by omega, by omega, by omega, by omega⟩

theorem grow_receiveIdle (s : Receiver) (eventTime : Int) :
    Grow 1 1 0 1 s (receiveIdle s eventTime) := by
  have hw : ∀ r : Receiver, Grow 0 0 0 0 s r → Grow 1 1 0 1 s r := fun r h =>
    grow_wider h 1 1 0 1 (by decide) (by decide) (by decide) (by decide)
  have hb : ∀ r : Receiver, Grow 0 0 0 0 s r → Grow 1 1 0 1 s (receiveBadBreak r) := fun r h =>
    grow_wider (grow_receiveBadBreak_of h) 1 1 0 1 (by decide) (by decide) (by decide) (by decide)
  unfold receiveIdle
  split
  · split_ifs
    · exact hb _ (grow_of_tally rfl)
    · exact hw _ (grow_of_tally rfl)
    · exact hb _ (grow_of_tally rfl)
    · exact hw _ (grow_of_tally rfl)
  · split_ifs
    · exact grow_wider (grow_lost_of (grow_of_tally rfl) 1 1 (by decide) (by decide)) 1 1 0 1
        (by decide) (by decide) (by decide) (by decide)
    · exact hw _ (grow_of_tally rfl)
  · exact hw _ (grow_of_tally rfl)

theorem grow_receivePotentialBreak (s : Receiver) (eventTime : Int) :
    Grow 0 0 0 0 s (receivePotentialBreak s eventTime) := by
  unfold receivePotentialBreak
  simp only []
  split_ifs <;> exact grow_of_tally rfl

theorem grow_rxPinRose_isr (s : Receiver) (micros : Int) :
    Grow 0 0 0 0 s (rxPinRose_isr s micros) := by
  unfold rxPinRose_isr
  simp only []
  split_ifs <;> exact grow_of_tally rfl

theorem grow_setRXWatchPin (s : Receiver) (pin : Int) : Grow 0 0 0 0 s (setRXWatchPin s pin) := by
  unfold setRXWatchPin
  split_ifs <;> exact grow_of_tally rfl

theorem grow_acceptTail {f p t c : Nat} {a s1 : Receiver} (h : Grow f p t c a s1)
    (ps : PacketStats) (l : Int) :
    Grow f p t c a { setConnected { s1 with packetStats := ps, lastBreakStartTime := l } true with
      state := RecvStates.kData } := by
  have h1 : Grow f p t c a { s1 with packetStats := ps, lastBreakStartTime := l } :=
    grow_same h rfl rfl
  have h2 := grow_then h1 (grow_setConnected _ true) f p t c (le_refl _) (le_refl _) (le_refl _)
    (le_refl _)
  exact grow_same h2 rfl rfl

theorem grow_acceptBreak_of {a s : Receiver} (h : Grow 0 0 0 0 a s)
    (eopTime breakTime mabTime : Int) :
    Grow 0 1 1 1 a (acceptBreak s eopTime breakTime mabTime) := by
  unfold acceptBreak
  refine grow_acceptTail (grow_after h ?_) _ _
  simp only []
  split_ifs
  · have h1 : Grow 0 1 0 0 s { { s with
        packetStats := { s.packetStats with
          breakToBreakTime := sub32 s.breakStartTime s.lastBreakStartTime } } with
        errorStats := { s.errorStats with
          shortPacketCount := s.errorStats.shortPacketCount + 1 }
        activeBufIndex := 0 } :=
      ⟨le_refl _, le_refl _, le_refl _, le_refl _⟩
    exact grow_then h1 (grow_completePacket_empty _ (le_refl (0 : Int))) 0 1 1 1
      (by decide) (by decide) (by decide) (by decide)
  · have h1 : Grow 0 0 1 0 s { { s with
        packetStats := { s.packetStats with
          breakToBreakTime := sub32 s.breakStartTime s.lastBreakStartTime } } with
        errorStats := { s.errorStats with
          packetTimeoutCount := s.errorStats.packetTimeoutCount + 1 } } :=
      ⟨le_refl _, le_refl _, le_refl _, le_refl _⟩
    exact grow_then h1 (grow_completePacket _) 0 1 1 1
      (by decide) (by decide) (by decide) (by decide)
  · have h1 : Grow 0 0 0 0 s { s with
        packetStats := { s.packetStats with
          breakToBreakTime := sub32 s.breakStartTime s.lastBreakStartTime } } :=
      grow_of_tally rfl
    exact grow_then h1 (grow_completePacket _) 0 1 1 1
      (by decide) (by decide) (by decide) (by decide)
  · exact ⟨Nat.le_add_right _ _, Nat.le_add_right _ _, Nat.le_add_right _ _,
      Nat.le_add_right _ _⟩

theorem grow_storeByte_of {f p t c : Nat} {a s : Receiver} (h : Grow f p t c a s)
    (b : Nat) (eopTime : Int) :
    Grow f (p + 1) (t + 1) (c + 1) a (storeByte s b eopTime) := by
  unfold storeByte
  simp only []
  refine grow_before h ?_
  split_ifs
  · have h1 : Grow 0 0 1 0 s { { s with lastSlotEndTime := eopTime } with
        errorStats := { s.errorStats with
          packetTimeoutCount := s.errorStats.packetTimeoutCount + 1 } } :=
      ⟨le_refl _, le_refl _, le_refl _, le_refl _⟩
    exact grow_lost_of h1 1 1 (by decide) (by decide)
  · have hp : Grow 0 0 0 0 s (putByte { s with lastSlotEndTime := eopTime } b) := by
      apply grow_of_tally
      unfold putByte writeActive
      split <;> rfl
    rcases processStored_cases (putByte { s with lastSlotEndTime := eopTime } b) with h | h
    · rw [h]
      exact grow_wider hp 0 1 1 1 (by decide) (by decide) (by decide) (by decide)
    · rw [h]
      exact grow_then hp (grow_completePacket _) 0 1 1 1 (by decide) (by decide) (by decide)
        (by decide)

theorem grow_receiveByte (s : Receiver) (b : Nat) (eopTime : Int) :
    Grow 1 2 2 2 s (receiveByte s b eopTime) := by
  have h0 : Grow 0 0 0 0 s (timerEnd s) := grow_of_tally rfl
  have hw : ∀ r : Receiver, Grow 1 0 0 0 s r → Grow 1 2 2 2 s r := fun r h =>
    grow_wider h 1 2 2 2 (by decide) (by decide) (by decide) (by decide)
  have hs : ∀ r : Receiver, Grow 0 1 1 1 s r → Grow 1 2 2 2 s r := fun r h =>
    grow_wider h 1 2 2 2 (by decide) (by decide) (by decide) (by decide)
  have hl : ∀ r : Receiver, Grow 0 0 0 0 s r →
      Grow 1 2 2 2 s (setConnected (completePacket r) false) := fun r h =>
    grow_wider (grow_lost_of h 1 1 (by decide) (by decide)) 1 2 2 2 (by decide) (by decide)
      (by decide) (by decide)
  have ha : ∀ (r : Receiver) (e bt mt : Int) (b2 : Nat) (e2 : Int), Grow 0 0 0 0 s r →
      Grow 1 2 2 2 s (storeByte (acceptBreak r e bt mt) b2 e2) := fun r e bt mt b2 e2 h =>
    grow_wider (grow_storeByte_of (grow_acceptBreak_of h e bt mt) b2 e2) 1 2 2 2 (by decide)
      (by decide) (by decide) (by decide)
  unfold receiveByte
  simp only []
  generalize timerEnd s = s0 at h0 ⊢
  have h1 : Grow 0 0 0 0 s { s0 with seenMABStart := false } := grow_same h0 rfl rfl
  have h2 : Grow 0 0 0 0 s (setILT { s0 with seenMABStart := false }) := grow_same h0 rfl rfl
  split
  · split_ifs
    · exact hw _ (grow_receiveBadBreak_of h1)
    · exact hl _ h1
    · exact ha _ _ _ _ _ _ h1
    · exact hw _ (grow_receiveBadBreak_of h1)
    · exact ha _ _ _ _ _ _ h2
  · split_ifs
    · exact hw _ (grow_receiveBadBreak_of h0)
    · exact hs _ (grow_storeByte_of h0 _ _)
  · exact grow_wider h0 1 2 2 2 (by decide) (by decide) (by decide) (by decide)

theorem grow_end_ (s : Receiver) : Grow 0 0 0 0 s (end_ s) := by
  unfold end_
  cases hb : s.began
  · simp only [Bool.not_false, if_true]
    exact grow_of_eq rfl rfl
  · simp only [Bool.not_true, Bool.false_eq_true, if_false]
    have h0 : Grow 0 0 0 0 s { s with began := false } := grow_of_tally rfl
    split_ifs
    · exact h0
    · exact grow_after h0 (grow_setConnected _ false)

theorem grow_readPacket (s : Receiver) (buf : Int → Nat) (startChannel len : Int)
    (stats : Option PacketStats) :
    Grow 0 0 0 0 s (readPacket s buf startChannel len stats).recv := by
  unfold readPacket
  simp only []
  split_ifs <;> exact grow_of_tally rfl

theorem grow_setResponder (s : Receiver) (startCode : Nat) (r : Option Responder)
    (tableAlloc outBufAlloc : Bool) :
    Grow 0 0 0 0 s (setResponder s startCode r tableAlloc outBufAlloc).2 := by
  apply grow_of_tally
  unfold setResponder
  cases r with
  | none =>
    simp only []
    split
    · rfl
    · simp only []
      split_ifs <;> rfl
  | some resp =>
    simp only []
    cases hr : s.responders with
    | none =>
      cases tableAlloc
      · rfl
      · simp only [if_true]
        split_ifs <;> rfl
    | some tbl =>
      simp only []
      split_ifs <;> rfl

/-- No operation other than `begin` increments a counter more than twice. -/
theorem grow_step (s : Receiver) (op : Op) (h1 : op ≠ Op.begin) :
    Grow 2 2 2 2 s (step s op) := by
  have hw : ∀ r : Receiver, Grow 0 0 0 0 s r → Grow 2 2 2 2 s r := fun r h =>
    grow_wider h 2 2 2 2 (by decide) (by decide) (by decide) (by decide)
  cases op with
  | begin => exact absurd rfl h1
  | end_ => exact hw _ (grow_end_ s)
  | receiveByte b eopTime =>
    exact grow_wider (grow_receiveByte s b eopTime) 2 2 2 2 (by decide) (by decide) (by decide)
      (by decide)
  | receivePotentialBreak eventTime => exact hw _ (grow_receivePotentialBreak s eventTime)
  | receiveIdle eventTime =>
    exact grow_wider (grow_receiveIdle s eventTime) 2 2 2 2 (by decide) (by decide) (by decide)
      (by decide)
  | timerFired =>
    exact grow_wider (grow_timerFired s) 2 2 2 2 (by decide) (by decide) (by decide) (by decide)
  | rxPinRose micros => exact hw _ (grow_rxPinRose_isr s micros)
  | readPacket buf startChannel len stats =>
    exact hw _ (grow_readPacket s buf startChannel len stats)
  | setResponder startCode r tableAlloc outBufAlloc =>
    exact hw _ (grow_setResponder s startCode r tableAlloc outBufAlloc)
  | setRXWatchPin pin => exact hw _ (grow_setRXWatchPin s pin)
  | setKeepShortPackets flag => exact hw _ (grow_of_tally rfl)
  | setConnectChangeCallback installed => exact hw _ (grow_of_eq rfl rfl)
  | millis ms => exact hw _ (grow_of_tally rfl)

theorem grow_run (ops : List Op) :
    ∀ s : Receiver, (∀ op ∈ ops, op ≠ Op.begin) →
      Grow (2 * ops.length) (2 * ops.length) (2 * ops.length) (2 * ops.length) s (run s ops) := by
  induction ops with
  | nil => intro s _; exact grow_of_eq rfl rfl
  | cons op ops ih =>
    intro s h
    rw [run_cons]
    have h1 := grow_step s op (h op (List.mem_cons_self _ _))
    have h2 := ih (step s op) fun o ho => h o (List.mem_cons_of_mem _ ho)
    have hl : (op :: ops).length = ops.length + 1 := List.length_cons op ops
    exact grow_then h1 h2 _ _ _ _ (by omega) (by omega) (by omega) (by omega)

/-- Between two states with no `begin` in between, each counter was incremented
between 0 and `2 * ops.length` times. -/
theorem count_run (s : Receiver) (ops : List Op) (h : ∀ op ∈ ops, op ≠ Op.begin)
    (c : Counter) :
    count s c ≤ count (run s ops) c ∧ count (run s ops) c ≤ count s c + 2 * ops.length := by
  have h1 := countersLe_run ops s h
  have h2 := grow_run ops s h
  cases c
  · exact ⟨h1.1, h2.framing⟩
  · exact ⟨h1.2.1, h2.short⟩
  · exact ⟨h1.2.2.1, h2.timeout⟩
  · exact ⟨h1.2.2.2, h2.packets⟩

theorem dispatchPacket_packetCount (s : Receiver) :
    (dispatchPacket s).packetCount = s.packetCount := by
  unfold dispatchPacket
  split
  · rfl
  · simp only []
    split <;> rfl

theorem checkShort_packetCount (s : Receiver) : (checkShort s).packetCount = s.packetCount := by
  unfold checkShort
  simp only []
  split_ifs <;> rfl

theorem swapBuffers_packetCount (s : Receiver) : (swapBuffers s).packetCount = s.packetCount := by
  unfold swapBuffers
  split_ifs <;> rfl

/-- A non-empty packet: `completePacket` reaches `incPacketCount()`. -/
theorem completePacket_packetCount (s : Receiver) (h : 0 < s.activeBufIndex) :
    (completePacket s).packetCount = s.packetCount + 1 := by
  have h1 : ¬ (clearILT { s with state := RecvStates.kIdle }).activeBufIndex ≤ 0 :=
    fun h2 => absurd h (not_lt.mpr h2)
  unfold completePacket
  simp only []
  rw [if_neg h1]
  show (dispatchPacket _).packetCount = _
  rw [dispatchPacket_packetCount]
  show (swapBuffers _).packetCount + 1 = _
  rw [swapBuffers_packetCount, checkShort_packetCount]
  rfl

end Receiver

/-! ## Claims -/

/-- C1 (amended): RX round trip for packets of 25 to 513 slots. A freshly begun
receiver gets a framing error for a BREAK that starts at `t`, then the bytes back
to back after BREAK = 100 us and MAB = 12 us. When the packet is ended by an idle
timeout, or by the next BREAK (starting `g >= 1` microseconds after the last stop
bit, within the 32-bit range of the timestamps) and a first byte after a valid
BREAK plus MAB time `bm >= 96`, exactly one packet is published: the packet
count goes up by one and `readPacket(buf, 0, 513)` returns the number of bytes
sent and copies exactly those bytes. -/
theorem rx_round_trip (t : Int) (bytes : List Nat) (buf : Int → Nat)
    (stats : Option PacketStats) (ht : 0 ≤ t ∧ t < 4294967296)
    (hlen : 25 ≤ bytes.length ∧ bytes.length ≤ 513) :
    (∀ te : Int,
      (Receiver.endByIdle (Receiver.wirePacket Receiver.fresh t 100 12 bytes) te).packetCount =
        Receiver.fresh.packetCount + 1 ∧
      (Receiver.readPacket (Receiver.endByIdle (Receiver.wirePacket Receiver.fresh t 100 12 bytes) te)
        buf 0 513 stats).retval = bytes.length ∧
      ∀ (i : Nat) (h : i < bytes.length),
        (Receiver.readPacket (Receiver.endByIdle (Receiver.wirePacket Receiver.fresh t 100 12 bytes) te)
          buf 0 513 stats).buf i = bytes[i]) ∧
    (∀ (g bm : Int) (b : Nat), 1 ≤ g → 112 + 44 * (bytes.length : Int) + g < 4294967296 →
      96 ≤ bm → bm + 44 < 4294967296 →
      (Receiver.endByBreak (Receiver.wirePacket Receiver.fresh t 100 12 bytes)
        (t + 112 + 44 * bytes.length + g) b (t + 112 + 44 * bytes.length + g + bm + 44)).packetCount =
        Receiver.fresh.packetCount + 1 ∧
      (Receiver.readPacket (Receiver.endByBreak (Receiver.wirePacket Receiver.fresh t 100 12 bytes)
        (t + 112 + 44 * bytes.length + g) b (t + 112 + 44 * bytes.length + g + bm + 44))
        buf 0 513 stats).retval = bytes.length ∧
      ∀ (i : Nat) (h : i < bytes.length),
        (Receiver.readPacket (Receiver.endByBreak (Receiver.wirePacket Receiver.fresh t 100 12 bytes)
          (t + 112 + 44 * bytes.length + g) b (t + 112 + 44 * bytes.length + g + bm + 44))
          buf 0 513 stats).buf i = bytes[i]) := by
  have hoff : (96 : Int) ≤ 100 + 12 ∧ (100 : Int) + 12 ≤ 900000 := by omega
  have hr := Receiver.received_wire t 100 12 bytes ht hoff (by omega) hlen.2
  have h112 : (100 : Int) + 12 = 112 := by norm_num
  rw [h112] at hr hoff
  have hpos : 0 < bytes.length ∧ bytes.length ≤ 513 := ⟨by omega, hlen.2⟩
  generalize Receiver.wirePacket Receiver.fresh t 100 12 bytes = s at hr ⊢
  have hidle : ∀ te : Int, Receiver.Published (Receiver.endByIdle s te) bytes := by
    intro te
    rcases hr with ⟨_, hf⟩ | ⟨_, hc⟩
    · exact Receiver.published_of_view _ _ _
        (Receiver.view_endByIdle_filling s t 112 bytes te hoff hf hlen.1 hlen.2) hf.data
    · exact Receiver.published_of_view_eq _ _ _
        (Receiver.view_endByIdle_completed s bytes te hc) hc.toPublished
  have hbreak : ∀ (g bm : Int) (b : Nat), 1 ≤ g → 112 + 44 * (bytes.length : Int) + g < 4294967296 →
      96 ≤ bm → bm + 44 < 4294967296 →
      Receiver.Published (Receiver.endByBreak s (t + 112 + 44 * bytes.length + g) b
        (t + 112 + 44 * bytes.length + g + bm + 44)) bytes := by
    intro g bm b hg1 hg2 hb1 hb2
    rcases hr with ⟨_, hf⟩ | ⟨_, hc⟩
    · exact Receiver.published_of_view _ _ _
        (Receiver.view_endByBreak_filling s t 112 bytes g bm b hoff hf hlen.1 hlen.2 ⟨hg1, hg2⟩
          ⟨hb1, hb2⟩)
        hf.data
    · exact Receiver.published_of_view_eq _ _ _
        (Receiver.view_endByBreak_empty s _ b _ hc.idx hc.resp hc.distinct hc.pin hc.seen)
        hc.toPublished
  refine ⟨fun te => ?_, fun g bm b hg1 hg2 hb1 hb2 => ?_⟩
  · have hp := hidle te
    exact ⟨hp.count, Receiver.readPacket_published _ bytes buf stats hp hpos⟩
  · have hp := hbreak g bm b hg1 hg2 hb1 hb2
    exact ⟨hp.count, Receiver.readPacket_published _ bytes buf stats hp hpos⟩

/-- Witness of `rx_round_trip`: the 25-slot ascending packet whose BREAK starts at
time 0, ended by the idle event at 1300 us. -/
theorem rx_round_trip_witness :
    ((0 : Int) ≤ 0 ∧ (0 : Int) < 4294967296) ∧
    (25 ≤ (List.range 25).length ∧ (List.range 25).length ≤ 513) ∧
    (Receiver.readPacket
      (Receiver.endByIdle (Receiver.wirePacket Receiver.fresh 0 100 12 (List.range 25)) 1300)
      (fun _ => 0) 0 513 none).retval = ((List.range 25).length : Int) :=
  ⟨by decide, by decide,
    ((rx_round_trip 0 (List.range 25) (fun _ => 0) none (by decide) (by decide)).1 1300).2.1⟩

/-- C1 (counterexample): the one-slot packet `[0x00]` of the specification, sent
after BREAK = 100 us and MAB = 12 us and ended by an idle timeout, is discarded
as a short packet: `readPacket(buf, 0, 513)` returns -1, not 1. -/
theorem rx_round_trip_one_slot_lost :
    (1 ≤ [0].length ∧ [0].length ≤ 513) ∧
    (Receiver.readPacket
      (Receiver.endByIdle (Receiver.wirePacket Receiver.fresh 0 100 12 [0]) 200)
      (fun _ => 0) 0 513 none).retval = -1 ∧
    (Receiver.readPacket
      (Receiver.endByIdle (Receiver.wirePacket Receiver.fresh 0 100 12 [0]) 200)
      (fun _ => 0) 0 513 none).retval ≠ (([0] : List Nat).length : Int) := by
  decide

/-- The contract of `readPacket` for every call in which `startChannel + len`
stays inside the range of a 32-bit `int`. -/
theorem readPacket_contract (s : Receiver) (buf : Int → Nat) (startChannel len : Int)
    (stats : Option PacketStats) :
    (len ≤ 0 ∨ startChannel < 0 ∨ 513 ≤ startChannel →
      (Receiver.readPacket s buf startChannel len stats).retval = 0) ∧
    (0 < len → 0 ≤ startChannel → startChannel < 513 → s.packetSize ≤ 0 →
      (Receiver.readPacket s buf startChannel len stats).retval = -1 ∧
      (Receiver.readPacket s buf startChannel len stats).buf = buf) ∧
    (0 < len → 0 ≤ startChannel → startChannel < 513 → 0 < s.packetSize →
      s.packetSize ≤ startChannel →
      (Receiver.readPacket s buf startChannel len stats).retval = 0) ∧
    (0 < len → 0 ≤ startChannel → startChannel < s.packetSize → s.packetSize ≤ 513 →
      startChannel + len < 2147483648 →
      (Receiver.readPacket s buf startChannel len stats).retval =
        min len (s.packetSize - startChannel) ∧
      ∀ i : Int, 0 ≤ i → i < min len (s.packetSize - startChannel) →
        (Receiver.readPacket s buf startChannel len stats).buf i =
          s.inactiveData (startChannel + i)) := by
  refine ⟨fun h => ?_, fun h1 h2 h3 h4 => ?_, fun h1 h2 h3 h4 h5 => ?_,
    fun h1 h2 h3 h4 h5 => ?_⟩
  · simp [Receiver.readPacket, kMaxDMXPacketSize, h]
  · have h0 : ¬ (len ≤ 0 ∨ startChannel < 0 ∨ kMaxDMXPacketSize ≤ startChannel) := by
      simp only [kMaxDMXPacketSize]; omega
    have h5 : ¬ s.packetSize > 0 := by omega
    simp [Receiver.readPacket, h0, h5]
  · have h0 : ¬ (len ≤ 0 ∨ startChannel < 0 ∨ kMaxDMXPacketSize ≤ startChannel) := by
      simp only [kMaxDMXPacketSize]; omega
    have h6 : s.packetSize > 0 := h4
    have h7 : startChannel ≥ s.packetSize := h5
    simp [Receiver.readPacket, h0, h6, h7]
  · have h0 : ¬ (len ≤ 0 ∨ startChannel < 0 ∨ kMaxDMXPacketSize ≤ startChannel) := by
      simp only [kMaxDMXPacketSize]; omega
    have h6 : s.packetSize > 0 := by omega
    have h7 : ¬ startChannel ≥ s.packetSize := by omega
    have hw : wrapInt32 (startChannel + len) = startChannel + len := by
      unfold wrapInt32; omega
    unfold Receiver.readPacket
    rw [if_neg h0, if_pos h6, if_neg h7, hw]
    simp only []
    by_cases hc : startChannel + len > s.packetSize
    · rw [if_pos hc]
      have hm : min len (s.packetSize - startChannel) = s.packetSize - startChannel := by omega
      rw [hm]
      refine ⟨rfl, fun i hi1 hi2 => ?_⟩
      simp only [Receiver.copy_n, if_pos (And.intro hi1 hi2)]
    · rw [if_neg hc]
      have hm : min len (s.packetSize - startChannel) = len := by omega
      rw [hm]
      refine ⟨rfl, fun i hi1 hi2 => ?_⟩
      simp only [Receiver.copy_n, if_pos (And.intro hi1 hi2)]

/-- C2 (the code at the failing input): with the 25-slot packet published,
`readPacket(buf, 1, 2147483647)` returns 2147483647 and not
`min(len, 25 - 1) = 24`: the `int` sum `1 + 2147483647` wraps to a negative
value, so the length is not cut back to the end of the packet. -/
theorem readPacket_len_overflow :
    Receiver.packet25.packetSize = 25 ∧
    (Receiver.readPacket Receiver.packet25 (fun _ => 0) 1 2147483647 none).retval = 2147483647 ∧
    (Receiver.readPacket Receiver.packet25 (fun _ => 0) 1 2147483647 none).retval ≠
      min 2147483647 (Receiver.packet25.packetSize - 1) := by
  decide

/-- C3: every call of `receiveBadBreak` adds one to `framingErrorCount`, empties the
active buffer without publishing it (packet count, published size, both buffers,
the published-buffer pointer and `packetStats` are unchanged), leaves the state
`kIdle` and leaves the receiver disconnected. -/
theorem receiveBadBreak_discards (s : Receiver) :
    (Receiver.receiveBadBreak s).errorStats.framingErrorCount =
      s.errorStats.framingErrorCount + 1 ∧
    (Receiver.receiveBadBreak s).activeBufIndex = 0 ∧
    (Receiver.receiveBadBreak s).packetCount = s.packetCount ∧
    (Receiver.receiveBadBreak s).packetSize = s.packetSize ∧
    (Receiver.receiveBadBreak s).buf1 = s.buf1 ∧
    (Receiver.receiveBadBreak s).buf2 = s.buf2 ∧
    (Receiver.receiveBadBreak s).inactiveBuf = s.inactiveBuf ∧
    (Receiver.receiveBadBreak s).packetStats = s.packetStats ∧
    (Receiver.receiveBadBreak s).state = RecvStates.kIdle ∧
    (Receiver.receiveBadBreak s).connected = false := by
  refine ⟨?_, ?_, ?_, ?_, ?_, ?_, ?_, ?_, ?_, Receiver.setConnected_connected _ _⟩ <;>
    simp [Receiver.receiveBadBreak, Receiver.completePacket, Receiver.clearILT,
      Receiver.setConnected] <;> split <;> rfl

/-- C5 (the code at the failing input): no responder, keep-short-packets off, three
bytes buffered 244 us after the BREAK start. `completePacket` increments the
packet count and publishes size 0 (`packetSize_` and `packetStats_.size`), not a
size between 1 and 513. -/
theorem completePacket_counts_discarded_short :
    (Receiver.wirePacket Receiver.fresh 0 100 12 [0, 1, 2]).responders.isNone = true ∧
    (Receiver.wirePacket Receiver.fresh 0 100 12 [0, 1, 2]).keepShortPackets = false ∧
    (Receiver.wirePacket Receiver.fresh 0 100 12 [0, 1, 2]).activeBufIndex = 3 ∧
    (Receiver.completePacket (Receiver.wirePacket Receiver.fresh 0 100 12 [0, 1, 2])).packetCount =
      (Receiver.wirePacket Receiver.fresh 0 100 12 [0, 1, 2]).packetCount + 1 ∧
    (Receiver.completePacket (Receiver.wirePacket Receiver.fresh 0 100 12 [0, 1, 2])).packetSize = 0 ∧
    (Receiver.completePacket
      (Receiver.wirePacket Receiver.fresh 0 100 12 [0, 1, 2])).packetStats.size = 0 := by
  decide

/-- C6: `completePacket` on a non-empty packet adds one to `shortPacketCount`
exactly when `lastSlotEndTime - breakStartTime < 1196` (32-bit difference). On a
fresh receiver a packet of 25 characters after BREAK = 88 us and MAB = 8 us, ended
by an idle timeout, has packet time 1196 us, is not counted as short and is
published with size 25 and `isShort == false`; the same packet with 24 characters
ends 1152 us after its BREAK start and is counted as short. -/
theorem short_packet_threshold :
    kMinDMXPacketTime = 1196 ∧
    (∀ s : Receiver, 0 < s.activeBufIndex →
      (Receiver.completePacket s).errorStats.shortPacketCount =
        s.errorStats.shortPacketCount +
          (if sub32 s.lastSlotEndTime s.breakStartTime < kMinDMXPacketTime then 1 else 0)) ∧
    (∀ (t te : Int) (bytes : List Nat), 0 ≤ t → t < 4294967296 → bytes.length = 25 →
      (Receiver.endByIdle (Receiver.wirePacket Receiver.fresh t 88 8 bytes) te).errorStats.shortPacketCount
        = 0 ∧
      (Receiver.endByIdle (Receiver.wirePacket Receiver.fresh t 88 8 bytes) te).packetStats.isShort
        = false ∧
      (Receiver.endByIdle (Receiver.wirePacket Receiver.fresh t 88 8 bytes) te).packetStats.packetTime
        = 1196 ∧
      (Receiver.endByIdle (Receiver.wirePacket Receiver.fresh t 88 8 bytes) te).packetSize = 25) ∧
    (∀ (t te : Int) (bytes : List Nat), 0 ≤ t → t < 4294967296 → bytes.length = 24 →
      sub32 (Receiver.wirePacket Receiver.fresh t 88 8 bytes).lastSlotEndTime
        (Receiver.wirePacket Receiver.fresh t 88 8 bytes).breakStartTime = 1152 ∧
      (Receiver.endByIdle (Receiver.wirePacket Receiver.fresh t 88 8 bytes) te).errorStats.shortPacketCount
        = 1) := by
  have hoff : (96 : Int) ≤ 88 + 8 ∧ (88 : Int) + 8 ≤ 900000 := by omega
  refine ⟨rfl, fun s hidx => Receiver.shortPacketCount_completePacket s hidx,
    fun t te bytes ht0 ht1 hlen => ?_, fun t te bytes ht0 ht1 hlen => ?_⟩
  · have hr := Receiver.received_wire t 88 8 bytes ⟨ht0, ht1⟩ hoff (by omega) (by omega)
    rcases hr with ⟨_, hf⟩ | ⟨h513, _⟩
    · obtain ⟨c1, c2, c3, c4, _⟩ :=
        Receiver.sview_endByIdle_filling _ t (88 + 8) bytes te hoff hf (by omega)
      rw [hlen] at c1 c3 c4
      exact ⟨by simpa using c1, c2, by simpa using c3, by simpa using c4⟩
    · omega
  · have hr := Receiver.received_wire t 88 8 bytes ⟨ht0, ht1⟩ hoff (by omega) (by omega)
    rcases hr with ⟨_, hf⟩ | ⟨h513, _⟩
    · obtain ⟨c1, _⟩ :=
        Receiver.sview_endByIdle_filling _ t (88 + 8) bytes te hoff hf (by omega)
      have hpt := Receiver.filling_packetTime _ t (88 + 8) bytes hoff hf (by omega)
      rw [hlen] at c1 hpt
      exact ⟨by simpa using hpt, by simpa using c1⟩
    · omega

/-- Witness of `short_packet_threshold`: the 25 ascending bytes after a BREAK at
time 0 are not short; a receiver holding three bytes 244 us after the BREAK start
gets its short-packet counter incremented. -/
theorem short_packet_threshold_witness :
    (0 < (Receiver.wirePacket Receiver.fresh 0 100 12 [0, 1, 2]).activeBufIndex ∧
      (Receiver.completePacket
        (Receiver.wirePacket Receiver.fresh 0 100 12 [0, 1, 2])).errorStats.shortPacketCount =
        (Receiver.wirePacket Receiver.fresh 0 100 12 [0, 1, 2]).errorStats.shortPacketCount +
          (if sub32 (Receiver.wirePacket Receiver.fresh 0 100 12 [0, 1, 2]).lastSlotEndTime
              (Receiver.wirePacket Receiver.fresh 0 100 12 [0, 1, 2]).breakStartTime <
              kMinDMXPacketTime then 1 else 0)) ∧
    ((0 : Int) ≤ 0 ∧ (0 : Int) < 4294967296 ∧ (List.range 25).length = 25 ∧
      (Receiver.endByIdle (Receiver.wirePacket Receiver.fresh 0 88 8 (List.range 25))
        1240).packetStats.isShort = false) :=
  ⟨⟨by decide, short_packet_threshold.2.1 _ (by decide)⟩,
    ⟨by decide, by decide, by decide,
      (short_packet_threshold.2.2.1 0 1240 (List.range 25) (by decide) (by decide)
        (by decide)).2.1⟩⟩

/-- C7 (amended): when `completePacket` runs with a non-empty packet
(`activeBufIndex_ > 0`) that passes its own short-packet test, that is,
`lastSlotEndTime_ - breakStartTime_`, taken modulo 2^32 with the value
`breakStartTime_` holds when `completePacket` runs, is at least 1196 us, and the
start code of the packet has a registered responder with `eatPacket() == true`,
then `completePacket` calls that responder's `receivePacket` exactly once, with
the buffer holding the packet's bytes and the packet's full size, and afterwards
`readPacket` returns -1 for every call with `0 <= startChannel < 513` and
`len > 0`. -/
theorem responder_eats_packet (s : Receiver) (r : Responder) (buf : Int → Nat)
    (startChannel len : Int) (stats : Option PacketStats)
    (hidx : 0 < s.activeBufIndex)
    (hlong : ¬ sub32 s.lastSlotEndTime s.breakStartTime < kMinDMXPacketTime)
    (hresp : s.responderFor (s.activeData 0) = some r) (heat : r.eatPacket = true)
    (hsc : 0 ≤ startChannel ∧ startChannel < 513) (hlen : 0 < len) :
    (Receiver.completePacket s).receivePacketCalls =
      s.receivePacketCalls ++ [⟨r, s.activeData, s.activeBufIndex⟩] ∧
    (Receiver.readPacket (Receiver.completePacket s) buf startChannel len stats).retval = -1 := by
  obtain ⟨h1, h2⟩ := Receiver.completePacket_eaten s r hidx hlong hresp heat
  exact ⟨h1, ((readPacket_contract (Receiver.completePacket s) buf startChannel len stats).2.1
    hlen hsc.1 hsc.2 (by rw [h2])).1⟩

/-- Witness of `responder_eats_packet`: 25 bytes with start code 0xCC, received after
a BREAK at time 0 by the receiver that has `eater` registered for 0xCC. -/
theorem responder_eats_packet_witness :
    (Receiver.readPacket
      (Receiver.completePacket
        (Receiver.wirePacket Receiver.withEater 0 100 12 (0xCC :: List.replicate 24 7)))
      (fun _ => 0) 0 513 none).retval = -1 :=
  (responder_eats_packet
    (Receiver.wirePacket Receiver.withEater 0 100 12 (0xCC :: List.replicate 24 7))
    Receiver.eater (fun _ => 0) 0 513 none (by decide) (by decide) rfl rfl
    (by decide) (by decide)).2

/-- C7 (counterexample): the 3-byte packet `[0xCC, 0x01, 0x02]` of the
specification, sent after BREAK = 100 us and MAB = 12 us to the receiver with
`eater` on 0xCC and ended by an idle timeout. `receivePacket` is called once, but
with length 0 and not with the full size 3. -/
theorem responder_gets_empty_short_packet :
    (Receiver.endByIdle (Receiver.wirePacket Receiver.withEater 0 100 12 [0xCC, 1, 2])
      300).receivePacketCalls.map (fun c => c.len) = [0] ∧
    (Receiver.endByIdle (Receiver.wirePacket Receiver.withEater 0 100 12 [0xCC, 1, 2])
      300).receivePacketCalls.map (fun c => c.len) ≠ [3] := by
  decide

/-- C8: with both allocations succeeding, `setResponder(sc, r)` for a non-null `r`
returns the responder that was registered for `sc` before the call (null if
none), afterwards `r` is registered for `sc`, and the responder registered for
every other start code is unchanged. -/
theorem setResponder_install (s : Receiver) (sc : Nat) (r : Responder) :
    (Receiver.setResponder s sc (some r) true true).1 = s.responderFor sc ∧
    (Receiver.setResponder s sc (some r) true true).2.responderFor sc = some r ∧
    ∀ sc2 : Nat, sc2 ≠ sc →
      (Receiver.setResponder s sc (some r) true true).2.responderFor sc2 =
        s.responderFor sc2 := by
  have hu : ∀ (tbl : Nat → Option Responder) (sc2 : Nat), sc2 ≠ sc →
      Function.update tbl sc (some r) sc2 = tbl sc2 :=
    fun tbl sc2 h2 => Function.update_noteq h2 _ _
  cases hr : s.responders with
  | none =>
    refine ⟨?_, ?_, fun sc2 h2 => ?_⟩
    · simp [Receiver.setResponder, Receiver.responderFor, hr]
    · simp only [Receiver.setResponder, Receiver.responderFor, hr, Bool.not_true, Bool.and_false]
      split_ifs <;> first | contradiction | simp
    · simp only [Receiver.setResponder, Receiver.responderFor, hr, Bool.not_true, Bool.and_false]
      split_ifs <;> first | contradiction | simp [hu _ sc2 h2]
  | some tbl =>
    refine ⟨?_, ?_, fun sc2 h2 => ?_⟩
    · simp [Receiver.setResponder, Receiver.responderFor, hr]
    · simp only [Receiver.setResponder, Receiver.responderFor, hr, Bool.not_true, Bool.and_false]
      split_ifs <;> first | contradiction | simp
    · simp only [Receiver.setResponder, Receiver.responderFor, hr, Bool.not_true, Bool.and_false]
      split_ifs <;> first | contradiction | simp [hu _ sc2 h2]

/-- Witness of `setResponder_install`: installing `eater` for 0xCC on a fresh
receiver leaves start code 0 without a responder. -/
theorem setResponder_install_witness :
    (0 : Nat) ≠ 0xCC ∧
    (Receiver.setResponder Receiver.fresh 0xCC (some Receiver.eater) true true).2.responderFor 0 =
      Receiver.fresh.responderFor 0 :=
  ⟨by decide, (setResponder_install Receiver.fresh 0xCC Receiver.eater).2.2 0 (by decide)⟩

/-- C9 (the code at the failing input): `eater` is registered for start code 1 and
`watcher` for start code 2; after `setResponder(1, nullptr)` the table entry for
start code 1 still holds `eater` (output buffer size 16): a later
`setResponder(1, x)` returns it instead of null, and a later packet with start
code 1 is still handed to its `receivePacket`. -/
theorem setResponder_null_keeps_entry :
    ((Receiver.setResponder Receiver.twoResponders 1 none true true).2.responderFor 1).map
      (fun r => r.outputBufferSize) = some 16 ∧
    ((Receiver.setResponder (Receiver.setResponder Receiver.twoResponders 1 none true true).2 1
      (some Receiver.watcher) true true).1).map (fun r => r.outputBufferSize) = some 16 ∧
    (Receiver.endByIdle
      (Receiver.wirePacket (Receiver.setResponder Receiver.twoResponders 1 none true true).2
        0 100 12 (1 :: List.replicate 24 0)) 1300).receivePacketCalls.map
      (fun c => (c.responder.outputBufferSize, c.len)) = [(16, 25)] := by
  decide

/-- C10: a call of `readPacket` with `0 <= startChannel < 513` and `len > 0`
consumes the packet: an immediately following call (with arguments in the same
ranges) returns -1, whatever the first call returned. -/
theorem readPacket_consumes (s : Receiver) (buf buf2 : Int → Nat)
    (startChannel len startChannel2 len2 : Int) (stats stats2 : Option PacketStats)
    (h1 : 0 ≤ startChannel ∧ startChannel < 513 ∧ 0 < len)
    (h2 : 0 ≤ startChannel2 ∧ startChannel2 < 513 ∧ 0 < len2) :
    (Receiver.readPacket (Receiver.readPacket s buf startChannel len stats).recv buf2
      startChannel2 len2 stats2).retval = -1 := by
  have hsz : (Receiver.readPacket s buf startChannel len stats).recv.packetSize ≤ 0 := by
    have h0 : ¬ (len ≤ 0 ∨ startChannel < 0 ∨ kMaxDMXPacketSize ≤ startChannel) := by
      simp only [kMaxDMXPacketSize]; omega
    unfold Receiver.readPacket
    rw [if_neg h0]
    simp only []
    by_cases h3 : s.packetSize > 0
    · rw [if_pos h3]
      by_cases h4 : startChannel ≥ s.packetSize
      · rw [if_pos h4]
      · rw [if_neg h4]
    · rw [if_neg h3]; exact not_lt.mp h3
  exact ((readPacket_contract _ buf2 startChannel2 len2 stats2).2.1 h2.2.2 h2.1 h2.2.1 hsz).1

/-- Witness of `readPacket_consumes`: with the 25-slot packet published, a first
call from channel 30 returns 0 and the next call returns -1. -/
theorem readPacket_consumes_witness :
    ((0 : Int) ≤ 30 ∧ (30 : Int) < 513 ∧ (0 : Int) < 10) ∧
    ((0 : Int) ≤ 0 ∧ (0 : Int) < 513 ∧ (0 : Int) < 513) ∧
    (Receiver.readPacket Receiver.packet25 (fun _ => 0) 30 10 none).retval = 0 ∧
    (Receiver.readPacket (Receiver.readPacket Receiver.packet25 (fun _ => 0) 30 10 none).recv
      (fun _ => 0) 0 513 none).retval = -1 :=
  ⟨by decide, by decide, by decide,
    readPacket_consumes Receiver.packet25 (fun _ => 0) (fun _ => 0) 30 10 0 513 none none
      (by decide) (by decide)⟩

/-- C11 (counterexample): a 25-slot packet has been published, so the
receiver's `packetStats` has size 25; `readPacket` with `len = 0` and a non-null
`stats` pointer returns 0 and leaves the caller's record as it was (all zero). -/
theorem readPacket_bad_args_skip_stats :
    (Receiver.readPacket Receiver.packet25 (fun _ => 0) 0 0 (some PacketStats.zero)).retval = 0 ∧
    (Receiver.readPacket Receiver.packet25 (fun _ => 0) 0 0 (some PacketStats.zero)).stats =
      some PacketStats.zero ∧
    (Receiver.readPacket Receiver.packet25 (fun _ => 0) 0 0
      (some PacketStats.zero)).recv.packetStats.size = 25 ∧
    (Receiver.readPacket Receiver.packet25 (fun _ => 0) 600 5 (some PacketStats.zero)).stats =
      some PacketStats.zero := by
  decide

/-- C11 (amended): with a non-null `stats` pointer, `readPacket` stores the
receiver's `packetStats` in `*stats` when `len > 0` and `0 <= startChannel < 513`,
whatever it returns; for every other `len` and `startChannel` it returns 0 and
leaves `*stats` as the caller had it. The receiver's `packetStats` is never
changed by the call. -/
theorem readPacket_stats (s : Receiver) (buf : Int → Nat) (startChannel len : Int)
    (st : PacketStats) :
    (Receiver.readPacket s buf startChannel len (some st)).stats =
      some (if 0 < len ∧ 0 ≤ startChannel ∧ startChannel < 513 then s.packetStats else st) ∧
    (Receiver.readPacket s buf startChannel len (some st)).recv.packetStats = s.packetStats ∧
    (¬(0 < len ∧ 0 ≤ startChannel ∧ startChannel < 513) →
      (Receiver.readPacket s buf startChannel len (some st)).retval = 0) := by
  unfold Receiver.readPacket
  simp only [kMaxDMXPacketSize]
  by_cases h : len ≤ 0 ∨ startChannel < 0 ∨ 513 ≤ startChannel
  · have h2 : ¬(0 < len ∧ 0 ≤ startChannel ∧ startChannel < 513) := by omega
    simp [h, h2]
  · have h2 : 0 < len ∧ 0 ≤ startChannel ∧ startChannel < 513 := by omega
    simp only [h, h2, if_false, if_true, and_self, not_true_eq_false, false_implies, and_true]
    split_ifs <;> simp

/-- Witness of `readPacket_stats`: reading all of the 25-slot packet. -/
theorem readPacket_stats_witness :
    (Receiver.readPacket Receiver.packet25 (fun _ => 0) 0 513 (some PacketStats.zero)).stats =
      some Receiver.packet25.packetStats := by
  have h := (readPacket_stats Receiver.packet25 (fun _ => 0) 0 513 PacketStats.zero).1
  simpa using h

/-- C12: on a receiver that came about by operations on a constructed receiver,
`Receiver::get(channel, rangeError)` stores false in `*rangeError` exactly when
`0 <= channel < packetStats.size`, and then returns the byte of the last
published packet at `channel`; for every other `channel` it returns 0 and stores
true. With a null pointer the returned byte is the same. -/
theorem get_rangeError (s : Receiver) (hs : Receiver.Reachable s) (channel : Int)
    (rangeError : Bool) :
    (Receiver.get s channel (some rangeError)).2 =
      some (decide ¬(0 ≤ channel ∧ channel < s.packetStats.size)) ∧
    (Receiver.get s channel (some rangeError)).1 =
      (if 0 ≤ channel ∧ channel < s.packetStats.size then s.inactiveData channel else 0) ∧
    (Receiver.get s channel none).1 = (Receiver.get s channel (some rangeError)).1 := by
  have hb := Receiver.bounded_of_reachable s hs
  have hsz : s.packetStats.size ≤ 513 := hb.size
  unfold Receiver.get
  simp only [kMaxDMXPacketSize]
  by_cases h1 : channel < 0 ∨ 513 ≤ channel
  · have h2 : ¬(0 ≤ channel ∧ channel < s.packetStats.size) := by omega
    simp [h1, h2]
  · by_cases h3 : channel < s.packetStats.size
    · have h2 : 0 ≤ channel ∧ channel < s.packetStats.size := by omega
      simp [h1, h2, h3]
    · have h2 : ¬(0 ≤ channel ∧ channel < s.packetStats.size) := by omega
      simp [h1, h2, h3]

/-- Witness of `get_rangeError`: the last slot of the 25-slot packet and the
first channel beyond it. -/
theorem get_rangeError_witness :
    (Receiver.get Receiver.packet25 24 (some true)).2 = some false ∧
    (Receiver.get Receiver.packet25 24 (some true)).1 = 24 ∧
    (Receiver.get Receiver.packet25 25 (some false)).2 = some true ∧
    (Receiver.get Receiver.packet25 25 (some false)).1 = 0 :=
  ⟨(get_rangeError Receiver.packet25 Receiver.packet25_reachable 24 true).1.trans (by decide),
    (get_rangeError Receiver.packet25 Receiver.packet25_reachable 24 true).2.1.trans (by decide),
    (get_rangeError Receiver.packet25 Receiver.packet25_reachable 25 false).1.trans (by decide),
    (get_rangeError Receiver.packet25 Receiver.packet25_reachable 25 false).2.1.trans
      (by decide)⟩

/-- C13: for `0 <= c <= 511` and a 16-bit value `v`, `Sender::set16Bit(c, v)`
returns true and stores the high byte of `v` in slot `c` and the low byte in slot
`c + 1`; these two bytes satisfy `byte[c] * 256 + byte[c+1] = v`, and
`Receiver::get16Bit(c)` on a receiver whose last packet holds them at `c` and
`c + 1` (both inside the packet) returns `v`. -/
theorem set16Bit_get16Bit (s : Sender) (c : Int) (v : Nat) (hc : 0 ≤ c ∧ c ≤ 511)
    (hv : v < 65536) :
    (Sender.set16Bit s c v).1 = true ∧
    (Sender.set16Bit s c v).2.outputBuf c = v / 256 ∧
    (Sender.set16Bit s c v).2.outputBuf (c + 1) = v % 256 ∧
    (Sender.set16Bit s c v).2.outputBuf c * 256 + (Sender.set16Bit s c v).2.outputBuf (c + 1) = v ∧
    ∀ (r : Receiver) (rangeError : Option Bool),
      r.inactiveData c = (Sender.set16Bit s c v).2.outputBuf c →
      r.inactiveData (c + 1) = (Sender.set16Bit s c v).2.outputBuf (c + 1) →
      c < r.packetStats.size - 1 →
      (Receiver.get16Bit r c rangeError).1 = v := by
  have h2 : ¬(c < 0 ∨ 512 ≤ c) := by omega
  have hne : c ≠ c + 1 := by omega
  have hhi : ((v % 65536) >>> 8) % 256 = v / 256 := by
    rw [Nat.mod_eq_of_lt hv, Nat.shiftRight_eq_div_pow]
    exact Nat.mod_eq_of_lt (by omega)
  have hlo : v % 65536 % 256 = v % 256 := by omega
  have e1 : (Sender.set16Bit s c v).1 = true := by
    simp [Sender.set16Bit, kMaxDMXPacketSize, h2]
  have e2 : (Sender.set16Bit s c v).2.outputBuf c = v / 256 := by
    simp only [Sender.set16Bit, kMaxDMXPacketSize, Int.reduceSub, h2, if_false]
    rw [Function.update_noteq hne, Function.update_same, hhi]
  have e3 : (Sender.set16Bit s c v).2.outputBuf (c + 1) = v % 256 := by
    simp only [Sender.set16Bit, kMaxDMXPacketSize, Int.reduceSub, h2, if_false]
    rw [Function.update_same, hlo]
  refine ⟨e1, e2, e3, ?_, ?_⟩
  · rw [e2, e3]; omega
  · intro r re h0 h1 hsz
    rw [e2] at h0
    rw [e3] at h1
    have hd : Receiver.decode16 (v / 256) (v % 256) = v := by
      unfold Receiver.decode16
      have hlt : v % 256 < 2 ^ 8 := by omega
      rw [Nat.shiftLeft_eq, Nat.mul_comm, ← Nat.mul_add_lt_is_or hlt]
      omega
    simp only [Receiver.get16Bit, kMaxDMXPacketSize, Int.reduceSub, h2, if_false, hsz, if_true, h0, h1, hd]

/-- Witness of `set16Bit_get16Bit`: the value 0xABCD in the last pair of slots. -/
theorem set16Bit_get16Bit_witness :
    ((0 : Int) ≤ 511 ∧ (511 : Int) ≤ 511) ∧ (0xABCD : Nat) < 65536 ∧
    (Sender.set16Bit (Sender.new 0) 511 0xABCD).2.outputBuf 511 = 0xAB ∧
    (Sender.set16Bit (Sender.new 0) 511 0xABCD).2.outputBuf 512 = 0xCD :=
  ⟨by decide, by decide,
    (set16Bit_get16Bit (Sender.new 0) 511 0xABCD (by decide) (by decide)).2.1,
    (set16Bit_get16Bit (Sender.new 0) 511 0xABCD (by decide) (by decide)).2.2.1⟩

/-- C14: for a byte `value`, `Sender::set(channel, value)` with
`0 <= channel <= 512` returns true, stores `value` in slot `channel` and leaves
every other slot as it was; for every other `channel` it returns false and the
sender, its output buffer included, is unchanged. -/
theorem set_channel (s : Sender) (channel : Int) (value : Nat) (hv : value < 256) :
    (0 ≤ channel ∧ channel ≤ 512 →
      (Sender.set s channel value).1 = true ∧
      (Sender.set s channel value).2.outputBuf channel = value ∧
      ∀ c : Int, c ≠ channel → (Sender.set s channel value).2.outputBuf c = s.outputBuf c) ∧
    (¬(0 ≤ channel ∧ channel ≤ 512) →
      (Sender.set s channel value).1 = false ∧ (Sender.set s channel value).2 = s) := by
  unfold Sender.set
  simp only [kMaxDMXPacketSize]
  constructor
  · intro h
    have h2 : ¬(channel < 0 ∨ 513 ≤ channel) := by omega
    simp only [h2, if_false, Function.update_same, true_and]
    exact ⟨Nat.mod_eq_of_lt hv, fun c hc => Function.update_noteq hc _ _⟩
  · intro h
    have h2 : channel < 0 ∨ 513 ≤ channel := by omega
    simp [h2]

/-- Witness of `set_channel`: the last slot, 512. -/
theorem set_channel_witness :
    (255 : Nat) < 256 ∧ (Sender.set (Sender.new 0) 512 255).1 = true ∧
    (Sender.set (Sender.new 0) 512 255).2.outputBuf 512 = 255 :=
  ⟨by decide, ((set_channel (Sender.new 0) 512 255 (by decide)).1 (by decide)).1,
    ((set_channel (Sender.new 0) 512 255 (by decide)).1 (by decide)).2.1⟩

/-- C15: for `int` arguments, `Sender::set(startChannel, values, len)` returns
true exactly when `len >= 0`, `0 <= startChannel < 513` and
`startChannel + len <= 513` as integers; then slot `startChannel + k` holds
`values[k]` for `0 <= k < len` and every other slot is as before; when it returns
false the sender, its output buffer included, is unchanged. -/
theorem setRange_in_bounds (s : Sender) (startChannel : Int) (values : Int → Nat) (len : Int)
    (hs : -2147483648 ≤ startChannel ∧ startChannel < 2147483648)
    (hl : -2147483648 ≤ len ∧ len < 2147483648) :
    ((Sender.setRange s startChannel values len).1 = true ↔
      0 ≤ len ∧ 0 ≤ startChannel ∧ startChannel < 513 ∧ startChannel + len ≤ 513) ∧
    ((Sender.setRange s startChannel values len).1 = true →
      ∀ i : Int, (Sender.setRange s startChannel values len).2.outputBuf i =
        if startChannel ≤ i ∧ i < startChannel + len then values (i - startChannel)
        else s.outputBuf i) ∧
    ((Sender.setRange s startChannel values len).1 = false →
      (Sender.setRange s startChannel values len).2 = s) := by
  unfold Sender.setRange
  simp only [kMaxDMXPacketSize]
  by_cases h1 : len < 0 ∨ startChannel < 0 ∨ 513 ≤ startChannel
  · simp only [h1, if_true]
    refine ⟨⟨fun h => by simp at h, fun h => by omega⟩, fun h => by simp at h, fun _ => trivial⟩
  · simp only [h1, if_false]
    by_cases h2 : len = 0
    · subst h2
      simp only [if_true, add_zero]
      refine ⟨⟨fun _ => by omega, fun _ => trivial⟩, fun _ i => ?_, fun h => by simp at h⟩
      have : ¬(startChannel ≤ i ∧ i < startChannel) := by omega
      simp [this]
    · simp only [h2, if_false]
      by_cases h3 : wrapInt32 (startChannel + len) ≤ 0 ∨ 513 < wrapInt32 (startChannel + len)
      · simp only [h3, if_true]
        refine ⟨⟨fun h => by simp at h, fun h => ?_⟩, fun h => by simp at h, fun _ => trivial⟩
        exfalso
        unfold wrapInt32 at h3
        omega
      · simp only [h3, if_false]
        refine ⟨⟨fun _ => ?_, fun _ => trivial⟩, fun _ i => rfl, fun h => by simp at h⟩
        unfold wrapInt32 at h3
        omega

/-- Witness of `setRange_in_bounds`: `startChannel = 1` and `len = INT_MAX`, whose
`int` sum wraps to `INT_MIN`, is refused. -/
theorem setRange_in_bounds_witness :
    ((-2147483648 : Int) ≤ 1 ∧ (1 : Int) < 2147483648) ∧
    (Sender.setRange (Sender.new 0) 1 (fun _ => 7) 2147483647).1 = false := by
  have h := (setRange_in_bounds (Sender.new 0) 1 (fun _ => 7) 2147483647
    (by decide) (by decide)).1
  refine ⟨by decide, ?_⟩
  cases hb : (Sender.setRange (Sender.new 0) 1 (fun _ => 7) 2147483647).1 with
  | false => rfl
  | true => exact absurd (h.1 hb) (by decide)

/-- C16 (counterexample): after one received packet the packet count is 1; `end`
followed by `begin` on the same receiver sets it back to 0. -/
theorem begin_resets_counters :
    Receiver.counters Receiver.packet25 = (0, 0, 0, 1) ∧
    Receiver.counters (Receiver.run Receiver.packet25 [Receiver.Op.end_, Receiver.Op.begin]) =
      (0, 0, 0, 0) := by
  decide

/-- C16 (amended): the counters are 32 bits wide. Over every sequence of `n`
operations and events in which `begin` does not occur, each of
`framingErrorCount`, `shortPacketCount`, `packetTimeoutCount` and `packetCount`
ends at its old value plus some `k <= 2 * n`, modulo 2^32; so a counter whose old
value is below `2^32 - 2 * n` does not become smaller. A counter does become
smaller by wrapping: `packetCount` at 4294967295 is 0 after `completePacket` has
counted one more packet. `begin` on a receiver that is begun changes nothing, and
`begin` on a receiver that is not begun, on a supported serial port, sets the four
counters to zero. -/
theorem counters_nondecreasing_until_wrap (s : Receiver) (ops : List Receiver.Op)
    (h : ∀ op ∈ ops, op ≠ Receiver.Op.begin) :
    (∀ c : Receiver.Counter,
      (∃ k : Nat, k ≤ 2 * ops.length ∧
        Receiver.counter32 (Receiver.run s ops) c =
          (Receiver.counter32 s c + k) % 4294967296) ∧
      (Receiver.counter32 s c + 2 * ops.length < 4294967296 →
        Receiver.counter32 s c ≤ Receiver.counter32 (Receiver.run s ops) c)) ∧
    (0 < s.activeBufIndex →
      Receiver.counter32 s Receiver.Counter.packetCount = 4294967295 →
      Receiver.counter32 (Receiver.completePacket s) Receiver.Counter.packetCount = 0) ∧
    (s.began = true → Receiver.begin s = s) ∧
    (s.began = false → 0 ≤ s.serialIndex →
      ∀ c : Receiver.Counter, Receiver.counter32 (Receiver.begin s) c = 0) := by
  refine ⟨fun c => ?_, fun hi hc => ?_, fun hb => ?_, fun hb hi c => ?_⟩
  · obtain ⟨h1, h2⟩ := Receiver.count_run s ops h c
    unfold Receiver.counter32
    generalize Receiver.count (Receiver.run s ops) c = b at h1 h2 ⊢
    generalize Receiver.count s c = a at h1 h2 ⊢
    generalize ops.length = n at h2 ⊢
    refine ⟨⟨b - a, by omega, by omega⟩, fun h3 => by omega⟩
  · unfold Receiver.counter32 Receiver.count at hc ⊢
    simp only [] at hc ⊢
    rw [Receiver.completePacket_packetCount s hi]
    omega
  · unfold Receiver.begin
    simp only [hb, if_true]
  · have hi2 : ¬s.serialIndex < 0 := by omega
    have h0 : Receiver.counters (Receiver.begin s) = (0, 0, 0, 0) := by
      unfold Receiver.begin
      simp only [hb, hi2, if_false, Bool.false_eq_true]
      unfold Receiver.setConnected Receiver.clearILT
      split_ifs <;> rfl
    simp only [Receiver.counters, Prod.mk.injEq] at h0
    unfold Receiver.counter32 Receiver.count
    cases c <;> simp only [h0]

/-- Witness of `counters_nondecreasing_until_wrap`: a framing error, a byte that
comes too early and `end` after the 25-slot packet leave the framing-error counter
at least as large as it was; and the 25-slot packet that is counted when
`packetCount` is 4294967295 takes it to 0. -/
theorem counters_nondecreasing_until_wrap_witness :
    Receiver.counter32 Receiver.packet25 Receiver.Counter.framingErrorCount ≤
      Receiver.counter32 (Receiver.run Receiver.packet25
        [Receiver.Op.receivePotentialBreak 5044, Receiver.Op.receiveByte 0 5050,
          Receiver.Op.end_]) Receiver.Counter.framingErrorCount ∧
    Receiver.counter32 Receiver.lastCount25 Receiver.Counter.packetCount = 4294967295 ∧
    Receiver.counter32 (Receiver.completePacket Receiver.lastCount25)
      Receiver.Counter.packetCount = 0 :=
  ⟨((counters_nondecreasing_until_wrap Receiver.packet25
      [Receiver.Op.receivePotentialBreak 5044, Receiver.Op.receiveByte 0 5050,
        Receiver.Op.end_]
      (by simp)).1 Receiver.Counter.framingErrorCount).2 (by decide),
    by decide,
    (counters_nondecreasing_until_wrap Receiver.lastCount25 [] (by simp)).2.1 (by decide)
      (by decide)⟩

/-- C18: in a program in which only `begin` and `end` have been called, two begun
receivers on the same supported serial port are the same receiver, and the entry
of `rxInstances` for the port refers to it. If receiver `a` is begun on such a
port and another receiver `b` of the same port calls `begin`, then afterwards the
entry refers to `b`, `b` is begun and `a` is not; a later `end` on `a` leaves the
entry referring to `b` and `b` begun. -/
theorem registry_supersession (w : World) (hw : World.Reachable w) :
    (∀ a b : Nat, (w.receivers a).began = true → (w.receivers b).began = true →
      0 ≤ (w.receivers a).serialIndex →
      (w.receivers b).serialIndex = (w.receivers a).serialIndex →
      a = b ∧ w.rxInstances (w.receivers a).serialIndex = some a) ∧
    (∀ a b : Nat, a ≠ b → (w.receivers a).began = true → 0 ≤ (w.receivers a).serialIndex →
      (w.receivers b).serialIndex = (w.receivers a).serialIndex →
      (World.beginRx w b).rxInstances (w.receivers a).serialIndex = some b ∧
      ((World.beginRx w b).receivers b).began = true ∧
      ((World.beginRx w b).receivers a).began = false ∧
      (World.endRx (World.beginRx w b) a).rxInstances (w.receivers a).serialIndex = some b ∧
      ((World.endRx (World.beginRx w b) a).receivers b).began = true) := by
  have hO := World.owned_of_reachable w hw
  constructor
  · intro a b ha hb hi hab
    have hsa := hO.rx a ha hi
    have hsb := hO.rx b hb (by rw [hab]; exact hi)
    rw [hab, hsa] at hsb
    exact ⟨Option.some.inj hsb, hsa⟩
  · intro a b hab ha hi hb
    obtain ⟨h1, h2, h3, h4⟩ := World.beginRx_supersedes w hO a b hab ha hi hb
    rw [h4]
    exact ⟨h1, h2, h3, h1, h2⟩

/-- Witness of `registry_supersession`: receiver 0 is begun on the first serial
port and receiver 1 of the same port calls `begin`. -/
theorem registry_supersession_witness :
    (World.oneReceiver.receivers 0).began = true ∧
    (World.beginRx World.oneReceiver 1).rxInstances 0 = some 1 ∧
    ((World.beginRx World.oneReceiver 1).receivers 1).began = true ∧
    ((World.beginRx World.oneReceiver 1).receivers 0).began = false :=
  have h := (registry_supersession World.oneReceiver ⟨_, _, _, rfl⟩).2 0 1
    (by decide) (by decide) (by decide) (by decide)
  ⟨by decide, h.1, h.2.1, h.2.2.1⟩

/-- C19 (counterexample): after `begin` on receiver 0 and then `begin` on sender 0,
both on the first serial port, the receiver and the sender are both begun, each
the owner of the entry of its own table. -/
theorem receiver_and_sender_both_begun :
    (World.rxAndTx.receivers 0).began = true ∧
    (World.rxAndTx.receivers 0).serialIndex = 0 ∧
    (World.rxAndTx.senders 0).began = true ∧
    (World.rxAndTx.senders 0).serialIndex = 0 ∧
    World.rxAndTx.rxInstances 0 = some 0 ∧
    World.rxAndTx.txInstances 0 = some 0 := by
  decide

/-- C19 (amended): in a program in which only `begin` and `end` have been called,
two begun senders on the same supported serial port are the same sender, and
likewise two begun receivers; `begin` and `end` of a receiver leave every sender
and the table `txInstances` as they were, and `begin` and `end` of a sender leave
every receiver and the table `rxInstances` as they were. -/
theorem rx_tx_tables_independent (w : World) (hw : World.Reachable w) :
    (∀ a b : Nat, (w.senders a).began = true → (w.senders b).began = true →
      0 ≤ (w.senders a).serialIndex →
      (w.senders b).serialIndex = (w.senders a).serialIndex → a = b) ∧
    (∀ a b : Nat, (w.receivers a).began = true → (w.receivers b).began = true →
      0 ≤ (w.receivers a).serialIndex →
      (w.receivers b).serialIndex = (w.receivers a).serialIndex → a = b) ∧
    (∀ a : Nat,
      ((World.beginRx w a).senders = w.senders ∧
        (World.beginRx w a).txInstances = w.txInstances) ∧
      ((World.endRx w a).senders = w.senders ∧
        (World.endRx w a).txInstances = w.txInstances) ∧
      ((World.beginTx w a).receivers = w.receivers ∧
        (World.beginTx w a).rxInstances = w.rxInstances) ∧
      ((World.endTx w a).receivers = w.receivers ∧
        (World.endTx w a).rxInstances = w.rxInstances)) := by
  have hO := World.owned_of_reachable w hw
  refine ⟨fun a b ha hb hi hab => ?_, fun a b ha hb hi hab => ?_, fun a =>
    ⟨World.beginRx_tx w a, World.endRx_tx w a, World.beginTx_rx w a, World.endTx_rx w a⟩⟩
  · have hsa := hO.tx a ha hi
    have hsb := hO.tx b hb (by rw [hab]; exact hi)
    rw [hab, hsa] at hsb
    exact Option.some.inj hsb
  · have hsa := hO.rx a ha hi
    have hsb := hO.rx b hb (by rw [hab]; exact hi)
    rw [hab, hsa] at hsb
    exact Option.some.inj hsb

/-- Witness of `rx_tx_tables_independent`: `begin` on sender 0 of a program whose
receiver 0 is begun leaves the receivers as they were. -/
theorem rx_tx_tables_independent_witness :
    (World.beginTx World.oneReceiver 0).receivers = World.oneReceiver.receivers ∧
    (World.beginTx World.oneReceiver 0).rxInstances = World.oneReceiver.rxInstances :=
  ((rx_tx_tables_independent World.oneReceiver ⟨_, _, _, rfl⟩).2.2 0).2.2.1

/-- C20 (counterexample): `eater` (output buffer of 16 bytes) is registered for
start code 0xCC; registering `bigResponder` (64 bytes) for start code 1 with the
allocation of the larger output buffer failing returns null and leaves no
responder for 0xCC and a responder count of zero. -/
theorem setResponder_outbuf_failure_drops_table :
    (Receiver.withEater.responderFor 0xCC).map (fun r => r.outputBufferSize) = some 16 ∧
    Receiver.withEater.responderCount = 1 ∧
    ((Receiver.setResponder Receiver.withEater 1 (some Receiver.bigResponder) true false).1).isNone
      = true ∧
    ((Receiver.setResponder Receiver.withEater 1 (some Receiver.bigResponder) true
      false).2.responderFor 0xCC).isNone = true ∧
    (Receiver.setResponder Receiver.withEater 1 (some Receiver.bigResponder) true
      false).2.responderCount = 0 := by
  decide

/-- C20 (amended): when an allocation inside `setResponder(sc, r)` fails the call
returns null. If it is the allocation of the table (there was no table, so no
responder), the receiver is exactly as before. If it is the allocation of the
output buffer, the table is dropped: afterwards no start code has a responder,
the responder count is zero and there is no output buffer. -/
theorem setResponder_alloc_failure (s : Receiver) (sc : Nat) (r : Responder)
    (tableAlloc outBufAlloc : Bool)
    (h : (s.responders.isNone = true ∧ tableAlloc = false) ∨
      ((s.responderOutBuf = false ∨ s.responderOutBufLen < r.outputBufferSize) ∧
        outBufAlloc = false)) :
    (Receiver.setResponder s sc (some r) tableAlloc outBufAlloc).1 = none ∧
    (s.responders.isNone = true ∧ tableAlloc = false →
      (Receiver.setResponder s sc (some r) tableAlloc outBufAlloc).2 = s) ∧
    (¬(s.responders.isNone = true ∧ tableAlloc = false) →
      (∀ c, (Receiver.setResponder s sc (some r) tableAlloc outBufAlloc).2.responderFor c = none) ∧
      (Receiver.setResponder s sc (some r) tableAlloc outBufAlloc).2.responderCount = 0 ∧
      (Receiver.setResponder s sc (some r) tableAlloc outBufAlloc).2.responderOutBuf = false ∧
      (Receiver.setResponder s sc (some r) tableAlloc outBufAlloc).2.responderOutBufLen = 0) := by
  cases hr : s.responders with
  | none =>
    cases tableAlloc with
    | false => simp [Receiver.setResponder, hr]
    | true =>
      have h2 : (s.responderOutBuf = false ∨ s.responderOutBufLen < r.outputBufferSize) ∧
          outBufAlloc = false := by
        rcases h with h | h
        · simp at h
        · exact h
      obtain ⟨h3, h4⟩ := h2
      subst h4
      rcases h3 with h3 | h3 <;>
        simp [Receiver.setResponder, Receiver.responderFor, hr, h3]
  | some tbl =>
    have h2 : (s.responderOutBuf = false ∨ s.responderOutBufLen < r.outputBufferSize) ∧
        outBufAlloc = false := by
      rcases h with h | h
      · simp [hr] at h
      · exact h
    obtain ⟨h3, h4⟩ := h2
    subst h4
    rcases h3 with h3 | h3 <;>
      simp [Receiver.setResponder, Receiver.responderFor, hr, h3]

/-- Witness of `setResponder_alloc_failure`: the larger output buffer for
`bigResponder` cannot be allocated on a receiver that has `eater` registered. -/
theorem setResponder_alloc_failure_witness :
    Receiver.withEater.responderOutBufLen < Receiver.bigResponder.outputBufferSize ∧
    (Receiver.setResponder Receiver.withEater 1 (some Receiver.bigResponder) true false).1 =
      none :=
  ⟨by decide,
    (setResponder_alloc_failure Receiver.withEater 1 Receiver.bigResponder true false
      (Or.inr ⟨Or.inr (by decide), rfl⟩)).1⟩

/-- C21 (counterexample): the receiver is connected with 25 bytes buffered; the
next BREAK starts two seconds after the previous one and its first byte ends
156 us after the BREAK start. When `receiveByte` returns, `packetTimeoutCount` is 1
and the 25 slots are published, but the receiver is still connected and in state
Data. If instead the first byte ends 1.1 s after the BREAK start, the timeout is
counted twice and only then is the receiver disconnected. -/
theorem late_break_stays_connected :
    Receiver.filling25.connected = true ∧
    Receiver.filling25.errorStats.packetTimeoutCount = 0 ∧
    Receiver.lateBreak.errorStats.packetTimeoutCount = 1 ∧
    Receiver.lateBreak.packetCount = 1 ∧
    Receiver.lateBreak.packetSize = 25 ∧
    Receiver.lateBreak.connected = true ∧
    Receiver.lateBreak.state = RecvStates.kData ∧
    Receiver.lateBreakLongMAB.errorStats.packetTimeoutCount = 2 ∧
    Receiver.lateBreakLongMAB.connected = false := by
  decide

/-- C21 (amended): the receiver is connected and in state Break, the BREAK is
valid (by the test on BREAK + MAB when no MAB start was seen, by the tests on the
BREAK and on the MAB when it was), it starts more than `kMaxDMXPacketTime` after
the previous BREAK, and the stop bit of the first byte ends at most
`kMaxDMXPacketTime` after the BREAK start. Then `receiveByte` increases
`packetTimeoutCount` by exactly 1 and leaves the receiver connected; and if bytes
are buffered, no responder is registered and `completePacket` does not find the
packet short, the buffered packet is published. -/
theorem late_break_timeout (s : Receiver) (b : Nat) (eop : Int)
    (hst : s.state = RecvStates.kBreak) (hconn : s.connected = true)
    (hvalid :
      (s.seenMABStart = false ∧
        ¬ sub32 eop s.breakStartTime < u32 (kMinBreakTime + kMinMABTime + kCharTime)) ∨
      (s.seenMABStart = true ∧
        ¬ (sub32 s.mabStartTime s.breakStartTime < kMinBreakTime ∨
          sub32 eop s.mabStartTime < u32 (kMinMABTime + kCharTime)) ∧
        ¬ sub32 (sub32 eop kCharTime) s.mabStartTime ≥ kMaxDMXIdleTime))
    (hdt : sub32 s.breakStartTime s.lastBreakStartTime > kMaxDMXPacketTime)
    (hfirst : ¬ sub32 eop s.breakStartTime > kMaxDMXPacketTime) :
    (Receiver.receiveByte s b eop).errorStats.packetTimeoutCount =
      s.errorStats.packetTimeoutCount + 1 ∧
    (Receiver.receiveByte s b eop).connected = true ∧
    (0 < s.activeBufIndex →
      ¬ sub32 s.lastSlotEndTime s.breakStartTime < kMinDMXPacketTime →
      s.responders = none →
      Receiver.view (Receiver.receiveByte s b eop) =
        (s.packetCount + 1, s.activeBufIndex, s.activeData)) := by
  rcases hvalid with ⟨hseen, hv⟩ | ⟨hseen, hv1, hv2⟩
  · rw [Receiver.receiveByte_kBreak_unseen s b eop hst hseen, if_neg hv]
    exact Receiver.late_tail (Receiver.setILT (Receiver.breakEntry s)) b eop 0 0 hconn hdt hfirst
  · rw [Receiver.receiveByte_kBreak_seen s b eop hst hseen, if_neg hv1, if_neg hv2]
    exact Receiver.late_tail (Receiver.breakEntry s) b eop _ _ hconn hdt hfirst

/-- Witness of `late_break_timeout`: the late BREAK of `lateBreak`. -/
theorem late_break_timeout_witness :
    (Receiver.receivePotentialBreak Receiver.filling25 2000044).state = RecvStates.kBreak ∧
    (Receiver.receiveByte (Receiver.receivePotentialBreak Receiver.filling25 2000044) 7
      2000156).errorStats.packetTimeoutCount =
      (Receiver.receivePotentialBreak Receiver.filling25 2000044).errorStats.packetTimeoutCount
        + 1 ∧
    (Receiver.receiveByte (Receiver.receivePotentialBreak Receiver.filling25 2000044) 7
      2000156).connected = true :=
  have h := late_break_timeout (Receiver.receivePotentialBreak Receiver.filling25 2000044) 7
    2000156 (by decide) (by decide) (Or.inl ⟨by decide, by decide⟩) (by decide) (by decide)
  ⟨by decide, h.1, h.2.1⟩

/-- C22: `completePacket` on a receiver whose active buffer is empty only sets the
state to Idle (and the idle detection to "after start bit"): the packet count, the
published size and contents, `packetStats`, the error counters and the calls
made to responders are unchanged. On a freshly begun receiver a framing error
followed by the idle-line event, and then the expiry of the timer, at any event
times, leaves the packet count unchanged and `readPacket` returning -1. -/
theorem empty_packet_publishes_nothing (s : Receiver) (hidx : s.activeBufIndex = 0)
    (eventTime idleTime : Int) (buf : Int → Nat) (startChannel len : Int)
    (stats : Option PacketStats) (hsc : 0 ≤ startChannel ∧ startChannel < 513)
    (hlen : 0 < len) :
    (Receiver.completePacket s).state = RecvStates.kIdle ∧
    Receiver.view (Receiver.completePacket s) = Receiver.view s ∧
    Receiver.sview (Receiver.completePacket s) = Receiver.sview s ∧
    (Receiver.completePacket s).receivePacketCalls = s.receivePacketCalls ∧
    (Receiver.receiveIdle (Receiver.receivePotentialBreak Receiver.fresh eventTime)
      idleTime).packetCount = Receiver.fresh.packetCount ∧
    (Receiver.readPacket
      (Receiver.receiveIdle (Receiver.receivePotentialBreak Receiver.fresh eventTime) idleTime)
      buf startChannel len stats).retval = -1 ∧
    (Receiver.endByIdle (Receiver.receivePotentialBreak Receiver.fresh eventTime)
      idleTime).packetCount = Receiver.fresh.packetCount ∧
    (Receiver.readPacket
      (Receiver.endByIdle (Receiver.receivePotentialBreak Receiver.fresh eventTime) idleTime)
      buf startChannel len stats).retval = -1 := by
  have he := Receiver.completePacket_empty s hidx
  obtain ⟨v1, v2⟩ := Receiver.view_break_only Receiver.fresh eventTime idleTime (by decide)
  simp only [Receiver.view, Prod.mk.injEq] at v1 v2
  refine ⟨by rw [he]; rfl, by rw [he]; rfl, by rw [he]; rfl, by rw [he]; rfl, v1.1, ?_, v2.1, ?_⟩
  · exact ((readPacket_contract _ buf startChannel len stats).2.1 hlen hsc.1 hsc.2
      (by rw [v1.2.1]; decide)).1
  · exact ((readPacket_contract _ buf startChannel len stats).2.1 hlen hsc.1 hsc.2
      (by rw [v2.2.1]; decide)).1

/-- Witness of `empty_packet_publishes_nothing`: a BREAK that starts at time 0,
the idle-line event at 244 us (BREAK = 180 us, MAB = 20 us) and the timer. -/
theorem empty_packet_publishes_nothing_witness :
    Receiver.fresh.activeBufIndex = 0 ∧
    (Receiver.completePacket Receiver.fresh).state = RecvStates.kIdle ∧
    (Receiver.readPacket (Receiver.endByIdle (Receiver.receivePotentialBreak Receiver.fresh 44)
      244) (fun _ => 0) 0 513 none).retval = -1 :=
  have h := empty_packet_publishes_nothing Receiver.fresh (by decide) 44 244 (fun _ => 0) 0 513
    none (by decide) (by decide)
  ⟨by decide, h.1, h.2.2.2.2.2.2.2⟩

/-- C23 (the code at the failing input): with the 25-slot packet of start code
0xCC published, the inline `get` of `TeensyDMX.h` returns 0 for channel 0, where
the last packet holds the start code 0xCC, which the `get` of `Receiver.cpp`
returns; for channel 1 both return the slot value 7. -/
theorem getInline_loses_start_code :
    Receiver.packetCC.inactiveData 0 = 0xCC ∧
    Receiver.getInline Receiver.packetCC 0 = 0 ∧
    (Receiver.get Receiver.packetCC 0 none).1 = 0xCC ∧
    Receiver.getInline Receiver.packetCC 1 = 7 ∧
    (Receiver.get Receiver.packetCC 1 none).1 = 7 := by
  decide

/-- C24 (counterexample): 25 bytes are buffered in state Data; when the framing
error of the next BREAK (start at 2000 us) has been handled the packet count is
still 0 and `readPacket` returns -1; only the first byte after the BREAK
publishes the 25 slots. -/
theorem framing_error_publishes_nothing :
    Receiver.filling25.state = RecvStates.kData ∧
    Receiver.filling25.activeBufIndex = 25 ∧
    (Receiver.receivePotentialBreak Receiver.filling25 2044).state = RecvStates.kBreak ∧
    (Receiver.receivePotentialBreak Receiver.filling25 2044).breakStartTime = 2000 ∧
    (Receiver.receivePotentialBreak Receiver.filling25 2044).packetCount = 0 ∧
    (Receiver.readPacket (Receiver.receivePotentialBreak Receiver.filling25 2044)
      (fun _ => 0) 0 513 none).retval = -1 ∧
    Receiver.nextBreak25.packetCount = 1 ∧
    (Receiver.readPacket Receiver.nextBreak25 (fun _ => 0) 0 513 none).retval = 25 := by
  decide

/-- C24 (amended): `receivePotentialBreak` completes nothing. When it returns the
state is Break and `breakStartTime` is the event time minus 44 us (modulo 2^32);
the packet count, the published size, contents and statistics, the error
counters, the connected flag, the calls made to responders, the fill index and
the buffered bytes are as before, and every `readPacket` returns what it would
have returned before the event. -/
theorem receivePotentialBreak_defers (s : Receiver) (eventTime : Int) :
    (Receiver.receivePotentialBreak s eventTime).state = RecvStates.kBreak ∧
    (Receiver.receivePotentialBreak s eventTime).breakStartTime = sub32 eventTime kCharTime ∧
    Receiver.view (Receiver.receivePotentialBreak s eventTime) = Receiver.view s ∧
    Receiver.sview (Receiver.receivePotentialBreak s eventTime) = Receiver.sview s ∧
    (Receiver.receivePotentialBreak s eventTime).connected = s.connected ∧
    (Receiver.receivePotentialBreak s eventTime).receivePacketCalls = s.receivePacketCalls ∧
    (Receiver.receivePotentialBreak s eventTime).activeBufIndex = s.activeBufIndex ∧
    (Receiver.receivePotentialBreak s eventTime).activeData = s.activeData ∧
    ∀ (buf : Int → Nat) (startChannel len : Int) (stats : Option PacketStats),
      (Receiver.readPacket (Receiver.receivePotentialBreak s eventTime) buf startChannel len
        stats).retval = (Receiver.readPacket s buf startChannel len stats).retval ∧
      (Receiver.readPacket (Receiver.receivePotentialBreak s eventTime) buf startChannel len
        stats).buf = (Receiver.readPacket s buf startChannel len stats).buf := by
  obtain ⟨h1, h2, h3, h4, h5, h6, h7, h8⟩ := Receiver.receivePotentialBreak_frame s eventTime
  refine ⟨h1, h2, h3, h4, h5, h6, h7, h8, fun buf startChannel len stats => ?_⟩
  have hv := h3
  simp only [Receiver.view, Prod.mk.injEq] at hv
  exact Receiver.readPacket_congr s (Receiver.receivePotentialBreak s eventTime) hv.2.1 hv.2.2
    buf startChannel len stats

/-- C25 (the code at the failing input): keep-short-packets is off and `watcher`
(output buffer of 8 bytes) is registered for start code 2; the three-byte packet
`[2, 1, 2]`, which is short (244 us), is counted as short and published with
size 0, and `completePacket` has called `receivePacket` of `watcher` once, with
length 0. -/
theorem short_packet_reaches_responder :
    Receiver.twoResponders.keepShortPackets = false ∧
    Receiver.shortForWatcher.errorStats.shortPacketCount = 1 ∧
    Receiver.shortForWatcher.packetStats.size = 0 ∧
    Receiver.shortForWatcher.receivePacketCalls.map
      (fun c => (c.responder.outputBufferSize, c.len)) = [(8, 0)] ∧
    Receiver.shortForWatcher.receivePacketCalls ≠ [] := by
  refine ⟨by decide, by decide, by decide, by decide, ?_⟩
  intro h
  have h2 : Receiver.shortForWatcher.receivePacketCalls.length = 0 := by rw [h]; rfl
  exact absurd h2 (by decide)

/-- C26 (the code at the failing input): `eater` is registered for start code 1 and
`watcher` for start code 2. The first `setResponder(1, nullptr)` leaves the entry
for 1 in the table and takes the count from 2 to 1; the second one finds that
entry again, takes the count to 0 and so drops the table: start code 2 has lost
its responder. -/
theorem setResponder_null_twice_drops_other :
    (Receiver.twoResponders.responderFor 2).isSome = true ∧
    Receiver.twoResponders.responderCount = 2 ∧
    ((Receiver.setResponder Receiver.twoResponders 1 none true true).2.responderFor 1).isSome =
      true ∧
    (Receiver.setResponder Receiver.twoResponders 1 none true true).2.responderCount = 1 ∧
    ((Receiver.setResponder (Receiver.setResponder Receiver.twoResponders 1 none true true).2
      1 none true true).2.responderFor 2).isNone = true ∧
    (Receiver.setResponder (Receiver.setResponder Receiver.twoResponders 1 none true true).2
      1 none true true).2.responders.isNone = true := by
  decide

/-- C27: on a receiver that came about by operations and events on a constructed
receiver, the fill index is in 0..512 whenever a handler has returned. A byte
is stored at the fill index, which is then incremented: after a BREAK that index
is 0, and in state Data it is the fill index the handler found. When that index
is 512, the store completes the packet in the same event, with any responder and
any result of `processByte`: the index is 0 and the state Idle when
`receiveByte` returns; and in state Idle `receiveByte` only stops the timer. -/
theorem active_buffer_bound (s : Receiver) (hs : Receiver.Reachable s) (b : Nat)
    (eop bt mt : Int) :
    (0 ≤ s.activeBufIndex ∧ s.activeBufIndex ≤ 512) ∧
    (Receiver.acceptBreak (Receiver.breakEntry s) eop bt mt).activeBufIndex = 0 ∧
    (Receiver.acceptBreak (Receiver.setILT (Receiver.breakEntry s)) eop bt mt).activeBufIndex =
      0 ∧
    (Receiver.putByte s b).activeData = Function.update s.activeData s.activeBufIndex b ∧
    (Receiver.putByte s b).activeBufIndex = s.activeBufIndex + 1 ∧
    (s.activeBufIndex = 512 →
      (Receiver.storeByte s b eop).activeBufIndex = 0 ∧
      (Receiver.storeByte s b eop).state = RecvStates.kIdle) ∧
    (s.state = RecvStates.kData → s.activeBufIndex = 512 →
      (Receiver.receiveByte s b eop).activeBufIndex = 0 ∧
      (Receiver.receiveByte s b eop).state = RecvStates.kIdle) ∧
    (s.state = RecvStates.kIdle → Receiver.receiveByte s b eop = Receiver.timerEnd s) := by
  have hb := Receiver.bounded_of_reachable s hs
  have hi : s.activeBufIndex < 513 := hb.idx
  have hb1 : Receiver.Bounded (Receiver.breakEntry s) := Receiver.bounded_same hb rfl
  have hb2 : Receiver.Bounded (Receiver.setILT (Receiver.breakEntry s)) :=
    Receiver.bounded_same hb rfl
  have ha1 := (Receiver.bounded_acceptBreak hb1 eop bt mt).idx0
  have ha2 := (Receiver.bounded_acceptBreak hb2 eop bt mt).idx0
  have hn1 := Receiver.acceptBreak_idx (Receiver.breakEntry s) eop bt mt
  have hn2 := Receiver.acceptBreak_idx (Receiver.setILT (Receiver.breakEntry s)) eop bt mt
  refine ⟨⟨hb.idx0, by omega⟩, by omega, by omega, (Receiver.putByte_store s b).2,
    (Receiver.putByte_store s b).1, fun h => Receiver.storeByte_full s b eop h,
    fun hst h => ?_, fun hst => Receiver.receiveByte_kIdle s b eop hst⟩
  rw [Receiver.receiveByte_kData s b eop hst]
  split_ifs
  · exact ⟨(Receiver.receiveBadBreak_post _).2.1, (Receiver.receiveBadBreak_post _).1⟩
  · exact Receiver.storeByte_full (Receiver.timerEnd s) b eop h

/-- Witness of `active_buffer_bound`: after the 25-slot packet the state is Idle
and a further byte is ignored. -/
theorem active_buffer_bound_witness :
    Receiver.packet25.state = RecvStates.kIdle ∧
    Receiver.packet25.activeBufIndex ≤ 512 ∧
    Receiver.receiveByte Receiver.packet25 5 9000 = Receiver.timerEnd Receiver.packet25 :=
  have h := active_buffer_bound Receiver.packet25 Receiver.packet25_reachable 5 9000 0 0
  ⟨by decide, h.1.2, h.2.2.2.2.2.2.2 (by decide)⟩

/-- C28: take any sequence of operations and events on a constructed receiver and
the same sequence with `d` added, modulo 2^32, to the time of every byte, framing
error, idle-line event and MAB rise. After the two sequences (hence after every
event of them) the two receivers agree on every field other than the four stored
event times: the state, the connected flag, the fill index and the buffered
bytes, the packet count, the published size and contents, the error counters,
`packetStats` with all its times, and the calls made to responders. -/
theorem timestamps_shift_independent (serialIndex d : Int) (ops : List Receiver.Op) :
    Receiver.retime (Receiver.run (Receiver.new serialIndex) (ops.map (Receiver.shiftOp d)))
      (Receiver.run (Receiver.new serialIndex) ops).breakStartTime
      (Receiver.run (Receiver.new serialIndex) ops).lastBreakStartTime
      (Receiver.run (Receiver.new serialIndex) ops).lastSlotEndTime
      (Receiver.run (Receiver.new serialIndex) ops).mabStartTime =
      Receiver.run (Receiver.new serialIndex) ops ∧
    (Receiver.run (Receiver.new serialIndex) (ops.map (Receiver.shiftOp d))).state =
      (Receiver.run (Receiver.new serialIndex) ops).state ∧
    (Receiver.run (Receiver.new serialIndex) (ops.map (Receiver.shiftOp d))).connected =
      (Receiver.run (Receiver.new serialIndex) ops).connected ∧
    (Receiver.run (Receiver.new serialIndex) (ops.map (Receiver.shiftOp d))).activeBufIndex =
      (Receiver.run (Receiver.new serialIndex) ops).activeBufIndex ∧
    (Receiver.run (Receiver.new serialIndex) (ops.map (Receiver.shiftOp d))).activeData =
      (Receiver.run (Receiver.new serialIndex) ops).activeData ∧
    Receiver.view (Receiver.run (Receiver.new serialIndex) (ops.map (Receiver.shiftOp d))) =
      Receiver.view (Receiver.run (Receiver.new serialIndex) ops) ∧
    Receiver.sview (Receiver.run (Receiver.new serialIndex) (ops.map (Receiver.shiftOp d))) =
      Receiver.sview (Receiver.run (Receiver.new serialIndex) ops) ∧
    (Receiver.run (Receiver.new serialIndex)
      (ops.map (Receiver.shiftOp d))).receivePacketCalls =
      (Receiver.run (Receiver.new serialIndex) ops).receivePacketCalls :=
  Receiver.shifted_obs
    (Receiver.shifted_run ops _ _ (Receiver.shifted_new d serialIndex))

/-- C29 (the code at the failing input): with the 25-slot packet published,
`readPacket(buf, 24, INT_MAX)` computes `24 + INT_MAX` as an `int`, which wraps to
a negative value, so `len` is not cut back: the call returns 2147483647, more than
the one byte the packet holds from channel 24 and more than 513, and the copy
overwrites `buf[1000]`. -/
theorem readPacket_wrapped_sum_copies_past_packet :
    Receiver.packet25.packetSize = 25 ∧
    wrapInt32 (24 + 2147483647) = -2147483625 ∧
    (Receiver.readPacket Receiver.packet25 (fun _ => 9) 24 2147483647 none).retval =
      2147483647 ∧
    ¬ (Receiver.readPacket Receiver.packet25 (fun _ => 9) 24 2147483647 none).retval ≤
      Receiver.packet25.packetSize - 24 ∧
    ¬ (Receiver.readPacket Receiver.packet25 (fun _ => 9) 24 2147483647 none).retval ≤ 513 ∧
    (Receiver.readPacket Receiver.packet25 (fun _ => 9) 24 2147483647 none).buf 1000 ≠ 9 := by
  decide

/-- C30 (the code at the failing input): the BREAK of a 25-slot packet starts at 0
and its last slot ends at 1212 us; completed by an idle timeout its `packetTime`
is 1212. Completed by the first byte after the next BREAK, which starts at
2000 us, its `packetTime` is 1212 - 2000 modulo 2^32 = 4294966508. A 10-slot packet
(last slot ends at 552 us) is discarded as short by the idle timeout, but
published with 10 slots and not counted as short after the next BREAK. -/
theorem packetTime_taken_from_next_break :
    Receiver.filling25.breakStartTime = 0 ∧
    Receiver.filling25.lastSlotEndTime = 1212 ∧
    (Receiver.endByIdle Receiver.filling25 1300).packetStats.packetTime = 1212 ∧
    Receiver.nextBreak25.packetStats.size = 25 ∧
    Receiver.nextBreak25.packetStats.packetTime = 4294966508 ∧
    Receiver.filling10.lastSlotEndTime = 552 ∧
    (Receiver.endByIdle Receiver.filling10 1300).errorStats.shortPacketCount = 1 ∧
    (Receiver.endByIdle Receiver.filling10 1300).packetStats.size = 0 ∧
    Receiver.nextBreak10.errorStats.shortPacketCount = 0 ∧
    Receiver.nextBreak10.packetStats.size = 10 ∧
    Receiver.nextBreak10.packetStats.isShort = false := by
  decide

end TeensyDMX
